import Mathlib

/-!
Verification development for the aeon2yw synchronizer.

This file gives a shallow embedding, in Lean 4, of the parts of the
aeon2yw Python sources that the specification talks about:

* the pseudo-GUID generator (`get_sub_guid`, `get_uid`),
* the moon-phase calculator (`get_moon_phase`),
* the backup/restore write wrappers (`save_timeline`,
  `Yw7File._write_element_tree`),
* the per-event date/time extraction of `JsonTimeline2.read`,
* the synchronization engine `Yw7Target.merge` (timeline -> novel) and
  `JsonTimeline2.merge` (novel -> timeline).

Python dictionaries are modelled as insertion-ordered association lists,
`None`-able attributes as `Option`, Python truthiness by explicit
`truthy*` helpers, and uncaught Python exceptions (`KeyError`,
`TypeError`, `ValueError`) as an explicit `exc` outcome.
-/

namespace Aeon2yw

/-- Error marker: the Python module constant `ERROR = '!'`. -/
def ERROR : String := "!"

/-! ## Python-style helpers -/

/-- Rendering a `None`-able string the way a Python f-string renders the
underlying value (`None` prints as `"None"`). -/
def pyStr : Option String → String
  | some s => s
  | none => "None"

/-- Python truthiness of a `None`-able bool: only `True` is truthy. -/
def truthyB : Option Bool → Bool
  | some true => true
  | _ => false

/-- Python truthiness of a `None`-able string: `None` and `""` are falsy. -/
def truthyS : Option String → Bool
  | some s => !s.isEmpty
  | none => false

/-- Python truthiness of a `None`-able list: `None` and `[]` are falsy. -/
def truthyL : Option (List String) → Bool
  | some l => !l.isEmpty
  | none => false

/-- Parse a decimal digit. -/
def digitVal? (c : Char) : Option Nat :=
  if c.isDigit then some (c.toNat - '0'.toNat) else none

/-- Parse a nonempty all-digit character list as a natural number. -/
def parseDigits : List Char → Option Nat
  | [] => none
  | cs => go cs 0
where
  go : List Char → Nat → Option Nat
    | [], acc => some acc
    | c :: rest, acc =>
      match digitVal? c with
      | some d => go rest (acc * 10 + d)
      | none => none

/-- Model of Python `int(s)` on the strings occurring in this program:
an optional sign followed by decimal digits.  (CPython also strips
whitespace and allows `_` separators; such strings never occur as
yWriter ids or Aeon dates, so the model leaves them unparsed.) -/
def pyInt? (s : String) : Option Int :=
  match s.toList with
  | '-' :: rest => (parseDigits rest).map (fun n => -(n : Int))
  | '+' :: rest => (parseDigits rest).map (fun n => (n : Int))
  | cs => (parseDigits cs).map (fun n => (n : Int))

/-- Python `s.split(sep)` for a one-character separator, on character
lists (`''.split(sep)` yields `['']`). -/
def splitOnChar (sep : Char) : List Char → List (List Char)
  | [] => [[]]
  | c :: rest =>
    let r := splitOnChar sep rest
    if c = sep then [] :: r
    else
      match r with
      | [] => [[c]]
      | g :: gs => (c :: g) :: gs

/-- Python `s.split(sep)` on strings. -/
def pySplit (sep : Char) (s : String) : List String :=
  (splitOnChar sep s.toList).map String.mk

/-- The decimal digit characters. -/
def digitChar (d : Nat) : Char :=
  if d = 0 then '0' else if d = 1 then '1' else if d = 2 then '2'
  else if d = 3 then '3' else if d = 4 then '4' else if d = 5 then '5'
  else if d = 6 then '6' else if d = 7 then '7' else if d = 8 then '8' else '9'

/-- Fuel-driven decimal printer (most significant digit first; the fuel
argument keeps the recursion structural). -/
def natDigitsAux : Nat → Nat → List Char → List Char
  | 0, _, acc => acc
  | fuel + 1, n, acc => if n = 0 then acc else natDigitsAux fuel (n / 10) (digitChar (n % 10) :: acc)

/-- Decimal digits of a natural number. -/
def natDigits (n : Nat) : List Char := if n = 0 then ['0'] else natDigitsAux n n []

/-- Python `str` of an integer. -/
def pyIntStr (i : Int) : String :=
  if i < 0 then "-" ++ String.mk (natDigits i.natAbs) else String.mk (natDigits i.natAbs)

/-- Python `%` (floor remainder, sign follows the divisor). -/
def pymod (a b : Int) : Int := Int.fmod a b

/-- Python `//` (floor division). -/
def pydiv (a b : Int) : Int := Int.fdiv a b

/-- Python substring test `sub in s` on character lists. -/
def listSub : List Char → List Char → Bool
  | sub, [] => sub.isEmpty
  | sub, c :: rest => decide (sub.isPrefixOf (c :: rest)) || listSub sub rest

/-- Python substring test `sub in s` for strings. -/
def pyInStr (sub s : String) : Bool := listSub sub.toList s.toList

/-! ## Insertion-ordered association lists (Python `dict`) -/

/-- Look up the first binding of a key. -/
def alGet {κ α : Type} [DecidableEq κ] : List (κ × α) → κ → Option α
  | [], _ => none
  | (k, v) :: rest, k' => if k = k' then some v else alGet rest k'

/-- Membership of a key (`k in d`). -/
def alHas {κ α : Type} [DecidableEq κ] (l : List (κ × α)) (k : κ) : Bool :=
  (alGet l k).isSome

/-- Assignment `d[k] = v`: update in place if the key exists (Python
dicts keep the original position), append otherwise. -/
def alSet {κ α : Type} [DecidableEq κ] : List (κ × α) → κ → α → List (κ × α)
  | [], k, v => [(k, v)]
  | (k', v') :: rest, k, v =>
    if k' = k then (k', v) :: rest else (k', v') :: alSet rest k v

/-- Delete a key (first binding). -/
def alDel {κ α : Type} [DecidableEq κ] : List (κ × α) → κ → List (κ × α)
  | [], _ => []
  | (k', v') :: rest, k => if k' = k then rest else (k', v') :: alDel rest k

/-- The values of an association list (`d.values()`). -/
def alVals {κ α : Type} (l : List (κ × α)) : List α := l.map Prod.snd

/-! ## Identifier generator (`get_sub_guid`, `get_uid`)

The Python source derives each dash group from
`pbkdf2_hmac('sha1', text, salt, 1)`, an external `hashlib` primitive.
The embedding takes that keyed hash as an explicit function parameter
`H : String → String → Nat` standing for the big-endian integer value of
the 20-byte key (`int.from_bytes(key, 'big')`). -/

/-- The restricted GUID alphabet, `guidChars = list('ABCDEF0123456789')`. -/
def guidChars : List Char := "ABCDEF0123456789".toList

/-- Faithful model of `get_sub_guid`: emit base-16 digits of `keyInt`
(least significant first, via the restricted alphabet) until `size`
characters are produced or the integer is exhausted. -/
def get_sub_guid : Nat → Nat → List Char
  | _, 0 => []
  | keyInt, size + 1 =>
    if keyInt = 0 then []
    else guidChars.getD (keyInt % 16) 'A' :: get_sub_guid (keyInt / 16) size

/-- The five (size, salt) pairs of `get_uid`. -/
def uidGroups : List (Nat × String) := [(8, "a"), (4, "b"), (4, "c"), (4, "d"), (12, "e")]

/-- Faithful model of `get_uid` over the abstract keyed hash `H`. -/
def get_uid (H : String → String → Nat) (text : String) : String :=
  String.intercalate "-" (uidGroups.map (fun p => String.mk (get_sub_guid (H text p.2) p.1)))

/-! ## Moon-phase calculator (`get_moon_phase`)

The only floating-point step in the source is
`r -= 8.3; r = math.floor(r + 0.5) % 30` (for years >= 2000; `r -= 4`
for earlier years).  Before that step `r` is an integer, so the float
expression is `floor(r - 8.3 + 0.5) = floor((r - 8) + 0.2) = r - 8`
(resp. `floor((r - 4) + 0.5) = r - 4`): the fractional part 0.2 (0.5)
is at distance >= 0.2 from the next integer while the accumulated
double rounding error is below 2^-40 for every date whose components fit
in 45 bits, so the integer model below is exact on that whole range. -/

/-- Faithful integer model of `get_moon_phase`. -/
def get_moon_phase (dateStr : String) : Option Int :=
  match pySplit '-' dateStr with
  | [y, m, d] =>
    match pyInt? y, pyInt? m, pyInt? d with
    | some year, some month, some day =>
      let r0 := pymod year 100
      let r1 := pymod r0 19
      let r2 := if r1 > 9 then r1 - 19 else r1
      let r3 := pymod (r2 * 11) 30 + month + day
      let r4 := if month < 3 then r3 + 2 else r3
      let r5 := if year < 2000 then r4 - 4 else r4 - 8
      let r6 := pymod r5 30
      let r7 := if r6 < 0 then r6 + 30 else r6
      some r7
    | _, _, _ => none
  | _ => none

/-! ## Backup/restore write wrappers (`save_timeline`,
`Yw7File._write_element_tree`)

The file system is a path-to-content association list.  The actual
serialization step may fail (disk error); the embedding takes the
attempt's outcome as a parameter: on failure the canonical path may have
been left with arbitrary partial content. -/

/-- A file system snapshot: path to content. -/
abbrev FileSys := List (String × String)

/-- Model of `os.replace(src, dst)` (used only when `src` exists). -/
def os_replace (fs : FileSys) (src dst : String) : FileSys :=
  match alGet fs src with
  | none => fs
  | some c => alSet (alDel fs src) dst c

/-- Outcome of the raw serialization attempt inside the `try` block. -/
inductive WriteAttempt : Type
  | success : WriteAttempt
  | failure : Option String → WriteAttempt

/-- Faithful model of `save_timeline(jsonData, filePath)`: move any
existing file to `filePath + '.bak'`, attempt the write, and on failure
move the backup back before returning the error message. -/
def save_timeline (fs : FileSys) (jsonData : String) (filePath : String)
    (att : WriteAttempt) : String × FileSys :=
  let backedUp := alHas fs filePath
  let fs1 := if backedUp then os_replace fs filePath (filePath ++ ".bak") else fs
  match att with
  | .success => ("\"" ++ filePath ++ "\" written.", alSet fs1 filePath jsonData)
  | .failure g =>
    let fs2 := match g with
      | none => fs1
      | some garbage => alSet fs1 filePath garbage
    let fs3 := if backedUp then os_replace fs2 (filePath ++ ".bak") filePath else fs2
    (ERROR ++ "Cannot write \"" ++ filePath ++ "\".", fs3)

/-- Faithful model of `Yw7File._write_element_tree(ywProject)`; identical
backup/restore protocol, with the novel-side serialized tree and error
message. -/
def write_element_tree (fs : FileSys) (treeData : String) (filePath : String)
    (att : WriteAttempt) : String × FileSys :=
  let backedUp := alHas fs filePath
  let fs1 := if backedUp then os_replace fs filePath (filePath ++ ".bak") else fs
  match att with
  | .success => ("yWriter XML tree written.", alSet fs1 filePath treeData)
  | .failure g =>
    let fs2 := match g with
      | none => fs1
      | some garbage => alSet fs1 filePath garbage
    let fs3 := if backedUp then os_replace fs2 (filePath ++ ".bak") filePath else fs2
    (ERROR ++ "Cannot write file: \"" ++ filePath ++ "\".", fs3)

/-! ## Proleptic Gregorian calendar arithmetic (Python `datetime`)

`JsonTimeline2.DATE_LIMIT` is `(datetime(100, 1, 1) - datetime.min).total_seconds()`;
`datetime.min` is 0001-01-01 00:00.  Day numbers below count days since
0001-01-01 in the proleptic Gregorian calendar, exactly as CPython's
`datetime` ordinal (minus one). -/

/-- Leap-year test of the proleptic Gregorian calendar. -/
def isLeap (y : Int) : Bool :=
  (pymod y 4 == 0 && pymod y 100 != 0) || pymod y 400 == 0

/-- Days in the given month. -/
def daysInMonth (y m : Int) : Int :=
  if m = 2 then (if isLeap y then 29 else 28)
  else if m = 4 ∨ m = 6 ∨ m = 9 ∨ m = 11 then 30
  else 31

/-- Days in all years before year `y` (year 1 is the first year). -/
def daysBeforeYear (y : Int) : Int :=
  365 * (y - 1) + pydiv (y - 1) 4 - pydiv (y - 1) 100 + pydiv (y - 1) 400

/-- Days in the months of year `y` strictly before month `m`. -/
def daysBeforeMonth (y m : Int) : Int :=
  let base :=
    if m ≤ 1 then 0 else if m = 2 then 31 else if m = 3 then 59
    else if m = 4 then 90 else if m = 5 then 120 else if m = 6 then 151
    else if m = 7 then 181 else if m = 8 then 212 else if m = 9 then 243
    else if m = 10 then 273 else if m = 11 then 304 else 334
  if m > 2 ∧ isLeap y then base + 1 else base

/-- Day number of a civil date, with `daysFromCivil 1 1 1 = 0`
(CPython `_ymd2ord(y, m, d) - 1`). -/
def daysFromCivil (y m d : Int) : Int :=
  daysBeforeYear y + daysBeforeMonth y m + (d - 1)

/-- The `DATE_LIMIT` class constant, in seconds since `datetime.min`. -/
def DATE_LIMIT : Int := 86400 * daysFromCivil 100 1 1

/-- Inverse civil-date conversion (days since 0001-01-01 to y/m/d),
used to render `datetime.isoformat()` date strings. -/
def civilFromDays (z0 : Int) : Int × Int × Int :=
  let z := z0 + 306
  let era := pydiv z 146097
  let doe := z - era * 146097
  let yoe := pydiv (doe - pydiv doe 1460 + pydiv doe 36524 - pydiv doe 146096) 365
  let y := yoe + era * 400
  let doy := doe - (365 * yoe + pydiv yoe 4 - pydiv yoe 100)
  let mp := pydiv (5 * doy + 2) 153
  let d := doy - pydiv (153 * mp + 2) 5 + 1
  let m := if mp < 10 then mp + 3 else mp - 9
  (if m ≤ 2 then y + 1 else y, m, d)

/-- Zero-pad the decimal representation of a nonnegative integer. -/
def zeroPad (width : Nat) (i : Int) : String :=
  let s := toString i.natAbs
  if s.length < width then String.mk (List.replicate (width - s.length) '0') ++ s else s

/-- The date half of `datetime.isoformat()`. -/
def isoDateStr (y m d : Int) : String :=
  zeroPad 4 y ++ "-" ++ zeroPad 2 m ++ "-" ++ zeroPad 2 d

/-- The time half of `datetime.isoformat()` (timestamps are whole seconds). -/
def isoTimeStr (h m s : Int) : String :=
  zeroPad 2 h ++ ":" ++ zeroPad 2 m ++ ":" ++ zeroPad 2 s

/-! ## Per-event date/time extraction of `JsonTimeline2.read`

This embeds the `--- Get date/time/duration` block of
`JsonTimeline2.read` (the loop over `evt['rangeValues']`): the first
range value whose `rangeProperty` matches the calendar GUID supplies the
timestamp; the scene date/time (and duration) are computed only when
that timestamp is at or beyond `DATE_LIMIT`. -/

/-- A member of `evt['rangeValues'][i]['span']`: each component is
present or absent in the JSON object. -/
structure PySpan where
  years : Option Int
  months : Option Int
  weeks : Option Int
  days : Option Int
  hours : Option Int
  minutes : Option Int
  seconds : Option Int
  deriving DecidableEq, Repr

/-- The span object with no components. -/
def emptySpan : PySpan := ⟨none, none, none, none, none, none, none⟩

/-- A member of `evt['rangeValues']`. -/
structure RangeValue where
  rangeProperty : String
  timestamp : Int
  span : PySpan
  deriving DecidableEq, Repr

/-- Result of the date/time/duration block for one event. -/
structure EvtDT where
  timestamp : Int
  date : Option String
  time : Option String
  lastsDays : Option String
  lastsHours : Option String
  lastsMinutes : Option String
  valueError : Bool
  deriving DecidableEq, Repr

/-- The block's result when no range value matches the calendar GUID. -/
def initEvtDT : EvtDT := ⟨0, none, none, none, none, none, false⟩

/-- The month-carrying `while endMonth > 12` loop, in closed form. -/
def normMonths (ey em : Int) : Int × Int :=
  if em > 12 then (ey + pydiv (em - 1) 12, pymod (em - 1) 12 + 1) else (ey, em)

/-- Validity of `datetime(y, m, d)` (raises `ValueError` otherwise). -/
def mkDateValid (y m d : Int) : Bool :=
  1 ≤ y && y ≤ 9999 && 1 ≤ m && m ≤ 12 && 1 ≤ d && d ≤ daysInMonth y m

/-- The year/month half of the duration computation:
`sceneEnd = datetime(endYear, endMonth, sceneStart.day)` minus the start
date, in whole days (the difference of two midnights has zero seconds). -/
def durFromSpan (sp : PySpan) (sy sm sd : Int) : Except Unit (Int × Int × Int) :=
  if sp.years.isSome || sp.months.isSome then
    let ey := sy + sp.years.getD 0
    let em := sm + sp.months.getD 0
    let p := normMonths ey em
    if mkDateValid p.1 p.2 sd then
      .ok (daysFromCivil p.1 p.2 sd - daysFromCivil sy sm sd, 0, 0)
    else .error ()
  else .ok (0, 0, 0)

/-- The week/day/hour/minute/second additions and the final
minute-to-hour-to-day normalization. -/
def addSpan (sp : PySpan) (d0 h0 m0 : Int) : Int × Int × Int :=
  let d1 := d0 + sp.weeks.getD 0 * 7
  let d2 := d1 + sp.days.getD 0
  let d3 := d2 + pydiv (sp.hours.getD 0) 24
  let h1 := h0 + pymod (sp.hours.getD 0) 24
  let h2 := h1 + pydiv (sp.minutes.getD 0) 60
  let m1 := m0 + pymod (sp.minutes.getD 0) 60
  let m2 := m1 + pydiv (sp.seconds.getD 0) 60
  let h3 := h2 + pydiv m2 60
  let m3 := pymod m2 60
  let d4 := d3 + pydiv h3 24
  let h4 := pymod h3 24
  (d4, h4, m3)

/-- The first timestamp at which `datetime.min + timedelta(seconds=timestamp)`
exceeds `datetime.max` (whose year is 9999) and raises `OverflowError`:
the first second of year 10000. -/
def DATE_OVERFLOW : Int := 86400 * daysFromCivil 10000 1 1

/-- Processing of the first matching range value.  The computation of
`sceneStart = datetime.min + timedelta(seconds=timestamp)` raises an
uncaught `OverflowError` when the result would pass `datetime.max`
(year 9999), before any date/time assignment; that crash is reported as
an error outcome. -/
def processDateRv (rv : RangeValue) : Except String EvtDT :=
  let ts := rv.timestamp
  if DATE_LIMIT ≤ ts then
    if DATE_OVERFLOW ≤ ts then .error "OverflowError"
    else
      let days := pydiv ts 86400
      let secs := pymod ts 86400
      let ymd := civilFromDays days
      let dateS := isoDateStr ymd.1 ymd.2.1 ymd.2.2
      let timeS := isoTimeStr (pydiv secs 3600) (pymod (pydiv secs 60) 60) (pymod secs 60)
      match durFromSpan rv.span ymd.1 ymd.2.1 ymd.2.2 with
      | .error _ =>
        .ok { timestamp := ts, date := some dateS, time := some timeS,
              lastsDays := none, lastsHours := none, lastsMinutes := none,
              valueError := true }
      | .ok dur =>
        let f := addSpan rv.span dur.1 dur.2.1 dur.2.2
        .ok { timestamp := ts, date := some dateS, time := some timeS,
              lastsDays := some (pyIntStr f.1), lastsHours := some (pyIntStr f.2.1),
              lastsMinutes := some (pyIntStr f.2.2), valueError := false }
  else .ok { initEvtDT with timestamp := ts }

/-- Faithful model of the per-event date/time/duration loop of
`JsonTimeline2.read` (break on the first matching range property). -/
def evtDateTime (dateGuid : String) : List RangeValue → Except String EvtDT
  | [] => .ok initEvtDT
  | rv :: rest =>
    if rv.rangeProperty = dateGuid then processDateRv rv else evtDateTime dateGuid rest

/-- The range value the loop breaks on. -/
def firstDateRv (dateGuid : String) (rvs : List RangeValue) : Option RangeValue :=
  rvs.find? (fun rv => rv.rangeProperty == dateGuid)

/-! ## The yWriter-side entity graph (pywriter `Novel` state)

Fields are `Option`-valued exactly as the Python attributes are
`None`-able; `kwSceneArcs` models `kwVar['Field_SceneArcs']` with the
outer `Option` standing for key presence in the `kwVar` dict. -/

/-- A yWriter/pywriter `Scene` restricted to the attributes the
synchronization engine reads or writes. -/
structure PyScene where
  title : Option String
  desc : Option String
  sceneContent : Option String
  status : Option Int
  sceneNotes : Option String
  tags : Option (List String)
  isUnused : Option Bool
  isNotesScene : Option Bool
  characters : Option (List String)
  locations : Option (List String)
  items : Option (List String)
  date : Option String
  time : Option String
  minute : Option String
  hour : Option String
  day : Option String
  lastsMinutes : Option String
  lastsHours : Option String
  lastsDays : Option String
  kwSceneArcs : Option (Option String)
  deriving DecidableEq, Repr

/-- `Scene()`: a freshly constructed scene (every attribute `None`,
`kwVar` empty). -/
def emptyScene : PyScene :=
  ⟨none, none, none, none, none, none, none, none, none, none,
   none, none, none, none, none, none, none, none, none, none⟩

/-- A pywriter `Chapter` restricted to the attributes the engine uses. -/
structure PyChapter where
  title : Option String
  chType : Option Int
  isUnused : Option Bool
  isTrash : Option Bool
  srtScenes : List String
  deriving DecidableEq, Repr

/-- A pywriter `WorldElement`/`Character`.  The engine copies these
records wholesale and reads only `title`; the remaining attributes are
carried so that copying is observable. -/
structure PyWorld where
  title : Option String
  image : Option String
  desc : Option String
  aka : Option String
  tags : Option (List String)
  notes : Option String
  deriving DecidableEq, Repr

/-- The entity-graph state of a pywriter `Novel` (insertion-ordered
dicts plus the explicit order lists). -/
structure YwNovel where
  scenes : List (String × PyScene)
  chapters : List (String × PyChapter)
  srtChapters : List String
  characters : List (String × PyWorld)
  srtCharacters : List String
  locations : List (String × PyWorld)
  srtLocations : List String
  items : List (String × PyWorld)
  srtItems : List String
  deriving DecidableEq, Repr

/-- Outcome of a merge call: a returned message (success or `!`-marked
error) with the final state, or an uncaught Python exception. -/
inductive MergeRes : Type
  | ret (msg : String) (st : YwNovel)
  | exc (e : String)
  deriving DecidableEq, Repr

/-- Error message for an ambiguous timeline event title. -/
def ambigEventMsg (t : Option String) : String :=
  ERROR ++ "Ambiguous Aeon event title \"" ++ pyStr t ++ "\"."

/-- Error message for an ambiguous yWriter scene title. -/
def ambigYwSceneMsg (t : Option String) : String :=
  ERROR ++ "Ambiguous yWriter scene title \"" ++ pyStr t ++ "\"."

/-- Error message for an ambiguous yWriter character name. -/
def ambigYwCharMsg (t : Option String) : String :=
  ERROR ++ "Ambiguous yWriter character \"" ++ pyStr t ++ "\"."

/-- Error message for an ambiguous yWriter location title. -/
def ambigYwLocMsg (t : Option String) : String :=
  ERROR ++ "Ambiguous yWriter location \"" ++ pyStr t ++ "\"."

/-- Error message for an ambiguous yWriter item title. -/
def ambigYwItemMsg (t : Option String) : String :=
  ERROR ++ "Ambiguous yWriter item \"" ++ pyStr t ++ "\"."

/-! ## `Yw7Target.merge` (timeline -> novel synchronization) -/

/-- Accumulator of the source-scene scan: collected titles and the
characters/locations/items linked from normal scenes. -/
structure SrcScan where
  titles : List (Option String)
  linkedC : List String
  linkedL : List String
  linkedI : List String
  deriving DecidableEq, Repr

/-- Add an element to a list unless present; `list(set(a + b))` is used
by the source only for membership tests, for which this ordered union
is exact. -/
def addUnique (acc : List String) (x : String) : List String :=
  if x ∈ acc then acc else acc ++ [x]

/-- Membership-exact model of `list(set(a + b))`. -/
def setUnion (a b : List String) : List String := b.foldl addUnique a

/-- One step of the source-scene scan: record the title and, for normal
(non-notes) scenes, collect the referenced characters/locations/items. -/
def srcScanStep (sc : PyScene) (acc : SrcScan) : SrcScan :=
  let acc1 := { acc with titles := acc.titles ++ [sc.title] }
  if ¬ truthyB sc.isNotesScene then
    { acc1 with
      linkedC := if truthyL sc.characters then setUnion acc1.linkedC (sc.characters.getD []) else acc1.linkedC,
      linkedL := if truthyL sc.locations then setUnion acc1.linkedL (sc.locations.getD []) else acc1.linkedL,
      linkedI := if truthyL sc.items then setUnion acc1.linkedI (sc.items.getD []) else acc1.linkedI }
  else acc1

/-- The `--- Check the source for ambiguous titles` scene loop of
`Yw7Target.merge`: fail on a repeated title, and collect the
character/location/item ids of normal (non-notes) scenes. -/
def srcScan : List (String × PyScene) → SrcScan → Except (Option String) SrcScan
  | [], acc => .ok acc
  | (_, sc) :: rest, acc =>
    if sc.title ∈ acc.titles then .error sc.title
    else srcScan rest (srcScanStep sc acc)

/-- The source-side world-entity ambiguity check: only entities in the
linked set participate; returns the first repeated title. -/
def worldDupScan (ents : List (String × PyWorld)) (linked : List String) : Option (Option String) :=
  go ents []
where
  go : List (String × PyWorld) → List (Option String) → Option (Option String)
    | [], _ => none
    | (k, e) :: rest, names =>
      if ¬ k ∈ linked then go rest names
      else if e.title ∈ names then some e.title
      else go rest (names ++ [e.title])

/-- The `--- Analyze the target` scene loop: track the maximal numeric
scene id (`int(scId)`, `ValueError` on a non-numeric id) and mark
non-notes scenes whose title vanished from the source as unused. -/
def markUnusedScan (titles : List (Option String)) :
    List (String × PyScene) → Int → Except String (Int × List (String × PyScene))
  | [], m => .ok (m, [])
  | (k, sc) :: rest, m =>
    match pyInt? k with
    | none => .error "ValueError"
    | some n =>
      let m1 := if n > m then n else m
      let sc' :=
        if ¬ sc.title ∈ titles ∧ ¬ truthyB sc.isNotesScene then
          { sc with isUnused := some true }
        else sc
      match markUnusedScan titles rest m1 with
      | .error e => .error e
      | .ok r => .ok (r.1, (k, sc') :: r.2)

/-- Maximal numeric key of a dict (`int(chId)` over `self.chapters`). -/
def maxIdScan {α : Type} : List (String × α) → Int → Except String Int
  | [], m => .ok m
  | (k, _) :: rest, m =>
    match pyInt? k with
    | none => .error "ValueError"
    | some n => maxIdScan rest (if n > m then n else m)

/-- The per-chapter inner loop of the target scene ambiguity check:
soft-deleted narrative scenes are exempt; every other listed scene must
have a globally fresh title. -/
def scIdsByTitleCh (scenes : List (String × PyScene)) :
    List String → List (Option String × String) →
    Except (Sum String (Option String)) (List (Option String × String))
  | [], m => .ok m
  | scId :: rest, m =>
    match alGet scenes scId with
    | none => .error (.inl "KeyError")
    | some sc =>
      if truthyB sc.isUnused ∧ ¬ truthyB sc.isNotesScene then
        scIdsByTitleCh scenes rest m
      else if alHas m sc.title then .error (.inr sc.title)
      else scIdsByTitleCh scenes rest (m ++ [(sc.title, scId)])

/-- The `--- Check the target for ambiguous titles` scene loop, chapter
by chapter. -/
def buildScIdsByTitle (scenes : List (String × PyScene)) :
    List (String × PyChapter) → List (Option String × String) →
    Except (Sum String (Option String)) (List (Option String × String))
  | [], m => .ok m
  | (_, ch) :: rest, m =>
    match scIdsByTitleCh scenes ch.srtScenes m with
    | .error e => .error e
    | .ok m1 => buildScIdsByTitle scenes rest m1

/-- The target-side world-entity check: build the title-to-id map,
track the maximal numeric id, and fail on a repeated title. -/
def worldTargetScan : List (String × PyWorld) →
    List (Option String × String) → Int →
    Except (Sum String (Option String)) (List (Option String × String) × Int)
  | [], m, idMax => .ok (m, idMax)
  | (k, e) :: rest, m, idMax =>
    match pyInt? k with
    | none => .error (.inl "ValueError")
    | some n =>
      let idMax1 := if n > idMax then n else idMax
      if alHas m e.title then .error (.inr e.title)
      else worldTargetScan rest (m ++ [(e.title, k)]) idMax1

/-- State of the world-entity matching step: the source-to-target id
bindings plus the target dict, order list and id counter. -/
structure BindSt where
  m : List (String × String)
  ents : List (String × PyWorld)
  srt : List String
  idMax : Int
  deriving DecidableEq, Repr

/-- The `--- Update characters/locations/items from the source` loops:
bind by title, or create a new target entity for linked source
entities. -/
def bindWorld (byTitle : List (Option String × String)) (linked : List String) :
    List (String × PyWorld) → BindSt → BindSt
  | [], st => st
  | (srcId, e) :: rest, st =>
    match alGet byTitle e.title with
    | some tgtId => bindWorld byTitle linked rest { st with m := st.m ++ [(srcId, tgtId)] }
    | none =>
      if srcId ∈ linked then
        let idMax := st.idMax + 1
        let tgtId := pyIntStr idMax
        bindWorld byTitle linked rest
          ⟨st.m ++ [(srcId, tgtId)], alSet st.ents tgtId e, st.srt ++ [tgtId], idMax⟩
      else bindWorld byTitle linked rest st

/-- Mutable state of the `--- Update scenes from the source` loop. -/
structure UpdState where
  scenes : List (String × PyScene)
  chapters : List (String × PyChapter)
  srtChapters : List String
  scIdMax : Int
  newChapterExists : Bool
  deriving DecidableEq, Repr

/-- The `Chapter()` object titled `'New scenes'`. -/
def newChapterRec : PyChapter := ⟨some "New scenes", none, none, none, []⟩

/-- Notes merge policy of the timeline-to-novel direction: append the
source notes unless they are already a substring of the target notes. -/
def mergeNotes : Option String → Option String → Option String
  | none, t => t
  | some n, none => some n
  | some n, some t => if pyInStr n t then some t else some (t ++ "\n" ++ n)

/-- Reference rewrite for locations/items: keep the bound ids, silently
dropping unbound references (`if lcId in lcIdsBySrcId`). -/
def rebuildRefs (m : List (String × String)) (srcRefs : List String) : List String :=
  srcRefs.filterMap (fun r => alGet m r)

/-- Reference rewrite for characters: the dict subscript
`crIdsBySrcId[crId]` raises `KeyError` for an unbound reference, and the
surrounding `except IndexError` clause does not catch it. -/
def rebuildChars (m : List (String × String)) :
    List String → List String → Except String (List String)
  | [], base => .ok base
  | c :: rest, base =>
    match alGet m c with
    | none => .error "KeyError"
    | some mc => rebuildChars m rest (if mc ∈ base then base else base ++ [mc])

/-- The `--- Update scene characters` block: extract the previous
viewpoint (`characters[0]`; `TypeError` when the attribute is `None`,
`IndexError` caught as `''`), keep it if it is a bound target id, then
append the mapped source references without duplicates. -/
def updChars (crM : List (String × String)) (srcChars : Option (List String))
    (tsc : PyScene) : Except String PyScene :=
  match srcChars with
  | none => .ok tsc
  | some cs =>
    match tsc.characters with
    | none => .error "TypeError"
    | some l =>
      let vp := match l with
        | [] => ""
        | c :: _ => c
      let base := if vp ∈ alVals crM then [vp] else []
      match rebuildChars crM cs base with
      | .error e => .error e
      | .ok chars => .ok { tsc with characters := some chars }

/-- All per-field updates applied to a matched or newly created target
scene, in source order (type flags, date/time, duration, tags,
description, notes, characters, locations, items, keyword variables). -/
def updSceneFields (crM lcM itM : List (String × String)) (ssc tsc : PyScene) :
    Except String PyScene :=
  let t1 := { tsc with
    isNotesScene := ssc.isNotesScene, isUnused := ssc.isUnused,
    date := ssc.date, time := ssc.time,
    lastsMinutes := ssc.lastsMinutes, lastsHours := ssc.lastsHours,
    lastsDays := ssc.lastsDays }
  let t2 := match ssc.tags with
    | some tg => { t1 with tags := some tg }
    | none => t1
  let t3 := match ssc.desc with
    | some d => { t2 with desc := some d }
    | none => t2
  let t4 := { t3 with sceneNotes := mergeNotes ssc.sceneNotes t3.sceneNotes }
  match updChars crM ssc.characters t4 with
  | .error e => .error e
  | .ok t5 =>
    let t6 := match ssc.locations with
      | some ls => { t5 with locations := some (rebuildRefs lcM ls) }
      | none => t5
    let t7 := match ssc.items with
      | some its => { t6 with items := some (rebuildRefs itM its) }
      | none => t6
    let t8 := match ssc.kwSceneArcs with
      | some v => { t7 with kwSceneArcs := some v }
      | none => t7
    .ok t8

/-- The `--- Create a new scene` block: allocate the next numeric id,
install a fresh scene carrying the source title, and place it in the
on-demand `'New scenes'` chapter. -/
def createScene (ssc : PyScene) (newChapterId : String) (st : UpdState) :
    Except String (String × UpdState) :=
  let scIdMax := st.scIdMax + 1
  let scId := pyIntStr scIdMax
  let scenes := alSet st.scenes scId { emptyScene with title := ssc.title, status := some 1 }
  let p :=
    if st.newChapterExists then (st.chapters, st.srtChapters)
    else (alSet st.chapters newChapterId newChapterRec, st.srtChapters ++ [newChapterId])
  match alGet p.1 newChapterId with
  | none => .error "KeyError"
  | some nc =>
    .ok (scId,
      ⟨scenes, alSet p.1 newChapterId { nc with srtScenes := nc.srtScenes ++ [scId] },
       p.2, scIdMax, true⟩)

/-- Processing of one source scene inside the update loop. -/
def syncScene (so : Bool) (scT : List (Option String × String))
    (crM lcM itM : List (String × String)) (srcScenes : List (String × PyScene))
    (newChapterId : String) (srcId : String) (st : UpdState) : Except String UpdState :=
  match alGet srcScenes srcId with
  | none => .error "KeyError"
  | some ssc =>
    if truthyB ssc.isNotesScene ∧ so then
      match alGet scT ssc.title with
      | some scId =>
        match alGet st.scenes scId with
        | none => .error "KeyError"
        | some tsc =>
          let tsc' := { tsc with isNotesScene := some true, isUnused := some true }
          .ok { st with scenes := alSet st.scenes scId tsc' }
      | none => .ok st
    else
      let step : Except String (String × UpdState) :=
        match alGet scT ssc.title with
        | some scId => .ok (scId, st)
        | none => createScene ssc newChapterId st
      match step with
      | .error e => .error e
      | .ok (scId, st1) =>
        match alGet st1.scenes scId with
        | none => .error "KeyError"
        | some tsc =>
          match updSceneFields crM lcM itM ssc tsc with
          | .error e => .error e
          | .ok tsc' => .ok { st1 with scenes := alSet st1.scenes scId tsc' }

/-- The inner loop over one source chapter's scene list. -/
def syncScenes (so : Bool) (scT : List (Option String × String))
    (crM lcM itM : List (String × String)) (srcScenes : List (String × PyScene))
    (newChapterId : String) : List String → UpdState → Except String UpdState
  | [], st => .ok st
  | srcId :: rest, st =>
    match syncScene so scT crM lcM itM srcScenes newChapterId srcId st with
    | .error e => .error e
    | .ok st1 => syncScenes so scT crM lcM itM srcScenes newChapterId rest st1

/-- The outer loop over the source chapters (trash chapters skipped). -/
def updateChapters (so : Bool) (scT : List (Option String × String))
    (crM lcM itM : List (String × String)) (srcScenes : List (String × PyScene))
    (newChapterId : String) : List (String × PyChapter) → UpdState → Except String UpdState
  | [], st => .ok st
  | (_, ch) :: rest, st =>
    if truthyB ch.isTrash then
      updateChapters so scT crM lcM itM srcScenes newChapterId rest st
    else
      match syncScenes so scT crM lcM itM srcScenes newChapterId ch.srtScenes st with
      | .error e => .error e
      | .ok st1 => updateChapters so scT crM lcM itM srcScenes newChapterId rest st1

namespace Yw7Target

/-- Faithful model of `Yw7Target.merge(source)` after the initial
`self.read()`: `tgt` is the freshly read target novel, `src` the source
novel built from the timeline, `so` the `scenes_only` option.  Returned
messages and mutation points follow the Python source line by line; an
uncaught `KeyError`/`TypeError`/`ValueError` is reported as `.exc`. -/
def merge (so : Bool) (tgt src : YwNovel) : MergeRes :=
  match srcScan src.scenes ⟨[], [], [], []⟩ with
  | .error t => .ret (ambigEventMsg t) tgt
  | .ok scan =>
  match worldDupScan src.characters scan.linkedC with
  | some t => .ret (ambigYwCharMsg t) tgt
  | none =>
  match worldDupScan src.locations scan.linkedL with
  | some t => .ret (ambigYwLocMsg t) tgt
  | none =>
  match worldDupScan src.items scan.linkedI with
  | some t => .ret (ambigYwItemMsg t) tgt
  | none =>
  match markUnusedScan scan.titles tgt.scenes 0 with
  | .error e => .exc e
  | .ok (scIdMax, marked) =>
  match maxIdScan tgt.chapters 0 with
  | .error e => .exc e
  | .ok chIdMax =>
  let newChapterId := pyIntStr (chIdMax + 1)
  match buildScIdsByTitle marked tgt.chapters [] with
  | .error (.inl e) => .exc e
  | .error (.inr t) => .ret (ambigYwSceneMsg t) { tgt with scenes := marked }
  | .ok scT =>
  match worldTargetScan tgt.characters [] 0 with
  | .error (.inl e) => .exc e
  | .error (.inr t) => .ret (ambigYwCharMsg t) { tgt with scenes := marked }
  | .ok (crByName, crIdMax) =>
  match worldTargetScan tgt.locations [] 0 with
  | .error (.inl e) => .exc e
  | .error (.inr t) => .ret (ambigYwLocMsg t) { tgt with scenes := marked }
  | .ok (lcByTitle, lcIdMax) =>
  match worldTargetScan tgt.items [] 0 with
  | .error (.inl e) => .exc e
  | .error (.inr t) => .ret (ambigYwItemMsg t) { tgt with scenes := marked }
  | .ok (itByTitle, itIdMax) =>
  let crB := bindWorld crByName scan.linkedC src.characters ⟨[], tgt.characters, tgt.srtCharacters, crIdMax⟩
  let lcB := bindWorld lcByTitle scan.linkedL src.locations ⟨[], tgt.locations, tgt.srtLocations, lcIdMax⟩
  let itB := bindWorld itByTitle scan.linkedI src.items ⟨[], tgt.items, tgt.srtItems, itIdMax⟩
  match updateChapters so scT crB.m lcB.m itB.m src.scenes newChapterId src.chapters
      ⟨marked, tgt.chapters, tgt.srtChapters, scIdMax, false⟩ with
  | .error e => .exc e
  | .ok ust =>
    .ret "Novel updated from timeline data."
      ⟨ust.scenes, ust.chapters, ust.srtChapters,
       crB.ents, crB.srt, lcB.ents, lcB.srt, itB.ents, itB.srt⟩

end Yw7Target

/-! ## `JsonTimeline2.merge` (novel -> timeline synchronization)

The timeline-side state couples the entity graph (scenes, chapters,
world entities) with the underlying JSON document (events, entities,
colors) and the adapter's bookkeeping (arc names, trash events, display
ids, GUID maps).  `get_uid` enters through the explicit `uid`
parameter. -/

/-- A member of `self._jsonData['events']` as far as the merge writes
it.  The JSON members that `build_event` fills with constants
(`attachments`, `links`, `locked`, `priority`, the empty `span`, empty
`relationships`/`tags`, and the empty property values) are omitted; the
two property GUIDs and the range property/timestamp are kept. -/
structure AeonEvent where
  color : String
  displayId : String
  guid : String
  rangePropertyGuid : String
  rangeTimestamp : Int
  title : Option String
  valuesNotesGuid : String
  valuesDescGuid : String
  deriving DecidableEq, Repr

/-- A member of `self._jsonData['entities']` as written by the merge. -/
structure AeonEntity where
  entityType : Option String
  guid : String
  icon : String
  name : Option String
  notes : String
  sortOrder : Int
  swatchColor : String
  deriving DecidableEq, Repr

/-- The configuration and template GUIDs `JsonTimeline2.merge` reads
(resolved by `read()` before the merge runs). -/
structure JT2Params where
  scenesOnly : Bool
  sceneColor : String
  eventColor : String
  tplDateGuid : String
  propertyNotesGuid : String
  propertyDescGuid : String
  typeCharacterGuid : Option String
  typeLocationGuid : Option String
  typeItemGuid : Option String

/-- The mutable state of a `JsonTimeline2` instance at merge time. -/
structure JT2State where
  scenes : List (String × PyScene)
  chapters : List (String × PyChapter)
  characters : List (String × PyWorld)
  locations : List (String × PyWorld)
  items : List (String × PyWorld)
  jsonEvents : List AeonEvent
  jsonEntities : List AeonEntity
  colors : List (String × String)
  arcGuidsByName : List (String × Option String)
  trashEvents : List Int
  displayIdMax : Int
  characterGuidById : List (String × String)
  locationGuidById : List (String × String)
  itemGuidById : List (String × String)
  deriving DecidableEq, Repr

/-- Outcome of `JsonTimeline2.merge`. -/
inductive JT2Res : Type
  | ret (msg : String) (st : JT2State)
  | exc (e : String)
  deriving DecidableEq, Repr

/-- Error message for an ambiguous Aeon character name. -/
def ambigAeonCharMsg (t : Option String) : String :=
  ERROR ++ "Ambiguous Aeon character \"" ++ pyStr t ++ "\"."

/-- Error message for an ambiguous Aeon location title. -/
def ambigAeonLocMsg (t : Option String) : String :=
  ERROR ++ "Ambiguous Aeon location \"" ++ pyStr t ++ "\"."

/-- Error message for an ambiguous Aeon item title. -/
def ambigAeonItemMsg (t : Option String) : String :=
  ERROR ++ "Ambiguous Aeon item \"" ++ pyStr t ++ "\"."

/-- Accumulator of the novel-side source scan: titles seen, linked
world entities, and the collected story-arc names. -/
structure JTScan where
  titles : List (Option String)
  linkedC : List String
  linkedL : List String
  linkedI : List String
  arcs : List (String × Option String)
  deriving Repr

/-- Collect the story-arc names of one scene
(`kwVar['Field_SceneArcs'].split(';')`; a missing key or a `None` value
raises inside the catch-all `try` and is ignored). -/
def collectArcs (kw : Option (Option String)) (arcs : List (String × Option String)) :
    List (String × Option String) :=
  match kw with
  | some (some s) =>
    (pySplit ';' s).foldl (fun a arc => if alHas a arc then a else a ++ [(arc, none)]) arcs
  | _ => arcs

/-- One step of the novel-side source scan: record the title, collect
the referenced entities of every scene, and register arc names. -/
def jtScanStep (sc : PyScene) (acc : JTScan) : JTScan :=
  let acc1 := { acc with
    titles := acc.titles ++ [sc.title],
    linkedC := if truthyL sc.characters then setUnion acc.linkedC (sc.characters.getD []) else acc.linkedC,
    linkedL := if truthyL sc.locations then setUnion acc.linkedL (sc.locations.getD []) else acc.linkedL,
    linkedI := if truthyL sc.items then setUnion acc.linkedI (sc.items.getD []) else acc.linkedI }
  { acc1 with arcs := collectArcs sc.kwSceneArcs acc1.arcs }

/-- The inner source-scan loop of `JsonTimeline2.merge` over one
chapter's scene list: duplicate titles are fatal, linked entities are
collected for every scene, and arc names are registered. -/
def jtScanScenes (scenes : List (String × PyScene)) :
    List String → JTScan →
    Except (Sum String (Option String × List (String × Option String))) JTScan
  | [], acc => .ok acc
  | scId :: rest, acc =>
    match alGet scenes scId with
    | none => .error (.inl "KeyError")
    | some sc =>
      if sc.title ∈ acc.titles then .error (.inr (sc.title, acc.arcs))
      else jtScanScenes scenes rest (jtScanStep sc acc)

/-- The outer source-scan loop over the source chapters; trash chapters
are skipped, so their scenes do not take part in the ambiguity check. -/
def jtScanChapters (scenes : List (String × PyScene)) :
    List (String × PyChapter) → JTScan →
    Except (Sum String (Option String × List (String × Option String))) JTScan
  | [], acc => .ok acc
  | (_, ch) :: rest, acc =>
    if truthyB ch.isTrash then jtScanChapters scenes rest acc
    else
      match jtScanScenes scenes ch.srtScenes acc with
      | .error e => .error e
      | .ok acc1 => jtScanChapters scenes rest acc1

/-- The timeline-side target scene check: every target event must have a
fresh title, and events whose title vanished from the source are
remembered (by zero-based index) for physical deletion at write time. -/
def jtTargetSceneScan (titles : List (Option String)) :
    List (String × PyScene) → List (Option String × String) → List Int →
    Except (Sum String (Option String × List Int)) (List (Option String × String) × List Int)
  | [], m, tr => .ok (m, tr)
  | (scId, sc) :: rest, m, tr =>
    if alHas m sc.title then .error (.inr (sc.title, tr))
    else
      let m1 := m ++ [(sc.title, scId)]
      if ¬ sc.title ∈ titles ∧ ¬ truthyB sc.isNotesScene then
        match pyInt? scId with
        | none => .error (.inl "ValueError")
        | some n => jtTargetSceneScan titles rest m1 (tr ++ [n - 1])
      else jtTargetSceneScan titles rest m1 tr

/-- The timeline-side target world-entity check (no id arithmetic on
this side): build the title map, failing on a repeated title. -/
def jtWorldScan : List (String × PyWorld) → List (Option String × String) →
    Except (Option String) (List (Option String × String))
  | [], m => .ok m
  | (k, e) :: rest, m =>
    if alHas m e.title then .error e.title
    else jtWorldScan rest (m ++ [(e.title, k)])

/-- State of a timeline-side entity binding pass. -/
structure JTBindSt where
  m : List (String × String)
  ents : List (String × PyWorld)
  guidById : List (String × String)
  jsonEntities : List AeonEntity
  idMax : Int
  deriving Repr

/-- One timeline-side entity binding pass: bind by title, or create the
entity (new numeric id `str(len + k)`, derived GUID, JSON entity
appended) when it is linked from a scene. -/
def jtBindWorld (uid : String → String) (etype : Option String) (icon swatch : String)
    (byTitle : List (Option String × String)) (linked : List String) :
    List (String × PyWorld) → JTBindSt → JTBindSt
  | [], st => st
  | (srcId, e) :: rest, st =>
    match alGet byTitle e.title with
    | some tgtId =>
      jtBindWorld uid etype icon swatch byTitle linked rest { st with m := st.m ++ [(srcId, tgtId)] }
    | none =>
      if srcId ∈ linked then
        let idMax := st.idMax + 1
        let tgtId := pyIntStr idMax
        let newGuid := uid (tgtId ++ pyStr e.title)
        jtBindWorld uid etype icon swatch byTitle linked rest
          ⟨st.m ++ [(srcId, tgtId)], alSet st.ents tgtId e, alSet st.guidById tgtId newGuid,
           st.jsonEntities ++ [⟨etype, newGuid, icon, e.title, "", idMax - 1, swatch⟩], idMax⟩
      else jtBindWorld uid etype icon swatch byTitle linked rest st

/-- Mutable state of the timeline-side scene update loop. -/
structure JTUpd where
  scenes : List (String × PyScene)
  jsonEvents : List AeonEvent
  totalEvents : Int
  displayIdMax : Int
  deriving Repr

/-- Model of `build_event(scene)`: look up the color (the constant JSON
members are omitted, see `AeonEvent`); the freshly created scene has no
type flag yet, so the scene color is chosen unless the caller's scene is
a notes scene. -/
def build_event (uid : String → String) (colors : List (String × String))
    (sceneColor eventColor tplDateGuid notesGuid descGuid : String)
    (scene : PyScene) (displayId : String) : Except String AeonEvent :=
  let colorKey := if truthyB scene.isNotesScene then eventColor else sceneColor
  match alGet colors colorKey with
  | none => .error "KeyError"
  | some colorGuid =>
    .ok ⟨colorGuid, displayId, uid ("scene" ++ pyStr scene.title),
         tplDateGuid, DATE_LIMIT, scene.title, notesGuid, descGuid⟩

/-- The per-scene field updates of the timeline-side update loop
(status, type flags, tags, description, guarded reference rewrite,
date/time with the unspecific minute/hour/day fallback, duration,
keyword variables). -/
def jtUpdSceneFields (crM lcM itM : List (String × String)) (ssc tsc : PyScene) : PyScene :=
  let t1 := { tsc with status := ssc.status,
                       isNotesScene := ssc.isNotesScene, isUnused := ssc.isUnused }
  let t2 := match ssc.tags with
    | some tg => { t1 with tags := some tg }
    | none => t1
  let t3 := match ssc.desc with
    | some d => { t2 with desc := some d }
    | none => t2
  let t4 := match ssc.characters with
    | some cs => { t3 with characters := some (rebuildRefs crM cs) }
    | none => t3
  let t5 := match ssc.locations with
    | some ls => { t4 with locations := some (rebuildRefs lcM ls) }
    | none => t4
  let t6 := match ssc.items with
    | some its => { t5 with items := some (rebuildRefs itM its) }
    | none => t5
  let t7 :=
    if truthyS ssc.date ∨ truthyS ssc.time then
      let a := match ssc.date with
        | some d => { t6 with date := some d }
        | none => t6
      match ssc.time with
      | some tm => { a with time := some tm }
      | none => a
    else if truthyS ssc.minute ∨ truthyS ssc.hour ∨ truthyS ssc.day then
      { t6 with date := none, time := none }
    else t6
  let t8 := match ssc.minute with
    | some v => { t7 with minute := some v }
    | none => t7
  let t9 := match ssc.hour with
    | some v => { t8 with hour := some v }
    | none => t8
  let t10 := match ssc.day with
    | some v => { t9 with day := some v }
    | none => t9
  let t11 := match ssc.lastsMinutes with
    | some v => { t10 with lastsMinutes := some v }
    | none => t10
  let t12 := match ssc.lastsHours with
    | some v => { t11 with lastsHours := some v }
    | none => t11
  let t13 := match ssc.lastsDays with
    | some v => { t12 with lastsDays := some v }
    | none => t12
  match ssc.kwSceneArcs with
  | some v => { t13 with kwSceneArcs := some v }
  | none => t13

/-- Processing of one source scene in the timeline-side update loop:
unused narrative scenes and (with `scenes_only`) notes scenes only
demote their matched event to a non-scene; other scenes are matched by
title or created as a new event. -/
def jtSyncScene (p : JT2Params) (uid : String → String) (colors : List (String × String))
    (scT : List (Option String × String)) (crM lcM itM : List (String × String))
    (srcScenes : List (String × PyScene)) (srcId : String) (st : JTUpd) :
    Except String JTUpd :=
  match alGet srcScenes srcId with
  | none => .error "KeyError"
  | some ssc =>
    if truthyB ssc.isUnused ∧ ¬ truthyB ssc.isNotesScene then
      match alGet scT ssc.title with
      | some scId =>
        match alGet st.scenes scId with
        | none => .error "KeyError"
        | some tsc =>
          let tsc' := { tsc with isNotesScene := some true }
          .ok { st with scenes := alSet st.scenes scId tsc' }
      | none => .ok st
    else if truthyB ssc.isNotesScene ∧ p.scenesOnly then
      match alGet scT ssc.title with
      | some scId =>
        match alGet st.scenes scId with
        | none => .error "KeyError"
        | some tsc =>
          let tsc' := { tsc with isNotesScene := some true }
          .ok { st with scenes := alSet st.scenes scId tsc' }
      | none => .ok st
    else
      let step : Except String (String × JTUpd) :=
        match alGet scT ssc.title with
        | some scId => .ok (scId, st)
        | none =>
          let totalEvents := st.totalEvents + 1
          let scId := pyIntStr totalEvents
          let newSc := { emptyScene with title := ssc.title }
          let displayIdMax := st.displayIdMax + 1
          match build_event uid colors p.sceneColor p.eventColor p.tplDateGuid
              p.propertyNotesGuid p.propertyDescGuid newSc (pyIntStr displayIdMax) with
          | .error e => .error e
          | .ok ev =>
            .ok (scId, ⟨alSet st.scenes scId newSc, st.jsonEvents ++ [ev], totalEvents, displayIdMax⟩)
      match step with
      | .error e => .error e
      | .ok (scId, st1) =>
        match alGet st1.scenes scId with
        | none => .error "KeyError"
        | some tsc =>
          .ok { st1 with scenes := alSet st1.scenes scId (jtUpdSceneFields crM lcM itM ssc tsc) }

/-- The inner update loop over one source chapter's scene list. -/
def jtSyncScenes (p : JT2Params) (uid : String → String) (colors : List (String × String))
    (scT : List (Option String × String)) (crM lcM itM : List (String × String))
    (srcScenes : List (String × PyScene)) : List String → JTUpd → Except String JTUpd
  | [], st => .ok st
  | srcId :: rest, st =>
    match jtSyncScene p uid colors scT crM lcM itM srcScenes srcId st with
    | .error e => .error e
    | .ok st1 => jtSyncScenes p uid colors scT crM lcM itM srcScenes rest st1

/-- The outer update loop over the source chapters.  Unlike the
ambiguity scan, this loop does not skip trash chapters. -/
def jtUpdateChapters (p : JT2Params) (uid : String → String) (colors : List (String × String))
    (scT : List (Option String × String)) (crM lcM itM : List (String × String))
    (srcScenes : List (String × PyScene)) :
    List (String × PyChapter) → JTUpd → Except String JTUpd
  | [], st => .ok st
  | (_, ch) :: rest, st =>
    match jtSyncScenes p uid colors scT crM lcM itM srcScenes ch.srtScenes st with
    | .error e => .error e
    | .ok st1 => jtUpdateChapters p uid colors scT crM lcM itM srcScenes rest st1

namespace JsonTimeline2

/-- Faithful model of `JsonTimeline2.merge(source)` after the initial
`self.read()`: `tgt` is the freshly read timeline state, `src` the
source novel.  The adapter bookkeeping (`_arcGuidsByName`,
`_trashEvents`) is mutated during the validation scans, before an
ambiguity error returns, exactly as in the source. -/
def merge (p : JT2Params) (uid : String → String) (tgt : JT2State) (src : YwNovel) : JT2Res :=
  match jtScanChapters src.scenes src.chapters ⟨[], [], [], [], tgt.arcGuidsByName⟩ with
  | .error (.inl e) => .exc e
  | .error (.inr pr) => .ret (ambigYwSceneMsg pr.1) { tgt with arcGuidsByName := pr.2 }
  | .ok scan =>
  match worldDupScan src.characters scan.linkedC with
  | some t => .ret (ambigYwCharMsg t) { tgt with arcGuidsByName := scan.arcs }
  | none =>
  match worldDupScan src.locations scan.linkedL with
  | some t => .ret (ambigYwLocMsg t) { tgt with arcGuidsByName := scan.arcs }
  | none =>
  match worldDupScan src.items scan.linkedI with
  | some t => .ret (ambigYwItemMsg t) { tgt with arcGuidsByName := scan.arcs }
  | none =>
  match jtTargetSceneScan scan.titles tgt.scenes [] tgt.trashEvents with
  | .error (.inl e) => .exc e
  | .error (.inr pr) =>
    .ret (ambigEventMsg pr.1) { tgt with arcGuidsByName := scan.arcs, trashEvents := pr.2 }
  | .ok (scT, trash) =>
  match jtWorldScan tgt.characters [] with
  | .error t => .ret (ambigAeonCharMsg t) { tgt with arcGuidsByName := scan.arcs, trashEvents := trash }
  | .ok crByTitle =>
  match jtWorldScan tgt.locations [] with
  | .error t => .ret (ambigAeonLocMsg t) { tgt with arcGuidsByName := scan.arcs, trashEvents := trash }
  | .ok lcByTitle =>
  match jtWorldScan tgt.items [] with
  | .error t => .ret (ambigAeonItemMsg t) { tgt with arcGuidsByName := scan.arcs, trashEvents := trash }
  | .ok itByTitle =>
  let crB := jtBindWorld uid p.typeCharacterGuid "person" "darkPink" crByTitle scan.linkedC
    src.characters ⟨[], tgt.characters, tgt.characterGuidById, tgt.jsonEntities, (tgt.characters.length : Int)⟩
  let lcB := jtBindWorld uid p.typeLocationGuid "map" "orange" lcByTitle scan.linkedL
    src.locations ⟨[], tgt.locations, tgt.locationGuidById, crB.jsonEntities, (tgt.locations.length : Int)⟩
  let itB := jtBindWorld uid p.typeItemGuid "cube" "denim" itByTitle scan.linkedI
    src.items ⟨[], tgt.items, tgt.itemGuidById, lcB.jsonEntities, (tgt.items.length : Int)⟩
  match jtUpdateChapters p uid tgt.colors scT crB.m lcB.m itB.m src.scenes src.chapters
      ⟨tgt.scenes, tgt.jsonEvents, (tgt.jsonEvents.length : Int), tgt.displayIdMax⟩ with
  | .error e => .exc e
  | .ok ust =>
    .ret "Timeline updated from novel data."
      { scenes := ust.scenes, chapters := tgt.chapters,
        characters := crB.ents, locations := lcB.ents, items := itB.ents,
        jsonEvents := ust.jsonEvents, jsonEntities := itB.jsonEntities,
        colors := tgt.colors, arcGuidsByName := scan.arcs, trashEvents := trash,
        displayIdMax := ust.displayIdMax,
        characterGuidById := crB.guidById, locationGuidById := lcB.guidById,
        itemGuidById := itB.guidById }

end JsonTimeline2

/-! ## General lemmas -/

/-- Boolean "message begins with the error marker" predicate. -/
def strBeginsWith (pre s : String) : Bool := pre.toList.isPrefixOf s.toList

/-! ## Claim theorems: dangling references (C5) -/

/-- C5 failing input, source side: with `scenes_only` disabled, a notes
scene carrying a character reference (`"9"`) that has no entity in the
source and no binding after matching. -/
def c5SrcScene : PyScene :=
  { emptyScene with title := some "Meeting", isNotesScene := some true,
                    isUnused := some true, characters := some ["9"] }

/-- C5 failing input, an analogous source scene with an unbound location
reference instead. -/
def c5SrcSceneLoc : PyScene :=
  { emptyScene with title := some "Meeting", isNotesScene := some true,
                    isUnused := some true, locations := some ["9"] }

/-- C5 failing input, target side: the matched scene. -/
def c5TgtScene : PyScene :=
  { emptyScene with title := some "Meeting", isNotesScene := some false,
                    characters := some [], locations := some [] }

/-- C5 chapter listing scene `"1"`. -/
def c5Chapter : PyChapter := ⟨some "Ch", some 0, none, none, ["1"]⟩

/-- C5 source novel (character variant). -/
def c5Src : YwNovel := ⟨[("1", c5SrcScene)], [("1", c5Chapter)], ["1"], [], [], [], [], [], []⟩

/-- C5 source novel (location variant). -/
def c5SrcLoc : YwNovel := ⟨[("1", c5SrcSceneLoc)], [("1", c5Chapter)], ["1"], [], [], [], [], [], []⟩

/-- C5 target novel. -/
def c5Tgt : YwNovel := ⟨[("1", c5TgtScene)], [("1", c5Chapter)], ["1"], [], [], [], [], [], []⟩

/-- The result scene of the location-variant run: the unbound location
reference is silently dropped. -/
def c5LocResultScene : PyScene :=
  { emptyScene with title := some "Meeting", isUnused := some true,
                    isNotesScene := some true, characters := some [], locations := some [] }

/-- The concrete result state of the location-variant run. -/
def c5LocResult : YwNovel :=
  ⟨[("1", c5LocResultScene)], [("1", c5Chapter)], ["1"], [], [], [], [], [], []⟩

/-! ## Claim theorems: idempotence (C9) -/

/-- C9 counterexample source scene: flagged unused but not a notes
scene (a combination the timeline adapter itself never produces, but the
claim ranges over every graph). -/
def c9Scene : PyScene :=
  { emptyScene with title := some "T", isNotesScene := some false, isUnused := some true }

/-- C9 counterexample source chapter. -/
def c9Chapter : PyChapter := ⟨some "Ch", some 0, none, none, ["1"]⟩

/-- C9 counterexample source novel. -/
def c9Src : YwNovel := ⟨[("1", c9Scene)], [("1", c9Chapter)], ["1"], [], [], [], [], [], []⟩

/-- C9 counterexample: the empty target. -/
def c9Tgt : YwNovel := ⟨[], [], [], [], [], [], [], [], []⟩

/-- The titles of one chapter's resolvable scenes, in listing order. -/
def chTitles (scenes : List (String × PyScene)) (ch : PyChapter) : List (Option String) :=
  ch.srtScenes.filterMap (fun id => (alGet scenes id).map (fun sc => sc.title))

/-- The titles of all scenes reachable through non-trash chapters: the
population the novel-side ambiguity check ranges over. -/
def reachTitles (scenes : List (String × PyScene)) : List (String × PyChapter) → List (Option String)
  | [] => []
  | (_, ch) :: rest =>
    (if truthyB ch.isTrash then [] else chTitles scenes ch) ++ reachTitles scenes rest

/-- C1 counterexample data: two source scenes titled `"X"`, but scene
`"2"` is listed in no chapter, so the novel-side check never sees it. -/
def c1SceneX : PyScene := { emptyScene with title := some "X" }

/-- C1 counterexample: the single source chapter, listing only scene 1. -/
def c1Chapter : PyChapter := ⟨some "C1", some 0, none, none, ["1"]⟩

/-- C1 counterexample source novel (scene 2 is an orphan duplicate). -/
def c1Src : YwNovel :=
  ⟨[("1", c1SceneX), ("2", c1SceneX)], [("1", c1Chapter)], ["1"], [], [], [], [], [], []⟩

/-- C1 counterexample merge parameters. -/
def c1Params : JT2Params := ⟨false, "Red", "Blue", "dg", "ng", "pg", none, none, none⟩

/-- C1 counterexample GUID function (the refutation does not depend on
the hash values). -/
def c1Uid : String → String := fun s => s

/-- C1 counterexample target timeline (empty, with the two colors the
template always carries). -/
def c1Tgt : JT2State :=
  ⟨[], [], [], [], [], [], [], [("Red", "rguid"), ("Blue", "bguid")], [], [], 0, [], [], []⟩

/-- The event the counterexample run appends to the target timeline. -/
def c1NewEvent : AeonEvent := ⟨"rguid", "1", "sceneX", "dg", 3124137600, some "X", "ng", "pg"⟩

/-- The state after the counterexample run: scene created, event
appended. -/
def c1Result : JT2State :=
  ⟨[("1", c1SceneX)], [], [], [], [], [c1NewEvent], [],
   [("Red", "rguid"), ("Blue", "bguid")], [], [], 1, [], [], []⟩

/-- Witness data for the novel-side half of C1: the duplicate is inside
the chapter listing, so the check does fire. -/
def c1wChapter : PyChapter := ⟨some "C1", some 0, none, none, ["1", "2"]⟩

/-- Witness source novel with a chapter-reachable duplicated title. -/
def c1wSrc : YwNovel :=
  ⟨[("1", c1SceneX), ("2", c1SceneX)], [("1", c1wChapter)], ["1"], [], [], [], [], [], []⟩

/-- The per-entry effect of the mark-unused pass. -/
def markFn (titles : List (Option String)) (sc : PyScene) : PyScene :=
  if ¬ sc.title ∈ titles ∧ ¬ truthyB sc.isNotesScene then { sc with isUnused := some true } else sc

/-! ## The target title map (`scIdsByTitle`) -/

/-- All scene ids listed in the target chapters, in check order. -/
def listedIds : List (String × PyChapter) → List String
  | [] => []
  | (_, ch) :: rest => ch.srtScenes ++ listedIds rest

/-- The title under which a listed scene takes part in the ambiguity
check, `none` when it is exempt (soft-deleted narrative scene). -/
def activeTitled (scenes : List (String × PyScene)) (id : String) : Option (Option String) :=
  (alGet scenes id).bind (fun sc =>
    if truthyB sc.isUnused ∧ ¬ truthyB sc.isNotesScene then none else some sc.title)

/-! ## Update-loop structure lemmas -/

/-- The source scene ids the update loop processes, in order (trash
chapters are skipped). -/
def processedIds : List (String × PyChapter) → List String
  | [] => []
  | (_, ch) :: rest => (if truthyB ch.isTrash then [] else ch.srtScenes) ++ processedIds rest

/-- A narrative target scene whose title vanished from the source. -/
def c2Scene : PyScene :=
  { emptyScene with title := some "Storm", isNotesScene := some false,
                    desc := some "old desc", sceneNotes := some "old notes" }

def c2SrcScene : PyScene :=
  { emptyScene with title := some "Calm", isNotesScene := some false }

def c2Src : YwNovel :=
  { scenes := [("1", c2SrcScene)]
    chapters := [("1", ⟨some "Ch 1", some 0, none, none, ["1"]⟩)]
    srtChapters := ["1"]
    characters := [], srtCharacters := []
    locations := [], srtLocations := []
    items := [], srtItems := [] }

def c2Tgt : YwNovel :=
  { scenes := [("1", c2Scene)]
    chapters := [("1", ⟨some "C1", some 0, none, none, ["1"]⟩)]
    srtChapters := ["1"]
    characters := [], srtCharacters := []
    locations := [], srtLocations := []
    items := [], srtItems := [] }

def c2Result : YwNovel :=
  { scenes := [("1", { c2Scene with isUnused := some true }),
               ("2", { emptyScene with title := some "Calm", status := some 1,
                                       isNotesScene := some false })]
    chapters := [("1", ⟨some "C1", some 0, none, none, ["1"]⟩),
                 ("2", ⟨some "New scenes", none, none, none, ["2"]⟩)]
    srtChapters := ["1", "2"]
    characters := [], srtCharacters := []
    locations := [], srtLocations := []
    items := [], srtItems := [] }

/-- The field updates applied before the character rewrite (type flags,
date/time, duration, tags, description, notes). -/
def preChars (ssc tsc : PyScene) : PyScene :=
  let t1 := { tsc with
    isNotesScene := ssc.isNotesScene, isUnused := ssc.isUnused,
    date := ssc.date, time := ssc.time,
    lastsMinutes := ssc.lastsMinutes, lastsHours := ssc.lastsHours,
    lastsDays := ssc.lastsDays }
  let t2 := match ssc.tags with
    | some tg => { t1 with tags := some tg }
    | none => t1
  let t3 := match ssc.desc with
    | some d => { t2 with desc := some d }
    | none => t2
  { t3 with sceneNotes := mergeNotes ssc.sceneNotes t3.sceneNotes }

/-- The field updates applied after the character rewrite (locations,
items, keyword variables). -/
def postChars (lcM itM : List (String × String)) (ssc t5 : PyScene) : PyScene :=
  let t6 := match ssc.locations with
    | some ls => { t5 with locations := some (rebuildRefs lcM ls) }
    | none => t5
  let t7 := match ssc.items with
    | some its => { t6 with items := some (rebuildRefs itM its) }
    | none => t6
  match ssc.kwSceneArcs with
  | some v => { t7 with kwSceneArcs := some v }
  | none => t7

def c4SrcScene : PyScene :=
  { emptyScene with title := some "Storm", isNotesScene := some false,
                    sceneNotes := some "new note" }

def c4Src : YwNovel :=
  { scenes := [("1", c4SrcScene)]
    chapters := [("1", ⟨some "Ch 1", some 0, none, none, ["1"]⟩)]
    srtChapters := ["1"]
    characters := [], srtCharacters := []
    locations := [], srtLocations := []
    items := [], srtItems := [] }

def c4TgtScene : PyScene :=
  { emptyScene with title := some "Storm", isNotesScene := some false,
                    sceneNotes := some "old" }

def c4Tgt : YwNovel :=
  { scenes := [("1", c4TgtScene)]
    chapters := [("1", ⟨some "C1", some 0, none, none, ["1"]⟩)]
    srtChapters := ["1"]
    characters := [], srtCharacters := []
    locations := [], srtLocations := []
    items := [], srtItems := [] }

def c4ResScene : PyScene :=
  { emptyScene with title := some "Storm", isNotesScene := some false,
                    sceneNotes := some "old\nnew note" }

def c4Result : YwNovel :=
  { scenes := [("1", c4ResScene)]
    chapters := [("1", ⟨some "C1", some 0, none, none, ["1"]⟩)]
    srtChapters := ["1"]
    characters := [], srtCharacters := []
    locations := [], srtLocations := []
    items := [], srtItems := [] }

def c10World : PyWorld := ⟨some "Alice", none, none, none, none, none⟩

def c10SrcScene : PyScene :=
  { emptyScene with title := some "Storm", isNotesScene := some false,
                    characters := some ["c1"] }

def c10Src : YwNovel :=
  { scenes := [("1", c10SrcScene)]
    chapters := [("1", ⟨some "Ch 1", some 0, none, none, ["1"]⟩)]
    srtChapters := ["1"]
    characters := [("c1", c10World)], srtCharacters := ["c1"]
    locations := [], srtLocations := []
    items := [], srtItems := [] }

def c10TgtScene : PyScene :=
  { emptyScene with title := some "Storm", isNotesScene := some false,
                    characters := some ["1"] }

def c10Tgt : YwNovel :=
  { scenes := [("1", c10TgtScene)]
    chapters := [("1", ⟨some "C1", some 0, none, none, ["1"]⟩)]
    srtChapters := ["1"]
    characters := [("1", c10World)], srtCharacters := ["1"]
    locations := [], srtLocations := []
    items := [], srtItems := [] }

def c10ResScene : PyScene :=
  { emptyScene with title := some "Storm", isNotesScene := some false,
                    characters := some ["1"] }

def c10Result : YwNovel :=
  { scenes := [("1", c10ResScene)]
    chapters := [("1", ⟨some "C1", some 0, none, none, ["1"]⟩)]
    srtChapters := ["1"]
    characters := [("1", c10World)], srtCharacters := ["1"]
    locations := [], srtLocations := []
    items := [], srtItems := [] }

/-- The titles under which the listed scenes take part in the target
ambiguity check, in check order. -/
def activesOf (scenes : List (String × PyScene)) (chs : List (String × PyChapter)) :
    List (Option String) :=
  (listedIds chs).filterMap (fun id => activeTitled scenes id)

/-- The flag rewrite of the scenes-only notes branch. -/
def notesFlagged (tsc : PyScene) : PyScene :=
  { tsc with isNotesScene := some true, isUnused := some true }

/-- The fresh scene record installed by `createScene`. -/
def newSceneRec (t : Option String) : PyScene :=
  { emptyScene with title := t, status := some 1 }

/-- Loop invariant of the run-1 scene-update loop, strong enough to
replay the whole synchronization pipeline on the final state. -/
structure LoopInv (so : Bool) (titles : List (Option String))
    (scT : List (Option String × String))
    (srcScenes : List (String × PyScene)) (nci : String)
    (tgtChs : List (String × PyChapter)) (tgtSrt : List String)
    (done : List String) (st : UpdState) : Prop where
  keys : ∀ p ∈ st.scenes, ∃ n, pyInt? p.1 = some n ∧ n ≤ st.scIdMax
  maxNonneg : 0 ≤ st.scIdMax
  stable : ∀ p ∈ st.scenes, markFn titles p.2 = p.2
  listedSome : ∀ id ∈ listedIds st.chapters, (alGet st.scenes id).isSome = true
  activesNodup : (activesOf st.scenes st.chapters).Nodup
  scTrack : ∀ τ k, alGet scT τ = some k →
    k ∈ listedIds st.chapters ∧ activeTitled st.scenes k = some τ
  activesSrc : ∀ τ ∈ activesOf st.scenes st.chapters,
    τ ∈ scT.map Prod.fst ∨ ∃ id ∈ done, ∃ s, alGet srcScenes id = some s ∧ s.title = τ ∧
      ¬ (truthyB s.isNotesScene = true ∧ so = true)
  chShape : (st.newChapterExists = false ∧ st.chapters = tgtChs ∧ st.srtChapters = tgtSrt) ∨
    (st.newChapterExists = true ∧ ∃ cr,
      st.chapters = tgtChs ++ [(nci, ⟨some "New scenes", none, none, none, cr⟩)] ∧
      st.srtChapters = tgtSrt ++ [nci])

/-- Static context of the run-1 loop. -/
structure C9Ctx (titles : List (Option String)) (scT : List (Option String × String))
    (srcScenes : List (String × PyScene)) (nci : String)
    (tgtChs : List (String × PyChapter)) : Prop where
  titlesNodup : (srcScenes.map (fun p => p.2.title)).Nodup
  srcFlag : ∀ p ∈ srcScenes, truthyB p.2.isUnused = true → truthyB p.2.isNotesScene = true
  titleMem : ∀ id s, alGet srcScenes id = some s → s.title ∈ titles
  nciFresh : ¬ nci ∈ tgtChs.map Prod.fst

/-- The id bindings produced by `bindWorld`, as a stand-alone recursion. -/
def bwM (byTitle : List (Option String × String)) (linked : List String) :
    List (String × PyWorld) → Int → List (String × String)
  | [], _ => []
  | (s, e) :: rest, i =>
    match alGet byTitle e.title with
    | some v => (s, v) :: bwM byTitle linked rest i
    | none =>
      if s ∈ linked then (s, pyIntStr (i + 1)) :: bwM byTitle linked rest (i + 1)
      else bwM byTitle linked rest i

/-- The target entities created by `bindWorld`, as a stand-alone
recursion. -/
def bwCreated (byTitle : List (Option String × String)) (linked : List String) :
    List (String × PyWorld) → Int → List (String × PyWorld)
  | [], _ => []
  | (s, e) :: rest, i =>
    match alGet byTitle e.title with
    | some _ => bwCreated byTitle linked rest i
    | none =>
      if s ∈ linked then (pyIntStr (i + 1), e) :: bwCreated byTitle linked rest (i + 1)
      else bwCreated byTitle linked rest i

/-- The final id counter of `bindWorld`. -/
def bwIdMax (byTitle : List (Option String × String)) (linked : List String) :
    List (String × PyWorld) → Int → Int
  | [], i => i
  | (s, e) :: rest, i =>
    match alGet byTitle e.title with
    | some _ => bwIdMax byTitle linked rest i
    | none =>
      if s ∈ linked then bwIdMax byTitle linked rest (i + 1)
      else bwIdMax byTitle linked rest i

/-- Source scene for the idempotence witness scenario. -/
def c9aScene1 : PyScene :=
  { emptyScene with title := some "A", isNotesScene := some false,
                    isUnused := some false, desc := some "d", sceneNotes := some "n",
                    characters := some ["c1"], locations := some ["l1"], items := some [],
                    date := some "1889-04-02", time := some "09:00:00",
                    lastsDays := some "2", lastsHours := some "0",
                    lastsMinutes := some "0", kwSceneArcs := some (some "Narrative") }

/-- A target scene whose title vanished from the source. -/
def c9aTgtScene1 : PyScene :=
  { emptyScene with title := some "B", isNotesScene := some false,
                    isUnused := some false, sceneNotes := some "old",
                    characters := some ["1"] }

/-- The target counterpart of the matched source scene. -/
def c9aTgtScene2 : PyScene :=
  { emptyScene with title := some "A", isNotesScene := some false,
                    isUnused := some false, sceneNotes := some "target notes",
                    characters := some ["1"], locations := some [] }

def c9aSrc : YwNovel :=
  { scenes := [("1", c9aScene1)]
    chapters := [("1", ⟨some "Chapter 1", some 0, none, none, ["1"]⟩)]
    srtChapters := ["1"]
    characters := [("c1", ⟨some "Alice", none, none, none, none, none⟩)]
    srtCharacters := ["c1"]
    locations := [("l1", ⟨some "Home", none, none, none, none, none⟩)]
    srtLocations := ["l1"]
    items := [], srtItems := [] }

def c9aTgt : YwNovel :=
  { scenes := [("1", c9aTgtScene1), ("2", c9aTgtScene2)]
    chapters := [("1", ⟨some "C1", some 0, none, none, ["1", "2"]⟩)]
    srtChapters := ["1"]
    characters := [("1", ⟨some "Bob", none, none, none, none, none⟩)]
    srtCharacters := ["1"]
    locations := [], srtLocations := []
    items := [], srtItems := [] }

/-- The result of the first witness run. -/
def c9aRes : YwNovel :=
  match Yw7Target.merge true c9aTgt c9aSrc with
  | .ret _ st => st
  | _ => c9aTgt

/-! ## Theorems -/

@[simp] theorem alGet_nil {κ α : Type} [DecidableEq κ] (k : κ) :
    alGet ([] : List (κ × α)) k = none := rfl

@[simp] theorem alGet_cons {κ α : Type} [DecidableEq κ] (k k' : κ) (v : α)
    (rest : List (κ × α)) :
    alGet ((k, v) :: rest) k' = if k = k' then some v else alGet rest k' := rfl

@[simp] theorem alSet_nil {κ α : Type} [DecidableEq κ] (k : κ) (v : α) :
    alSet ([] : List (κ × α)) k v = [(k, v)] := rfl

theorem alGet_alSet {κ α : Type} [DecidableEq κ] (l : List (κ × α)) (k k' : κ) (v : α) :
    alGet (alSet l k v) k' = if k = k' then some v else alGet l k' := by
  induction l with
  | nil => by_cases h : k = k' <;> simp [alSet, alGet, h]
  | cons p rest ih =>
    obtain ⟨k₀, v₀⟩ := p
    by_cases h₀ : k₀ = k
    · subst h₀
      by_cases h : k₀ = k' <;> simp [alSet, alGet, h, ih]
    · by_cases h : k₀ = k'
      · subst h
        have hk : ¬ k = k₀ := fun hc => h₀ hc.symm
        simp [alSet, alGet, h₀, hk]
      · simp [alSet, alGet, h, h₀, ih]

theorem alSet_self {κ α : Type} [DecidableEq κ] (l : List (κ × α)) (k : κ) (v : α)
    (h : alGet l k = some v) : alSet l k v = l := by
  induction l with
  | nil => simp [alGet] at h
  | cons p rest ih =>
    obtain ⟨k₀, v₀⟩ := p
    by_cases h₀ : k₀ = k
    · subst h₀
      simp [alGet] at h
      simp [alSet, h]
    · simp [alGet, h₀] at h
      simp [alSet, h₀, ih h]

theorem alGet_append {κ α : Type} [DecidableEq κ] (l₁ l₂ : List (κ × α)) (k : κ) :
    alGet (l₁ ++ l₂) k = ((alGet l₁ k).orElse (fun _ => alGet l₂ k)) := by
  induction l₁ with
  | nil => simp [alGet]
  | cons p rest ih =>
    obtain ⟨k₀, v₀⟩ := p
    by_cases h : k₀ = k <;> simp [alGet, h, ih, Option.orElse]

theorem strBeginsWith_error (r : String) : strBeginsWith ERROR (ERROR ++ r) = true := by
  show (ERROR.toList.isPrefixOf (ERROR ++ r).toList) = true
  have h : (ERROR ++ r).toList = '!' :: r.toList := by
    show (ERROR ++ r).data = '!' :: r.data
    rw [String.data_append]
    rfl
  rw [h]
  show ('!' :: []).isPrefixOf ('!' :: r.toList) = true
  simp [List.isPrefixOf]

theorem alGet_alDel_ne {κ α : Type} [DecidableEq κ] (l : List (κ × α)) (k k' : κ)
    (h : ¬ k = k') : alGet (alDel l k) k' = alGet l k' := by
  induction l with
  | nil => rfl
  | cons p rest ih =>
    obtain ⟨k₀, v₀⟩ := p
    by_cases h₀ : k₀ = k
    · subst h₀
      simp [alDel, alGet, h]
    · simp [alDel, alGet, h₀, ih]

theorem string_ne_append_bak (p : String) : ¬ p = p ++ ".bak" := by
  intro h
  have hl := congrArg String.length h
  rw [String.length_append] at hl
  have h4 : (".bak" : String).length = 4 := by rfl
  omega

/-! ## Claim theorems: write failure recovery (C7) -/

/-- C7.  If a document existed at the target path and the write step
fails, both `save_timeline` and `Yw7File._write_element_tree` return a
message beginning with the error marker and the previous content is back
at the canonical path, restored from the pre-write `.bak` backup. -/
theorem spec_c7_write_failure_restores_backup
    (fs : FileSys) (data tree path : String) (g : Option String) (old : String)
    (h : alGet fs path = some old) :
    ((save_timeline fs data path (.failure g)).1 =
        ERROR ++ "Cannot write \"" ++ path ++ "\"." ∧
      strBeginsWith ERROR (save_timeline fs data path (.failure g)).1 = true ∧
      alGet (save_timeline fs data path (.failure g)).2 path = some old) ∧
    ((write_element_tree fs tree path (.failure g)).1 =
        ERROR ++ "Cannot write file: \"" ++ path ++ "\"." ∧
      strBeginsWith ERROR (write_element_tree fs tree path (.failure g)).1 = true ∧
      alGet (write_element_tree fs tree path (.failure g)).2 path = some old) := by
  have hne : ¬ path = path ++ ".bak" := string_ne_append_bak path
  have hne' : ¬ (path ++ ".bak") = path := fun hc => hne hc.symm
  have hbak : ∀ fs2 : FileSys, alGet fs2 (path ++ ".bak") = some old →
      alGet (os_replace fs2 (path ++ ".bak") path) path = some old := by
    intro fs2 h2
    simp [os_replace, h2, alGet_alSet]
  have hbu : alHas fs path = true := by simp [alHas, h]
  have hfs1 : alGet (os_replace fs path (path ++ ".bak")) (path ++ ".bak") = some old := by
    simp [os_replace, h, alGet_alSet]
  constructor
  · refine ⟨rfl, ?_, ?_⟩
    · have : (save_timeline fs data path (.failure g)).1 =
          ERROR ++ ("Cannot write \"" ++ path ++ "\".") := by
        simp [save_timeline, String.append_assoc]
      rw [this, strBeginsWith_error]
    · show alGet (save_timeline fs data path (.failure g)).2 path = some old
      simp only [save_timeline, hbu, if_true]
      cases g with
      | none => exact hbak _ hfs1
      | some garbage =>
        refine hbak _ ?_
        rw [alGet_alSet]
        simp [hne, hfs1]
  · refine ⟨rfl, ?_, ?_⟩
    · have : (write_element_tree fs tree path (.failure g)).1 =
          ERROR ++ ("Cannot write file: \"" ++ path ++ "\".") := by
        simp [write_element_tree, String.append_assoc]
      rw [this, strBeginsWith_error]
    · show alGet (write_element_tree fs tree path (.failure g)).2 path = some old
      simp only [write_element_tree, hbu, if_true]
      cases g with
      | none => exact hbak _ hfs1
      | some garbage =>
        refine hbak _ ?_
        rw [alGet_alSet]
        simp [hne, hfs1]

/-- Witness for C7 at a concrete one-file file system with a concrete
failed write. -/
theorem spec_c7_witness :
    alGet [("t.aeonzip", "OLD")] "t.aeonzip" = some "OLD" ∧
    alGet (save_timeline [("t.aeonzip", "OLD")] "NEW" "t.aeonzip"
      (.failure (some "GARBAGE"))).2 "t.aeonzip" = some "OLD" :=
  ⟨by rfl,
   (spec_c7_write_failure_restores_backup [("t.aeonzip", "OLD")] "NEW" "TREE"
      "t.aeonzip" (some "GARBAGE") "OLD" (by rfl)).1.2.2⟩

/-! ## Claim theorems: moon phase (C8) -/

/-- C8 counterexample.  The claim says `get_moon_phase("2024-01-11")`
returns 0; the code returns 1 (Conway's rule with the `-8.3` correction
lands one day late here). -/
theorem spec_c8_counterexample :
    get_moon_phase "2024-01-11" = some 1 ∧ ¬ (1 : Int) = 0 := ⟨by rfl, by decide⟩

/-- C8 amended.  `get_moon_phase("2024-01-11")` returns 1 (one off the
claimed new-moon value 0), and `get_moon_phase("2024-01-25")` returns a
value within one of 14 (namely 15). -/
theorem spec_c8_amended :
    get_moon_phase "2024-01-11" = some 1 ∧
    ∃ r, get_moon_phase "2024-01-25" = some r ∧ 13 ≤ r ∧ r ≤ 15 :=
  ⟨by rfl, 15, by rfl, by decide, by decide⟩

/-! ## Identifier generator lemmas (towards C6)

The exact 8-4-4-4-12 group lengths hold exactly when each of the five
20-byte PBKDF2-HMAC-SHA1 key integers is large enough; `get_sub_guid`
truncates a group whenever its key runs out of base-16 digits. -/

theorem get_uid_deterministic (H : String → String → Nat) (t₁ t₂ : String)
    (h : t₁ = t₂) : get_uid H t₁ = get_uid H t₂ := by rw [h]

theorem guidChars_getD_mem (n : Nat) : guidChars.getD n 'A' ∈ guidChars := by
  unfold List.getD
  cases h : guidChars.get? n with
  | none => simp [h]; decide
  | some c =>
    simp [h]
    exact List.get?_mem h

theorem get_sub_guid_succ (k n : Nat) :
    get_sub_guid k (n + 1) =
      if k = 0 then [] else guidChars.getD (k % 16) 'A' :: get_sub_guid (k / 16) n := rfl

theorem get_sub_guid_length_le (k s : Nat) : (get_sub_guid k s).length ≤ s := by
  induction s generalizing k with
  | zero => simp [get_sub_guid]
  | succ n ih =>
    by_cases h : k = 0
    · simp [get_sub_guid_succ, h]
    · rw [get_sub_guid_succ, if_neg h, List.length_cons]
      exact Nat.succ_le_succ (ih (k / 16))

theorem get_sub_guid_alphabet (k s : Nat) : ∀ c ∈ get_sub_guid k s, c ∈ guidChars := by
  induction s generalizing k with
  | zero => simp [get_sub_guid]
  | succ n ih =>
    by_cases h : k = 0
    · simp [get_sub_guid_succ, h]
    · rw [get_sub_guid_succ, if_neg h]
      intro c hc
      rcases List.mem_cons.mp hc with h1 | h2
      · subst h1
        exact guidChars_getD_mem _
      · exact ih (k / 16) c h2

theorem get_sub_guid_length_eq (s k : Nat) (h : 16 ^ s ≤ k) :
    (get_sub_guid k (s + 1)).length = s + 1 := by
  induction s generalizing k with
  | zero =>
    have hk : ¬ k = 0 := by
      intro h0
      rw [h0] at h
      simp at h
    simp [get_sub_guid_succ, hk, get_sub_guid]
  | succ n ih =>
    have hk : ¬ k = 0 := by
      intro h0
      rw [h0] at h
      have hp : 0 < 16 ^ (n + 1) := pow_pos (by norm_num) _
      omega
    have hdiv : 16 ^ n ≤ k / 16 := by
      rw [Nat.le_div_iff_mul_le (by norm_num)]
      calc 16 ^ n * 16 = 16 ^ (n + 1) := by ring
        _ ≤ k := h
    rw [get_sub_guid_succ, if_neg hk, List.length_cons, ih (k / 16) hdiv]

/-- The output of `get_uid` is always the dash-join of five groups over
the GUID alphabet whose lengths are bounded by 8, 4, 4, 4, 12, and the
lengths are exactly these whenever each hash value has enough base-16
digits. -/
theorem get_uid_format (H : String → String → Nat) (t : String) :
    ∃ g₁ g₂ g₃ g₄ g₅ : List Char,
      get_uid H t = String.mk g₁ ++ "-" ++ String.mk g₂ ++ "-" ++ String.mk g₃ ++ "-" ++
        String.mk g₄ ++ "-" ++ String.mk g₅ ∧
      (g₁.length ≤ 8 ∧ g₂.length ≤ 4 ∧ g₃.length ≤ 4 ∧ g₄.length ≤ 4 ∧ g₅.length ≤ 12) ∧
      (∀ c, (c ∈ g₁ ∨ c ∈ g₂ ∨ c ∈ g₃ ∨ c ∈ g₄ ∨ c ∈ g₅) → c ∈ guidChars) ∧
      (16 ^ 7 ≤ H t "a" → g₁.length = 8) ∧
      (16 ^ 3 ≤ H t "b" → g₂.length = 4) ∧
      (16 ^ 3 ≤ H t "c" → g₃.length = 4) ∧
      (16 ^ 3 ≤ H t "d" → g₄.length = 4) ∧
      (16 ^ 11 ≤ H t "e" → g₅.length = 12) := by
  refine ⟨get_sub_guid (H t "a") 8, get_sub_guid (H t "b") 4, get_sub_guid (H t "c") 4,
    get_sub_guid (H t "d") 4, get_sub_guid (H t "e") 12, ?_, ?_, ?_, ?_, ?_, ?_, ?_, ?_⟩
  · rfl
  · exact ⟨get_sub_guid_length_le _ _, get_sub_guid_length_le _ _, get_sub_guid_length_le _ _,
      get_sub_guid_length_le _ _, get_sub_guid_length_le _ _⟩
  · intro c hc
    rcases hc with h | h | h | h | h
    · exact get_sub_guid_alphabet _ _ c h
    · exact get_sub_guid_alphabet _ _ c h
    · exact get_sub_guid_alphabet _ _ c h
    · exact get_sub_guid_alphabet _ _ c h
    · exact get_sub_guid_alphabet _ _ c h
  · exact get_sub_guid_length_eq 7 _
  · exact get_sub_guid_length_eq 3 _
  · exact get_sub_guid_length_eq 3 _
  · exact get_sub_guid_length_eq 3 _
  · exact get_sub_guid_length_eq 11 _

/-- A key integer with too few base-16 digits yields a short group: the
source guarantees the 8-4-4-4-12 lengths only up to truncation. -/
theorem get_sub_guid_truncates : (get_sub_guid 0 8).length = 0 := by rfl

/-! ## Claim theorems: date threshold (C3) -/

/-- C3 counterexample: the first second of year 10000 lies at or beyond
`DATE_LIMIT`, yet the conversion crashes with an uncaught
`OverflowError` before the date and time fields are assigned, so the
claimed "populated iff timestamp >= DATE_LIMIT" fails. -/
theorem spec_c3_counterexample :
    DATE_LIMIT ≤ 315537897600 ∧ DATE_OVERFLOW = 315537897600 ∧
    evtDateTime "dg" [⟨"dg", 315537897600, emptySpan⟩] = .error "OverflowError" :=
  ⟨by decide, by decide, by rfl⟩

/-- C3 (amended).  In the per-event conversion of `JsonTimeline2.read`,
a first matching range value whose timestamp reaches the `datetime`
overflow bound (year 10000) crashes the conversion with an uncaught
`OverflowError` before any assignment; whenever the conversion returns,
the novel-side date and time fields are populated iff that timestamp is
at or beyond `DATE_LIMIT`; in particular every timestamp inside year 99
leaves them unset and every timestamp inside year 100 sets them. -/
theorem spec_c3_amended (g : String) (rvs : List RangeValue) :
    (∀ dt, evtDateTime g rvs = .ok dt →
      ((dt.date ≠ none ∧ dt.time ≠ none) ↔
        (∃ rv, firstDateRv g rvs = some rv ∧ DATE_LIMIT ≤ rv.timestamp))) ∧
    (∀ rv, firstDateRv g rvs = some rv →
      (DATE_OVERFLOW ≤ rv.timestamp → evtDateTime g rvs = .error "OverflowError") ∧
      (86400 * daysFromCivil 99 1 1 ≤ rv.timestamp ∧
          rv.timestamp < 86400 * daysFromCivil 100 1 1 →
        ∃ dt, evtDateTime g rvs = .ok dt ∧ dt.date = none ∧ dt.time = none) ∧
      (86400 * daysFromCivil 100 1 1 ≤ rv.timestamp ∧
          rv.timestamp < 86400 * daysFromCivil 101 1 1 →
        ∃ dt, evtDateTime g rvs = .ok dt ∧ dt.date ≠ none ∧ dt.time ≠ none)) := by
  have hdl : DATE_LIMIT = 86400 * daysFromCivil 100 1 1 := rfl
  have hov101 : (86400 * daysFromCivil 101 1 1 : Int) ≤ DATE_OVERFLOW := by decide
  induction rvs with
  | nil =>
    refine ⟨?_, ?_⟩
    · intro dt hdt
      rw [evtDateTime] at hdt
      have hde : initEvtDT = dt := Except.ok.inj hdt
      rw [← hde]
      simp [initEvtDT, firstDateRv]
    · intro rv hrv
      simp [firstDateRv] at hrv
  | cons rv rest ih =>
    by_cases hm : rv.rangeProperty = g
    · have hfirst : firstDateRv g (rv :: rest) = some rv := by
        simp [firstDateRv, List.find?, hm]
      have hev : evtDateTime g (rv :: rest) = processDateRv rv := by
        simp [evtDateTime, hm]
      by_cases hts : DATE_LIMIT ≤ rv.timestamp
      · by_cases hovf : DATE_OVERFLOW ≤ rv.timestamp
        · have herr : processDateRv rv = .error "OverflowError" := by
            simp [processDateRv, hts, hovf]
          refine ⟨?_, ?_⟩
          · intro dt hdt
            rw [hev, herr] at hdt
            exact absurd hdt (by simp)
          · intro rv' hrv'
            rw [hfirst] at hrv'
            cases hrv'
            refine ⟨fun _ => by rw [hev]; exact herr, ?_, ?_⟩
            · intro hrange
              exfalso
              rw [hdl] at hts
              have hlt : (86400 * daysFromCivil 99 1 1 : Int) < 86400 * daysFromCivil 100 1 1 :=
                by decide
              omega
            · intro hrange
              exfalso
              omega
        · have hpd : ∃ dt, processDateRv rv = .ok dt ∧ dt.date ≠ none ∧ dt.time ≠ none := by
            simp only [processDateRv, hts, if_true, hovf, if_false]
            cases hd : durFromSpan rv.span (civilFromDays (pydiv rv.timestamp 86400)).1
                (civilFromDays (pydiv rv.timestamp 86400)).2.1
                (civilFromDays (pydiv rv.timestamp 86400)).2.2 <;> simp [hd]
          obtain ⟨dt0, hdt0, hd0, ht0⟩ := hpd
          refine ⟨?_, ?_⟩
          · intro dt hdt
            rw [hev, hdt0] at hdt
            have hde : dt0 = dt := Except.ok.inj hdt
            rw [← hde]
            exact ⟨fun _ => ⟨rv, hfirst, hts⟩, fun _ => ⟨hd0, ht0⟩⟩
          · intro rv' hrv'
            rw [hfirst] at hrv'
            cases hrv'
            refine ⟨?_, ?_, ?_⟩
            · intro hc
              exact absurd hc (by omega)
            · intro hrange
              exfalso
              rw [hdl] at hts
              have hlt : (86400 * daysFromCivil 99 1 1 : Int) < 86400 * daysFromCivil 100 1 1 :=
                by decide
              omega
            · intro _
              exact ⟨dt0, by rw [hev]; exact hdt0, hd0, ht0⟩
      · have hok : processDateRv rv = .ok { initEvtDT with timestamp := rv.timestamp } := by
          simp [processDateRv, hts]
        refine ⟨?_, ?_⟩
        · intro dt hdt
          rw [hev, hok] at hdt
          have hde : { initEvtDT with timestamp := rv.timestamp } = dt := Except.ok.inj hdt
          rw [← hde]
          constructor
          · intro hc
            exact absurd rfl hc.1
          · rintro ⟨rv', hrv', hts'⟩
            rw [hfirst] at hrv'
            cases hrv'
            exact absurd hts' hts
        · intro rv' hrv'
          rw [hfirst] at hrv'
          cases hrv'
          refine ⟨?_, ?_, ?_⟩
          · intro hc
            exfalso
            rw [hdl] at hts
            have hbound : (86400 * daysFromCivil 100 1 1 : Int) ≤ DATE_OVERFLOW := by decide
            omega
          · intro _
            exact ⟨{ initEvtDT with timestamp := rv.timestamp }, by rw [hev]; exact hok, rfl, rfl⟩
          · intro hrange
            exfalso
            rw [hdl] at hts
            exact hts hrange.1
    · have hfirst : firstDateRv g (rv :: rest) = firstDateRv g rest := by
        unfold firstDateRv
        rw [List.find?_cons_of_neg _ (by simp [hm])]
      have hev : evtDateTime g (rv :: rest) = evtDateTime g rest := by
        simp [evtDateTime, hm]
      rw [hfirst, hev]
      exact ih

/-- Witness for C3: a year-100 timestamp populates the fields, the last
second of year 99 does not. -/
theorem spec_c3_witness :
    (∃ dt, evtDateTime "dg" [⟨"dg", 3124137600, emptySpan⟩] = .ok dt ∧
      dt.date ≠ none ∧ dt.time ≠ none) ∧
    (∃ dt, evtDateTime "dg" [⟨"dg", 3124137599, emptySpan⟩] = .ok dt ∧
      dt.date = none ∧ dt.time = none) := by
  constructor
  · exact ((spec_c3_amended "dg" [⟨"dg", 3124137600, emptySpan⟩]).2
      ⟨"dg", 3124137600, emptySpan⟩ (by rfl)).2.2 (by decide)
  · exact ((spec_c3_amended "dg" [⟨"dg", 3124137599, emptySpan⟩]).2
      ⟨"dg", 3124137599, emptySpan⟩ (by rfl)).2.1 (by decide)

/-- C5 (code bug).  An unresolved character reference makes
`Yw7Target.merge` raise an uncaught `KeyError` (`crIdsBySrcId[crId]`
guarded only by `except IndexError`), while the location/item rewrite of
the same shape (`if lcId in lcIdsBySrcId`) silently drops the reference
as the spec describes. -/
theorem spec_c5_keyerror_on_unbound_character_ref :
    Yw7Target.merge false c5Tgt c5Src = .exc "KeyError" ∧
    Yw7Target.merge false c5Tgt c5SrcLoc = .ret "Novel updated from timeline data." c5LocResult ∧
    (alGet c5LocResult.scenes "1").map (fun sc => sc.locations) = some (some []) :=
  ⟨by rfl, by rfl, by rfl⟩

/-- C9 counterexample.  Merging `c9Src` into the empty target succeeds;
merging again into the result creates a second scene with the same
title (the first copy, being unused and not a notes scene, is exempt
from the title map), so the second run is not a no-op. -/
theorem spec_c9_counterexample :
    ∃ st₁ st₂,
      Yw7Target.merge false c9Tgt c9Src = .ret "Novel updated from timeline data." st₁ ∧
      Yw7Target.merge false st₁ c9Src = .ret "Novel updated from timeline data." st₂ ∧
      ¬ st₂ = st₁ ∧ st₁.scenes.length = 1 ∧ st₂.scenes.length = 2 := by
  refine ⟨_, _, rfl, rfl, by decide, by rfl, ?_⟩
  rfl

/-! ## Claim theorems: ambiguous titles (C1) -/

theorem srcScanStep_titles (sc : PyScene) (acc : SrcScan) :
    (srcScanStep sc acc).titles = acc.titles ++ [sc.title] := by
  unfold srcScanStep
  by_cases h : truthyB sc.isNotesScene <;> simp [h]

theorem srcScan_ok_nodup (l : List (String × PyScene)) (acc s : SrcScan)
    (h : srcScan l acc = .ok s) :
    (l.map (fun p => p.2.title)).Nodup ∧
      ∀ t ∈ l.map (fun p => p.2.title), t ∉ acc.titles := by
  induction l generalizing acc with
  | nil => simp
  | cons p rest ih =>
    obtain ⟨k, sc⟩ := p
    rw [srcScan] at h
    by_cases hc : sc.title ∈ acc.titles
    · rw [if_pos hc] at h
      exact absurd h (by simp)
    · rw [if_neg hc] at h
      obtain ⟨hnd, hdisj⟩ := ih _ h
      rw [srcScanStep_titles] at hdisj
      constructor
      · rw [List.map_cons, List.nodup_cons]
        exact ⟨fun hmem => hdisj sc.title hmem (by simp), hnd⟩
      · intro t ht
        rw [List.map_cons, List.mem_cons] at ht
        rcases ht with h1 | h2
        · subst h1
          exact hc
        · intro hm
          exact hdisj t h2 (by simp [hm])

theorem srcScan_error_mem (l : List (String × PyScene)) (acc : SrcScan) (τ : Option String)
    (h : srcScan l acc = .error τ) :
    (τ ∈ acc.titles ∧ τ ∈ l.map (fun p => p.2.title)) ∨
      2 ≤ (l.map (fun p => p.2.title)).count τ := by
  induction l generalizing acc with
  | nil => exact absurd h (by simp [srcScan])
  | cons p rest ih =>
    obtain ⟨k, sc⟩ := p
    rw [srcScan] at h
    by_cases hc : sc.title ∈ acc.titles
    · rw [if_pos hc] at h
      cases h
      exact Or.inl ⟨hc, by simp⟩
    · rw [if_neg hc] at h
      rcases ih _ h with ⟨hacc, hmem⟩ | hcount
      · rw [srcScanStep_titles, List.mem_append, List.mem_singleton] at hacc
        rcases hacc with h1 | h1
        · exact Or.inl ⟨h1, by simp [hmem]⟩
        · apply Or.inr
          have h0 : 0 < (rest.map (fun p => p.2.title)).count τ := List.count_pos_iff.mpr hmem
          simp only [List.map_cons]
          rw [← h1, List.count_cons_self]
          omega
      · apply Or.inr
        simp only [List.map_cons]
        rcases eq_or_ne τ sc.title with he | hne
        · rw [he] at hcount ⊢
          rw [List.count_cons_self]
          omega
        · rw [List.count_cons_of_ne hne]
          exact hcount

theorem strBeginsWith_error_of (s r : String) (h : s = ERROR ++ r) :
    strBeginsWith ERROR s = true := by
  rw [h]
  exact strBeginsWith_error r

/-- C1, timeline-as-source half: any duplicated scene title anywhere in
the source scene dict makes `Yw7Target.merge` return the ambiguous-event
error, naming a title that occurs at least twice, with the target state
untouched. -/
theorem yw7_merge_dup_title_fatal (so : Bool) (tgt src : YwNovel)
    (h : ¬ (src.scenes.map (fun p => p.2.title)).Nodup) :
    ∃ τ, 2 ≤ (src.scenes.map (fun p => p.2.title)).count τ ∧
      Yw7Target.merge so tgt src = .ret (ambigEventMsg τ) tgt ∧
      strBeginsWith ERROR (ambigEventMsg τ) = true := by
  cases hscan : srcScan src.scenes ⟨[], [], [], []⟩ with
  | ok s => exact absurd (srcScan_ok_nodup _ _ _ hscan).1 h
  | error τ =>
    refine ⟨τ, ?_, ?_, ?_⟩
    · rcases srcScan_error_mem _ _ _ hscan with ⟨hmem, _⟩ | hc
      · simp at hmem
      · exact hc
    · simp only [Yw7Target.merge, hscan]
    · exact strBeginsWith_error_of _
        ("Ambiguous Aeon event title \"" ++ (pyStr τ ++ "\"."))
        (by unfold ambigEventMsg; rw [String.append_assoc, String.append_assoc])

theorem jtScanStep_titles (sc : PyScene) (acc : JTScan) :
    (jtScanStep sc acc).titles = acc.titles ++ [sc.title] := by
  simp [jtScanStep]

theorem jtScanScenes_ok (scenes : List (String × PyScene)) (ids : List String)
    (acc s : JTScan) (h : jtScanScenes scenes ids acc = .ok s) :
    (ids.filterMap (fun id => (alGet scenes id).map (fun sc => sc.title))).Nodup ∧
      (∀ t ∈ ids.filterMap (fun id => (alGet scenes id).map (fun sc => sc.title)),
        t ∉ acc.titles) ∧
      s.titles = acc.titles ++
        ids.filterMap (fun id => (alGet scenes id).map (fun sc => sc.title)) := by
  induction ids generalizing acc with
  | nil =>
    rw [jtScanScenes] at h
    cases h
    simp
  | cons id rest ih =>
    rw [jtScanScenes] at h
    cases hg : alGet scenes id with
    | none => rw [hg] at h; exact absurd h (by simp)
    | some sc =>
      rw [hg] at h
      dsimp only at h
      by_cases hc : sc.title ∈ acc.titles
      · rw [if_pos hc] at h
        exact absurd h (by simp)
      · rw [if_neg hc] at h
        obtain ⟨hnd, hdisj, htit⟩ := ih _ h
        rw [jtScanStep_titles] at hdisj htit
        have hfm : (id :: rest).filterMap
            (fun id => (alGet scenes id).map (fun sc => sc.title)) =
            sc.title :: rest.filterMap (fun id => (alGet scenes id).map (fun sc => sc.title)) := by
          simp [List.filterMap_cons, hg]
        rw [hfm]
        refine ⟨List.nodup_cons.mpr ⟨fun hm => hdisj sc.title hm (by simp), hnd⟩, ?_, ?_⟩
        · intro t ht
          rcases List.mem_cons.mp ht with h1 | h2
          · subst h1
            exact hc
          · exact fun hm => hdisj t h2 (by simp [hm])
        · rw [htit, List.append_assoc]
          rfl

theorem jtScanScenes_error (scenes : List (String × PyScene)) (ids : List String)
    (acc : JTScan) (τ : Option String) (arcs : List (String × Option String))
    (h : jtScanScenes scenes ids acc = .error (.inr (τ, arcs))) :
    (τ ∈ acc.titles ∧
        τ ∈ ids.filterMap (fun id => (alGet scenes id).map (fun sc => sc.title))) ∨
      2 ≤ (ids.filterMap (fun id => (alGet scenes id).map (fun sc => sc.title))).count τ := by
  induction ids generalizing acc with
  | nil => rw [jtScanScenes] at h; exact absurd h (by simp)
  | cons id rest ih =>
    rw [jtScanScenes] at h
    cases hg : alGet scenes id with
    | none => rw [hg] at h; exact absurd h (by simp)
    | some sc =>
      rw [hg] at h
      dsimp only at h
      have hfm : (id :: rest).filterMap
          (fun id => (alGet scenes id).map (fun sc => sc.title)) =
          sc.title :: rest.filterMap (fun id => (alGet scenes id).map (fun sc => sc.title)) := by
        simp [List.filterMap_cons, hg]
      rw [hfm]
      by_cases hc : sc.title ∈ acc.titles
      · rw [if_pos hc] at h
        cases h
        exact Or.inl ⟨hc, by simp⟩
      · rw [if_neg hc] at h
        rcases ih _ h with ⟨hacc, hmem⟩ | hcount
        · rw [jtScanStep_titles, List.mem_append, List.mem_singleton] at hacc
          rcases hacc with h1 | h1
          · exact Or.inl ⟨h1, by simp [hmem]⟩
          · apply Or.inr
            have h0 : 0 < (rest.filterMap
                (fun id => (alGet scenes id).map (fun sc => sc.title))).count τ :=
              List.count_pos_iff.mpr hmem
            rw [← h1, List.count_cons_self]
            omega
        · apply Or.inr
          rcases eq_or_ne τ sc.title with he | hne
          · rw [he] at hcount ⊢
            rw [List.count_cons_self]
            omega
          · rw [List.count_cons_of_ne hne]
            exact hcount

theorem jtScanScenes_keyError (scenes : List (String × PyScene)) (ids : List String)
    (acc : JTScan) (e : String) (h : jtScanScenes scenes ids acc = .error (.inl e)) :
    ∃ id ∈ ids, alGet scenes id = none := by
  induction ids generalizing acc with
  | nil => rw [jtScanScenes] at h; exact absurd h (by simp)
  | cons id rest ih =>
    rw [jtScanScenes] at h
    cases hg : alGet scenes id with
    | none => exact ⟨id, by simp, hg⟩
    | some sc =>
      rw [hg] at h
      dsimp only at h
      by_cases hc : sc.title ∈ acc.titles
      · rw [if_pos hc] at h
        exact absurd h (by simp)
      · rw [if_neg hc] at h
        obtain ⟨id', hmem, hnone⟩ := ih _ h
        exact ⟨id', by simp [hmem], hnone⟩

theorem jtScanChapters_ok (scenes : List (String × PyScene))
    (chs : List (String × PyChapter)) (acc s : JTScan)
    (h : jtScanChapters scenes chs acc = .ok s) :
    (reachTitles scenes chs).Nodup ∧
      (∀ t ∈ reachTitles scenes chs, t ∉ acc.titles) ∧
      s.titles = acc.titles ++ reachTitles scenes chs := by
  induction chs generalizing acc with
  | nil =>
    rw [jtScanChapters] at h
    cases h
    simp [reachTitles]
  | cons pr rest ih =>
    obtain ⟨k, ch⟩ := pr
    rw [jtScanChapters] at h
    by_cases htr : truthyB ch.isTrash
    · rw [if_pos htr] at h
      obtain ⟨hnd, hdisj, htit⟩ := ih _ h
      rw [reachTitles, if_pos htr, List.nil_append]
      exact ⟨hnd, hdisj, htit⟩
    · rw [if_neg htr] at h
      cases hsc : jtScanScenes scenes ch.srtScenes acc with
      | error e => rw [hsc] at h; exact absurd h (by simp)
      | ok acc1 =>
        rw [hsc] at h
        dsimp only at h
        obtain ⟨hnd1, hdisj1, htit1⟩ := jtScanScenes_ok scenes ch.srtScenes acc acc1 hsc
        obtain ⟨hnd2, hdisj2, htit2⟩ := ih _ h
        rw [htit1] at hdisj2 htit2
        rw [reachTitles, if_neg htr]
        refine ⟨?_, ?_, ?_⟩
        · rw [List.nodup_append]
          refine ⟨hnd1, hnd2, ?_⟩
          intro t ht1 ht2
          refine hdisj2 t ht2 ?_
          rw [List.mem_append]
          right
          simpa [chTitles] using ht1
        · intro t ht
          rcases List.mem_append.mp ht with h1 | h2
          · exact hdisj1 t h1
          · intro hm
            exact hdisj2 t h2 (by simp [hm])
        · rw [htit2, List.append_assoc]
          rfl

theorem jtScanChapters_error (scenes : List (String × PyScene))
    (chs : List (String × PyChapter)) (acc : JTScan) (τ : Option String)
    (arcs : List (String × Option String))
    (h : jtScanChapters scenes chs acc = .error (.inr (τ, arcs))) :
    (τ ∈ acc.titles ∧ τ ∈ reachTitles scenes chs) ∨
      2 ≤ (reachTitles scenes chs).count τ := by
  induction chs generalizing acc with
  | nil => rw [jtScanChapters] at h; exact absurd h (by simp)
  | cons pr rest ih =>
    obtain ⟨k, ch⟩ := pr
    rw [jtScanChapters] at h
    by_cases htr : truthyB ch.isTrash
    · rw [if_pos htr] at h
      rw [reachTitles, if_pos htr, List.nil_append]
      exact ih _ h
    · rw [if_neg htr] at h
      rw [reachTitles, if_neg htr]
      cases hsc : jtScanScenes scenes ch.srtScenes acc with
      | error e =>
        rw [hsc] at h
        dsimp only at h
        cases e with
        | inl e' => exact absurd h (by simp)
        | inr pr' =>
          obtain ⟨τ', arcs'⟩ := pr'
          have he : τ' = τ ∧ arcs' = arcs := by
            constructor <;> cases h <;> rfl
          obtain ⟨he1, _⟩ := he
          subst he1
          rcases jtScanScenes_error scenes ch.srtScenes acc τ' arcs' hsc with ⟨h1, h2⟩ | hc
          · exact Or.inl ⟨h1, by rw [List.mem_append]; exact Or.inl (by simpa [chTitles] using h2)⟩
          · apply Or.inr
            rw [List.count_append]
            have : (reachTitles scenes rest).count τ' ≥ 0 := Nat.zero_le _
            have hcc : (chTitles scenes ch).count τ' =
                (ch.srtScenes.filterMap (fun id => (alGet scenes id).map (fun sc => sc.title))).count τ' := rfl
            omega
      | ok acc1 =>
        rw [hsc] at h
        dsimp only at h
        obtain ⟨_, _, htit1⟩ := jtScanScenes_ok scenes ch.srtScenes acc acc1 hsc
        rcases ih _ h with ⟨h1, h2⟩ | hc
        · rw [htit1, List.mem_append] at h1
          rcases h1 with ha | hb
          · exact Or.inl ⟨ha, by rw [List.mem_append]; exact Or.inr h2⟩
          · apply Or.inr
            rw [List.count_append]
            have h0a : 0 < (chTitles scenes ch).count τ := by
              rw [List.count_pos_iff]
              simpa [chTitles] using hb
            have h0b : 0 < (reachTitles scenes rest).count τ := List.count_pos_iff.mpr h2
            omega
        · apply Or.inr
          rw [List.count_append]
          omega

theorem jtScanChapters_keyError (scenes : List (String × PyScene))
    (chs : List (String × PyChapter)) (acc : JTScan) (e : String)
    (h : jtScanChapters scenes chs acc = .error (.inl e)) :
    ∃ pr ∈ chs, ¬ truthyB (Prod.snd pr).isTrash ∧
      ∃ id ∈ (Prod.snd pr).srtScenes, alGet scenes id = none := by
  induction chs generalizing acc with
  | nil => rw [jtScanChapters] at h; exact absurd h (by simp)
  | cons pr' rest ih =>
    obtain ⟨k, ch⟩ := pr'
    rw [jtScanChapters] at h
    by_cases htr : truthyB ch.isTrash
    · rw [if_pos htr] at h
      obtain ⟨q, hq, hq2⟩ := ih _ h
      exact ⟨q, by simp [hq], hq2⟩
    · rw [if_neg htr] at h
      cases hsc : jtScanScenes scenes ch.srtScenes acc with
      | error e' =>
        rw [hsc] at h
        dsimp only at h
        cases e' with
        | inl e'' =>
          obtain ⟨id, hid, hnone⟩ := jtScanScenes_keyError scenes ch.srtScenes acc e'' hsc
          exact ⟨(k, ch), by simp, htr, id, hid, hnone⟩
        | inr pr'' => exact absurd h (by simp)
      | ok acc1 =>
        rw [hsc] at h
        dsimp only at h
        obtain ⟨q, hq, hq2⟩ := ih _ h
        exact ⟨q, by simp [hq], hq2⟩

/-- C1, novel-as-source half (amended): a duplicated title among the
scenes reachable through non-trash chapters makes `JsonTimeline2.merge`
return the ambiguous-scene error naming a title that occurs at least
twice among them, with every entity-graph and JSON component of the
target unchanged (only the arc-name bookkeeping may have grown). -/
theorem jt2_merge_dup_title_fatal (p : JT2Params) (uid : String → String)
    (tgt : JT2State) (src : YwNovel)
    (hres : ∀ pr ∈ src.chapters, ¬ truthyB (Prod.snd pr).isTrash →
      ∀ id ∈ (Prod.snd pr).srtScenes, (alGet src.scenes id).isSome)
    (h : ¬ (reachTitles src.scenes src.chapters).Nodup) :
    ∃ τ arcs, 2 ≤ (reachTitles src.scenes src.chapters).count τ ∧
      JsonTimeline2.merge p uid tgt src =
        .ret (ambigYwSceneMsg τ) { tgt with arcGuidsByName := arcs } ∧
      strBeginsWith ERROR (ambigYwSceneMsg τ) = true := by
  cases hscan : jtScanChapters src.scenes src.chapters ⟨[], [], [], [], tgt.arcGuidsByName⟩ with
  | ok s => exact absurd (jtScanChapters_ok _ _ _ _ hscan).1 h
  | error e =>
    cases e with
    | inl e' =>
      obtain ⟨pr, hpr, htr, id, hid, hnone⟩ := jtScanChapters_keyError _ _ _ _ hscan
      have := hres pr hpr htr id hid
      rw [hnone] at this
      exact absurd this (by simp)
    | inr pr =>
      obtain ⟨τ, arcs⟩ := pr
      refine ⟨τ, arcs, ?_, ?_, ?_⟩
      · rcases jtScanChapters_error _ _ _ _ _ hscan with ⟨hmem, _⟩ | hc
        · simp at hmem
        · exact hc
      · simp only [JsonTimeline2.merge, hscan]
      · exact strBeginsWith_error_of _
          ("Ambiguous yWriter scene title \"" ++ (pyStr τ ++ "\"."))
          (by unfold ambigYwSceneMsg; rw [String.append_assoc, String.append_assoc])

/-- C1 (amended).  Duplicate source titles are fatal before any target
graph mutation, where "duplicate" means: any two source scenes in the
timeline-as-source direction, and two scenes both reachable through
non-trash chapters in the novel-as-source direction (the novel-side
check does not see scenes outside chapters). -/
theorem spec_c1_amended :
    (∀ (so : Bool) (tgt src : YwNovel),
      ¬ (src.scenes.map (fun p => p.2.title)).Nodup →
      ∃ τ, 2 ≤ (src.scenes.map (fun p => p.2.title)).count τ ∧
        Yw7Target.merge so tgt src = .ret (ambigEventMsg τ) tgt ∧
        strBeginsWith ERROR (ambigEventMsg τ) = true) ∧
    (∀ (p : JT2Params) (uid : String → String) (tgt : JT2State) (src : YwNovel),
      (∀ pr ∈ src.chapters, ¬ truthyB (Prod.snd pr).isTrash →
        ∀ id ∈ (Prod.snd pr).srtScenes, (alGet src.scenes id).isSome) →
      ¬ (reachTitles src.scenes src.chapters).Nodup →
      ∃ τ arcs, 2 ≤ (reachTitles src.scenes src.chapters).count τ ∧
        JsonTimeline2.merge p uid tgt src =
          .ret (ambigYwSceneMsg τ) { tgt with arcGuidsByName := arcs } ∧
        strBeginsWith ERROR (ambigYwSceneMsg τ) = true) :=
  ⟨fun so tgt src h => yw7_merge_dup_title_fatal so tgt src h,
   fun p uid tgt src hres h => jt2_merge_dup_title_fatal p uid tgt src hres h⟩

/-- C1 counterexample.  The source document contains two scenes with the
same title, yet the novel-to-timeline run does not fail: it returns the
success message and mutates the target graph (the duplicate outside the
chapters escapes the ambiguity check). -/
theorem spec_c1_counterexample :
    c1Src.scenes.map (fun p => p.2.title) = [some "X", some "X"] ∧
    JsonTimeline2.merge c1Params c1Uid c1Tgt c1Src =
      .ret "Timeline updated from novel data." c1Result ∧
    strBeginsWith ERROR "Timeline updated from novel data." = false ∧
    ¬ c1Result.jsonEvents = c1Tgt.jsonEvents := by
  refine ⟨by rfl, by rfl, by rfl, ?_⟩
  intro h
  exact absurd (congrArg List.length h) (by decide)

/-- Witness for C1 (amended), both halves applied at concrete inputs
with the hypotheses discharged by `decide`/`rfl`. -/
theorem spec_c1_witness :
    (∃ τ, 2 ≤ (c1Src.scenes.map (fun p => p.2.title)).count τ ∧
      Yw7Target.merge false c9Tgt c1Src = .ret (ambigEventMsg τ) c9Tgt ∧
      strBeginsWith ERROR (ambigEventMsg τ) = true) ∧
    (∃ τ arcs, 2 ≤ (reachTitles c1wSrc.scenes c1wSrc.chapters).count τ ∧
      JsonTimeline2.merge c1Params c1Uid c1Tgt c1wSrc =
        .ret (ambigYwSceneMsg τ) { c1Tgt with arcGuidsByName := arcs } ∧
      strBeginsWith ERROR (ambigYwSceneMsg τ) = true) :=
  ⟨spec_c1_amended.1 false c9Tgt c1Src (by decide),
   spec_c1_amended.2 c1Params c1Uid c1Tgt c1wSrc (by decide) (by decide)⟩

/-! ## Decimal print/parse round trip

Created scene, chapter and entity ids are `str(max + k)`; these lemmas
show such ids parse back to their value, so they can never collide with
an existing id whose numeric value is at most the maximum. -/

theorem digitVal?_digitChar (d : Nat) (h : d < 10) : digitVal? (digitChar d) = some d := by
  interval_cases d <;> rfl

theorem digitVal?_minus : digitVal? '-' = none := by decide

theorem digitVal?_plus : digitVal? '+' = none := by decide

theorem parseDigits_go_append (xs ys : List Char) (b : Nat) :
    parseDigits.go (xs ++ ys) b =
      match parseDigits.go xs b with
      | some v => parseDigits.go ys v
      | none => none := by
  induction xs generalizing b with
  | nil => rfl
  | cons c rest ihx =>
    show parseDigits.go (c :: (rest ++ ys)) b = _
    simp only [parseDigits.go]
    cases digitVal? c with
    | none => rfl
    | some d => exact ihx (b * 10 + d)

theorem natDigitsAux_spec (fuel : Nat) :
    ∀ n acc, 0 < n → n ≤ fuel →
      ∃ ds, natDigitsAux fuel n acc = ds ++ acc ∧ ds ≠ [] ∧
        (∀ c ∈ ds, (digitVal? c).isSome) ∧
        ∀ a, parseDigits.go ds a = some (a * 10 ^ ds.length + n) := by
  induction fuel with
  | zero =>
    intro n acc h1 h2
    omega
  | succ fuel ih =>
    intro n acc h1 h2
    rw [natDigitsAux, if_neg (by omega)]
    by_cases hlt : n < 10
    · have h0 : n / 10 = 0 := Nat.div_eq_of_lt hlt
      rw [h0]
      have hstop : natDigitsAux fuel 0 (digitChar (n % 10) :: acc) = digitChar (n % 10) :: acc := by
        cases fuel <;> simp [natDigitsAux]
      rw [hstop]
      have hmod : n % 10 = n := Nat.mod_eq_of_lt hlt
      refine ⟨[digitChar (n % 10)], rfl, by simp, ?_, ?_⟩
      · intro c hc
        rw [List.mem_singleton] at hc
        subst hc
        rw [digitVal?_digitChar _ (Nat.mod_lt _ (by omega))]
        rfl
      · intro a
        show parseDigits.go [digitChar (n % 10)] a = _
        simp only [parseDigits.go, digitVal?_digitChar _ (Nat.mod_lt n (by omega))]
        rw [hmod]
        simp [pow_one]
    · have hpos : 0 < n / 10 := Nat.div_pos (by omega) (by omega)
      have hle : n / 10 ≤ fuel := by
        have := Nat.div_lt_self h1 (by omega : 1 < 10)
        omega
      obtain ⟨ds, hds, hne, hdig, hgo⟩ := ih (n / 10) (digitChar (n % 10) :: acc) hpos hle
      refine ⟨ds ++ [digitChar (n % 10)], by rw [hds, List.append_assoc]; rfl, by simp [hne], ?_, ?_⟩
      · intro c hc
        rcases List.mem_append.mp hc with h | h
        · exact hdig c h
        · rw [List.mem_singleton] at h
          subst h
          rw [digitVal?_digitChar _ (Nat.mod_lt n (by omega))]
          rfl
      · intro a
        rw [parseDigits_go_append, hgo a]
        show parseDigits.go [digitChar (n % 10)] (a * 10 ^ ds.length + n / 10) = _
        simp only [parseDigits.go, digitVal?_digitChar _ (Nat.mod_lt n (by omega))]
        congr 1
        rw [List.length_append, List.length_singleton, pow_succ]
        have hdm : 10 * (n / 10) + n % 10 = n := Nat.div_add_mod n 10
        calc (a * 10 ^ ds.length + n / 10) * 10 + n % 10
            = a * (10 ^ ds.length * 10) + (10 * (n / 10) + n % 10) := by ring
          _ = a * (10 ^ ds.length * 10) + n := by rw [hdm]

theorem natDigits_ne_nil (n : Nat) : natDigits n ≠ [] := by
  unfold natDigits
  by_cases h : n = 0
  · simp [h]
  · rw [if_neg h]
    obtain ⟨ds, hds, hne, _, _⟩ := natDigitsAux_spec n n [] (by omega) (le_refl n)
    rw [hds, List.append_nil]
    exact hne

theorem natDigits_digits (n : Nat) : ∀ c ∈ natDigits n, (digitVal? c).isSome := by
  unfold natDigits
  by_cases h : n = 0
  · rw [if_pos h]
    intro c hc
    rw [List.mem_singleton] at hc
    subst hc
    rfl
  · rw [if_neg h]
    obtain ⟨ds, hds, _, hdig, _⟩ := natDigitsAux_spec n n [] (by omega) (le_refl n)
    rw [hds, List.append_nil]
    exact hdig

theorem parseDigits_natDigits (n : Nat) : parseDigits (natDigits n) = some n := by
  by_cases h : n = 0
  · subst h
    rfl
  · unfold natDigits
    rw [if_neg h]
    obtain ⟨ds, hds, hne, _, hgo⟩ := natDigitsAux_spec n n [] (by omega) (le_refl n)
    rw [hds, List.append_nil]
    cases ds with
    | nil => exact absurd rfl hne
    | cons c rest =>
      show parseDigits.go (c :: rest) 0 = some n
      have := hgo 0
      simpa using this

theorem pyInt?_of_digits (cs : List Char) (hne : cs ≠ [])
    (hdig : ∀ c ∈ cs, (digitVal? c).isSome) :
    pyInt? (String.mk cs) = (parseDigits cs).map (fun n => (n : Int)) := by
  cases cs with
  | nil => exact absurd rfl hne
  | cons c rest =>
    have hc : (digitVal? c).isSome := hdig c (by simp)
    have hc1 : ¬ c = '-' := by
      intro h
      rw [h, digitVal?_minus] at hc
      exact absurd hc (by simp)
    have hc2 : ¬ c = '+' := by
      intro h
      rw [h, digitVal?_plus] at hc
      exact absurd hc (by simp)
    unfold pyInt?
    have htl : (String.mk (c :: rest)).toList = c :: rest := rfl
    rw [htl]
    split
    · next heq =>
      injection heq with h1 _
      exact absurd h1 hc1
    · next heq =>
      injection heq with h1 _
      exact absurd h1 hc2
    · rfl

theorem pyInt?_pyIntStr (m : Int) (h : 0 ≤ m) : pyInt? (pyIntStr m) = some m := by
  unfold pyIntStr
  rw [if_neg (by omega)]
  rw [pyInt?_of_digits _ (natDigits_ne_nil _) (natDigits_digits _)]
  rw [parseDigits_natDigits]
  show some ((m.natAbs : Nat) : Int) = some m
  rw [Int.natAbs_of_nonneg h]

theorem pyIntStr_ne_of_lt (k : String) (n m : Int) (hk : pyInt? k = some n)
    (hm : 0 ≤ m) (hlt : n < m) : ¬ pyIntStr m = k := by
  intro h
  rw [← h, pyInt?_pyIntStr m hm] at hk
  cases hk
  omega

/-! ## Association list membership lemmas -/

theorem alGet_mem {κ α : Type} [DecidableEq κ] (l : List (κ × α)) (k : κ) (v : α)
    (h : alGet l k = some v) : (k, v) ∈ l := by
  induction l with
  | nil => simp [alGet] at h
  | cons p rest ih =>
    obtain ⟨k₀, v₀⟩ := p
    rw [alGet_cons] at h
    by_cases hk : k₀ = k
    · rw [if_pos hk] at h
      cases h
      subst hk
      simp
    · rw [if_neg hk] at h
      exact List.mem_cons_of_mem _ (ih h)

theorem alGet_of_mem_nodup {κ α : Type} [DecidableEq κ] (l : List (κ × α)) (k : κ) (v : α)
    (hnd : (l.map Prod.fst).Nodup) (h : (k, v) ∈ l) : alGet l k = some v := by
  induction l with
  | nil => simp at h
  | cons p rest ih =>
    obtain ⟨k₀, v₀⟩ := p
    rw [List.map_cons, List.nodup_cons] at hnd
    rcases List.mem_cons.mp h with h1 | h2
    · cases h1
      simp [alGet]
    · have hk : ¬ k₀ = k := by
        intro he
        subst he
        exact hnd.1 (List.mem_map.mpr ⟨(k₀, v), h2, rfl⟩)
      rw [alGet_cons, if_neg hk]
      exact ih hnd.2 h2

theorem alGet_isSome_of_key_mem {κ α : Type} [DecidableEq κ] (l : List (κ × α)) (k : κ)
    (h : k ∈ l.map Prod.fst) : (alGet l k).isSome := by
  induction l with
  | nil => simp at h
  | cons p rest ih =>
    obtain ⟨k₀, v₀⟩ := p
    by_cases hk : k₀ = k
    · simp [alGet, hk]
    · rw [List.map_cons] at h
      rcases List.mem_cons.mp h with h1 | h2
      · exact absurd h1.symm hk
      · rw [alGet_cons, if_neg hk]
        exact ih h2

theorem alGet_map_val {κ α β : Type} [DecidableEq κ] (l : List (κ × α)) (f : α → β) (k : κ) :
    alGet (l.map (fun p => (p.1, f p.2))) k = (alGet l k).map f := by
  induction l with
  | nil => rfl
  | cons p rest ih =>
    obtain ⟨k₀, v₀⟩ := p
    by_cases hk : k₀ = k <;> simp [alGet, hk, ih]

/-! ## Pipeline phase specifications -/

theorem srcScan_ok_titles (l : List (String × PyScene)) (acc s : SrcScan)
    (h : srcScan l acc = .ok s) : s.titles = acc.titles ++ l.map (fun p => p.2.title) := by
  induction l generalizing acc with
  | nil =>
    rw [srcScan] at h
    cases h
    simp
  | cons p rest ih =>
    obtain ⟨k, sc⟩ := p
    rw [srcScan] at h
    by_cases hc : sc.title ∈ acc.titles
    · rw [if_pos hc] at h
      exact absurd h (by simp)
    · rw [if_neg hc] at h
      rw [ih _ h, srcScanStep_titles, List.map_cons, List.append_assoc]
      rfl

theorem markUnusedScan_spec (titles : List (Option String)) (l : List (String × PyScene))
    (m0 : Int) (r : Int × List (String × PyScene)) (h : markUnusedScan titles l m0 = .ok r) :
    r.2 = l.map (fun p => (p.1, markFn titles p.2)) ∧
      (∀ p ∈ l, ∃ n, pyInt? p.1 = some n ∧ n ≤ r.1) ∧ m0 ≤ r.1 := by
  induction l generalizing m0 r with
  | nil =>
    rw [markUnusedScan] at h
    cases h
    simp
  | cons p rest ih =>
    obtain ⟨k, sc⟩ := p
    rw [markUnusedScan] at h
    cases hp : pyInt? k with
    | none => rw [hp] at h; exact absurd h (by simp)
    | some n =>
      rw [hp] at h
      dsimp only at h
      cases hr : markUnusedScan titles rest (if n > m0 then n else m0) with
      | error e => rw [hr] at h; exact absurd h (by simp)
      | ok r1 =>
        rw [hr] at h
        dsimp only at h
        have hre := (Except.ok.inj h).symm
        subst hre
        obtain ⟨he, hb, hm⟩ := ih _ _ hr
        refine ⟨?_, ?_, ?_⟩
        · show (k, _) :: r1.2 = _
          rw [he]
          rfl
        · intro q hq
          rcases List.mem_cons.mp hq with h1 | h2
          · subst h1
            refine ⟨n, hp, ?_⟩
            by_cases hgt : n > m0
            · rw [if_pos hgt] at hm
              omega
            · rw [if_neg hgt] at hm
              omega
          · exact hb q h2
        · by_cases hgt : n > m0
          · rw [if_pos hgt] at hm
            omega
          · rw [if_neg hgt] at hm
            omega

theorem maxIdScan_spec {α : Type} (l : List (String × α)) (m0 : Int) (r : Int)
    (h : maxIdScan l m0 = .ok r) :
    (∀ p ∈ l, ∃ n, pyInt? p.1 = some n ∧ n ≤ r) ∧ m0 ≤ r := by
  induction l generalizing m0 r with
  | nil =>
    rw [maxIdScan] at h
    cases h
    simp
  | cons p rest ih =>
    obtain ⟨k, v⟩ := p
    rw [maxIdScan] at h
    cases hp : pyInt? k with
    | none => rw [hp] at h; exact absurd h (by simp)
    | some n =>
      rw [hp] at h
      dsimp only at h
      obtain ⟨hb, hm⟩ := ih _ _ h
      refine ⟨?_, ?_⟩
      · intro q hq
        rcases List.mem_cons.mp hq with h1 | h2
        · subst h1
          refine ⟨n, hp, ?_⟩
          by_cases hgt : n > m0
          · rw [if_pos hgt] at hm
            omega
          · rw [if_neg hgt] at hm
            omega
        · exact hb q h2
      · by_cases hgt : n > m0
        · rw [if_pos hgt] at hm
          omega
        · rw [if_neg hgt] at hm
          omega

theorem scIdsByTitleCh_entries (scenes : List (String × PyScene)) (ids : List String)
    (m0 m : List (Option String × String)) (h : scIdsByTitleCh scenes ids m0 = .ok m) :
    m = m0 ++ ids.filterMap (fun id => (activeTitled scenes id).map (fun τ => (τ, id))) := by
  induction ids generalizing m0 with
  | nil =>
    rw [scIdsByTitleCh] at h
    cases h
    simp
  | cons id rest ih =>
    rw [scIdsByTitleCh] at h
    cases hg : alGet scenes id with
    | none => rw [hg] at h; exact absurd h (by simp)
    | some sc =>
      rw [hg] at h
      dsimp only at h
      by_cases hsk : truthyB sc.isUnused ∧ ¬ truthyB sc.isNotesScene
      · rw [if_pos hsk] at h
        rw [ih _ h, List.filterMap_cons]
        have hat : activeTitled scenes id = none := by
          unfold activeTitled
          rw [hg]
          show (if truthyB sc.isUnused ∧ ¬ truthyB sc.isNotesScene then none
            else some sc.title) = none
          rw [if_pos hsk]
        rw [hat]
        rfl
      · rw [if_neg hsk] at h
        by_cases hhas : alHas m0 sc.title
        · rw [if_pos hhas] at h
          exact absurd h (by simp)
        · rw [if_neg hhas] at h
          rw [ih _ h, List.filterMap_cons]
          have hat : activeTitled scenes id = some sc.title := by
            unfold activeTitled
            rw [hg]
            show (if truthyB sc.isUnused ∧ ¬ truthyB sc.isNotesScene then none
              else some sc.title) = some sc.title
            rw [if_neg hsk]
          rw [hat, List.append_assoc]
          rfl

theorem buildScIdsByTitle_entries (scenes : List (String × PyScene))
    (chs : List (String × PyChapter)) (m0 m : List (Option String × String))
    (h : buildScIdsByTitle scenes chs m0 = .ok m) :
    m = m0 ++ (listedIds chs).filterMap
      (fun id => (activeTitled scenes id).map (fun τ => (τ, id))) := by
  induction chs generalizing m0 with
  | nil =>
    rw [buildScIdsByTitle] at h
    cases h
    simp [listedIds]
  | cons p rest ih =>
    obtain ⟨k, ch⟩ := p
    rw [buildScIdsByTitle] at h
    cases hc : scIdsByTitleCh scenes ch.srtScenes m0 with
    | error e => rw [hc] at h; exact absurd h (by simp)
    | ok m1 =>
      rw [hc] at h
      dsimp only at h
      rw [ih _ h, scIdsByTitleCh_entries scenes ch.srtScenes m0 m1 hc]
      rw [listedIds, List.filterMap_append, List.append_assoc]

theorem scIdsByTitleCh_keys_nodup (scenes : List (String × PyScene)) (ids : List String)
    (m0 m : List (Option String × String)) (hnd : (m0.map Prod.fst).Nodup)
    (h : scIdsByTitleCh scenes ids m0 = .ok m) : (m.map Prod.fst).Nodup := by
  induction ids generalizing m0 with
  | nil =>
    rw [scIdsByTitleCh] at h
    cases h
    exact hnd
  | cons id rest ih =>
    rw [scIdsByTitleCh] at h
    cases hg : alGet scenes id with
    | none => rw [hg] at h; exact absurd h (by simp)
    | some sc =>
      rw [hg] at h
      dsimp only at h
      by_cases hsk : truthyB sc.isUnused ∧ ¬ truthyB sc.isNotesScene
      · rw [if_pos hsk] at h
        exact ih _ hnd h
      · rw [if_neg hsk] at h
        by_cases hhas : alHas m0 sc.title
        · rw [if_pos hhas] at h
          exact absurd h (by simp)
        · rw [if_neg hhas] at h
          refine ih _ ?_ h
          rw [List.map_append, List.map_singleton]
          rw [List.nodup_append]
          refine ⟨hnd, List.nodup_singleton _, ?_⟩
          intro τ hτ hτ2
          rw [List.mem_singleton] at hτ2
          subst hτ2
          have hs := alGet_isSome_of_key_mem m0 _ hτ
          exact hhas hs

theorem buildScIdsByTitle_keys_nodup (scenes : List (String × PyScene))
    (chs : List (String × PyChapter)) (m0 m : List (Option String × String))
    (hnd : (m0.map Prod.fst).Nodup) (h : buildScIdsByTitle scenes chs m0 = .ok m) :
    (m.map Prod.fst).Nodup := by
  induction chs generalizing m0 with
  | nil =>
    rw [buildScIdsByTitle] at h
    cases h
    exact hnd
  | cons p rest ih =>
    obtain ⟨k, ch⟩ := p
    rw [buildScIdsByTitle] at h
    cases hc : scIdsByTitleCh scenes ch.srtScenes m0 with
    | error e => rw [hc] at h; exact absurd h (by simp)
    | ok m1 =>
      rw [hc] at h
      dsimp only at h
      exact ih _ (scIdsByTitleCh_keys_nodup scenes ch.srtScenes m0 m1 hnd hc) h

/-- Validity of the title map: every binding comes from a listed scene
carrying that title and passing the activity filter. -/
theorem buildScIdsByTitle_valid (scenes : List (String × PyScene))
    (chs : List (String × PyChapter)) (m : List (Option String × String))
    (h : buildScIdsByTitle scenes chs [] = .ok m) (τ : Option String) (k : String)
    (hget : alGet m τ = some k) :
    k ∈ listedIds chs ∧ activeTitled scenes k = some τ := by
  have he := buildScIdsByTitle_entries scenes chs [] m h
  rw [List.nil_append] at he
  subst he
  have hmem := alGet_mem _ _ _ hget
  obtain ⟨id, hid, hmm⟩ := List.mem_filterMap.mp hmem
  cases hat : activeTitled scenes id with
  | none => rw [hat] at hmm; simp at hmm
  | some τ' =>
    rw [hat] at hmm
    simp at hmm
    obtain ⟨h1, h2⟩ := hmm
    subst h1
    subst h2
    exact ⟨hid, hat⟩

/-- Completeness of the title map: every listed, active scene is bound
under its own title. -/
theorem buildScIdsByTitle_complete (scenes : List (String × PyScene))
    (chs : List (String × PyChapter)) (m : List (Option String × String))
    (h : buildScIdsByTitle scenes chs [] = .ok m) (k : String) (τ : Option String)
    (hk : k ∈ listedIds chs) (hat : activeTitled scenes k = some τ) :
    alGet m τ = some k := by
  have he := buildScIdsByTitle_entries scenes chs [] m h
  rw [List.nil_append] at he
  have hnd := buildScIdsByTitle_keys_nodup scenes chs [] m (by simp) h
  refine alGet_of_mem_nodup m τ k hnd ?_
  rw [he]
  exact List.mem_filterMap.mpr ⟨k, hk, by rw [hat]; rfl⟩

theorem syncScenes_append (so : Bool) (scT : List (Option String × String))
    (crM lcM itM : List (String × String)) (srcScenes : List (String × PyScene))
    (nci : String) (xs ys : List String) (st : UpdState) :
    syncScenes so scT crM lcM itM srcScenes nci (xs ++ ys) st =
      match syncScenes so scT crM lcM itM srcScenes nci xs st with
      | .ok st1 => syncScenes so scT crM lcM itM srcScenes nci ys st1
      | .error e => .error e := by
  induction xs generalizing st with
  | nil => rfl
  | cons x rest ih =>
    show syncScenes so scT crM lcM itM srcScenes nci (x :: (rest ++ ys)) st = _
    rw [syncScenes, syncScenes]
    cases syncScene so scT crM lcM itM srcScenes nci x st with
    | error e => rfl
    | ok st1 => exact ih st1

theorem updateChapters_eq_processed (so : Bool) (scT : List (Option String × String))
    (crM lcM itM : List (String × String)) (srcScenes : List (String × PyScene))
    (nci : String) (chs : List (String × PyChapter)) (st : UpdState) :
    updateChapters so scT crM lcM itM srcScenes nci chs st =
      syncScenes so scT crM lcM itM srcScenes nci (processedIds chs) st := by
  induction chs generalizing st with
  | nil => rfl
  | cons p rest ih =>
    obtain ⟨k, ch⟩ := p
    rw [updateChapters, processedIds]
    by_cases htr : truthyB ch.isTrash
    · rw [if_pos htr, if_pos htr, List.nil_append]
      exact ih st
    · rw [if_neg htr, if_neg htr, syncScenes_append]
      cases hsc : syncScenes so scT crM lcM itM srcScenes nci ch.srtScenes st with
      | error e => rfl
      | ok st1 => exact ih st1

theorem syncScene_untouched (so : Bool) (scT : List (Option String × String))
    (crM lcM itM : List (String × String)) (srcScenes : List (String × PyScene))
    (nci : String) (srcId : String) (st st1 : UpdState) (k : String) (n : Int)
    (h : syncScene so scT crM lcM itM srcScenes nci srcId st = .ok st1)
    (hn : pyInt? k = some n) (hle : n ≤ st.scIdMax) (hpos : 0 ≤ st.scIdMax)
    (hnot : ∀ ssc, alGet srcScenes srcId = some ssc → ¬ alGet scT ssc.title = some k) :
    alGet st1.scenes k = alGet st.scenes k ∧ st.scIdMax ≤ st1.scIdMax := by
  unfold syncScene at h
  cases hg : alGet srcScenes srcId with
  | none => rw [hg] at h; exact absurd h (by simp)
  | some ssc =>
    rw [hg] at h
    dsimp only at h
    have hk := hnot ssc hg
    by_cases hbr : truthyB ssc.isNotesScene ∧ so
    · rw [if_pos hbr] at h
      cases hm : alGet scT ssc.title with
      | none =>
        rw [hm] at h
        cases h
        exact ⟨rfl, le_refl _⟩
      | some scId =>
        rw [hm] at h
        dsimp only at h
        cases hts : alGet st.scenes scId with
        | none => rw [hts] at h; exact absurd h (by simp)
        | some tsc =>
          rw [hts] at h
          dsimp only at h
          cases h
          have hne : ¬ scId = k := fun he => hk (he ▸ hm)
          constructor
          · show alGet (alSet st.scenes scId _) k = _
            rw [alGet_alSet, if_neg hne]
          · exact le_refl _
    · rw [if_neg hbr] at h
      cases hm : alGet scT ssc.title with
      | some scId =>
        rw [hm] at h
        dsimp only at h
        have hne : ¬ scId = k := fun he => hk (he ▸ hm)
        cases hts : alGet st.scenes scId with
        | none => rw [hts] at h; exact absurd h (by simp)
        | some tsc =>
          rw [hts] at h
          dsimp only at h
          cases hu : updSceneFields crM lcM itM ssc tsc with
          | error e => rw [hu] at h; exact absurd h (by simp)
          | ok tsc' =>
            rw [hu] at h
            dsimp only at h
            cases h
            constructor
            · show alGet (alSet st.scenes scId _) k = _
              rw [alGet_alSet, if_neg hne]
            · exact le_refl _
      | none =>
        rw [hm] at h
        dsimp only at h
        unfold createScene at h
        dsimp only at h
        have hnew : ¬ pyIntStr (st.scIdMax + 1) = k :=
          pyIntStr_ne_of_lt k n (st.scIdMax + 1) hn (by omega) (by omega)
        cases hnc : alGet (if st.newChapterExists then (st.chapters, st.srtChapters)
            else (alSet st.chapters nci newChapterRec, st.srtChapters ++ [nci])).1 nci with
        | none => rw [hnc] at h; exact absurd h (by simp)
        | some nc =>
          rw [hnc] at h
          dsimp only at h
          cases hu : updSceneFields crM lcM itM ssc
              { emptyScene with title := ssc.title, status := some 1 } with
          | error e =>
            rw [show alGet (alSet st.scenes (pyIntStr (st.scIdMax + 1))
                { emptyScene with title := ssc.title, status := some 1 })
                (pyIntStr (st.scIdMax + 1)) =
                some { emptyScene with title := ssc.title, status := some 1 } by
              rw [alGet_alSet, if_pos rfl]] at h
            dsimp only at h
            rw [hu] at h
            exact absurd h (by simp)
          | ok tsc' =>
            rw [show alGet (alSet st.scenes (pyIntStr (st.scIdMax + 1))
                { emptyScene with title := ssc.title, status := some 1 })
                (pyIntStr (st.scIdMax + 1)) =
                some { emptyScene with title := ssc.title, status := some 1 } by
              rw [alGet_alSet, if_pos rfl]] at h
            dsimp only at h
            rw [hu] at h
            dsimp only at h
            cases h
            constructor
            · show alGet (alSet (alSet st.scenes (pyIntStr (st.scIdMax + 1)) _)
                (pyIntStr (st.scIdMax + 1)) _) k = _
              rw [alGet_alSet, if_neg hnew, alGet_alSet, if_neg hnew]
            · show st.scIdMax ≤ st.scIdMax + 1
              omega

theorem syncScenes_untouched (so : Bool) (scT : List (Option String × String))
    (crM lcM itM : List (String × String)) (srcScenes : List (String × PyScene))
    (nci : String) (ids : List String) (st st1 : UpdState) (k : String) (n : Int)
    (h : syncScenes so scT crM lcM itM srcScenes nci ids st = .ok st1)
    (hn : pyInt? k = some n) (hle : n ≤ st.scIdMax) (hpos : 0 ≤ st.scIdMax)
    (hnot : ∀ srcId ∈ ids, ∀ ssc, alGet srcScenes srcId = some ssc →
      ¬ alGet scT ssc.title = some k) :
    alGet st1.scenes k = alGet st.scenes k ∧ st.scIdMax ≤ st1.scIdMax := by
  induction ids generalizing st with
  | nil =>
    rw [syncScenes] at h
    cases h
    exact ⟨rfl, le_refl _⟩
  | cons srcId rest ih =>
    rw [syncScenes] at h
    cases hs : syncScene so scT crM lcM itM srcScenes nci srcId st with
    | error e => rw [hs] at h; exact absurd h (by simp)
    | ok stm =>
      rw [hs] at h
      dsimp only at h
      obtain ⟨h1, h2⟩ := syncScene_untouched so scT crM lcM itM srcScenes nci srcId st stm k n
        hs hn hle hpos (fun ssc hssc => hnot srcId (by simp) ssc hssc)
      obtain ⟨h3, h4⟩ := ih stm h (by omega) (by omega)
        (fun srcId' hmem ssc hssc => hnot srcId' (by simp [hmem]) ssc hssc)
      exact ⟨h3.trans h1, by omega⟩

theorem ambig_head (pre tail : String) (t : Option String) :
    (ERROR ++ pre ++ pyStr t ++ tail).data.head? = some '!' := by
  have h1 : (ERROR ++ pre ++ pyStr t ++ tail).data
      = '!' :: (pre.data ++ ((pyStr t).data ++ tail.data)) := by
    simp only [String.data_append, List.append_assoc]
    rfl
  rw [h1]
  rfl

theorem ambig_ne_success (pre : String) (t : Option String) :
    ¬ ERROR ++ pre ++ pyStr t ++ "\"." = "Novel updated from timeline data." := by
  intro h
  have h1 := congrArg (fun s => s.data.head?) h
  dsimp only at h1
  rw [ambig_head] at h1
  have h2 : ("Novel updated from timeline data." : String).data.head? = some 'N' := rfl
  rw [h2] at h1
  exact absurd h1 (by decide)

/-- A successful `Yw7Target.merge` run decomposes into its validation and
update phases, each succeeding. -/
theorem yw7_merge_ok_inv (so : Bool) (tgt src : YwNovel) (t' : YwNovel)
    (h : Yw7Target.merge so tgt src = .ret "Novel updated from timeline data." t') :
    ∃ scan scIdMax marked chIdMax scT crByName crIdMax lcByTitle lcIdMax itByTitle itIdMax ust,
      srcScan src.scenes ⟨[], [], [], []⟩ = .ok scan ∧
      markUnusedScan scan.titles tgt.scenes 0 = .ok (scIdMax, marked) ∧
      maxIdScan tgt.chapters 0 = .ok chIdMax ∧
      buildScIdsByTitle marked tgt.chapters [] = .ok scT ∧
      worldTargetScan tgt.characters [] 0 = .ok (crByName, crIdMax) ∧
      worldTargetScan tgt.locations [] 0 = .ok (lcByTitle, lcIdMax) ∧
      worldTargetScan tgt.items [] 0 = .ok (itByTitle, itIdMax) ∧
      updateChapters so scT
        (bindWorld crByName scan.linkedC src.characters ⟨[], tgt.characters, tgt.srtCharacters, crIdMax⟩).m
        (bindWorld lcByTitle scan.linkedL src.locations ⟨[], tgt.locations, tgt.srtLocations, lcIdMax⟩).m
        (bindWorld itByTitle scan.linkedI src.items ⟨[], tgt.items, tgt.srtItems, itIdMax⟩).m
        src.scenes (pyIntStr (chIdMax + 1)) src.chapters
        ⟨marked, tgt.chapters, tgt.srtChapters, scIdMax, false⟩ = .ok ust ∧
      t'.scenes = ust.scenes ∧ t'.chapters = ust.chapters := by
  unfold Yw7Target.merge at h
  cases h1 : srcScan src.scenes ⟨[], [], [], []⟩ with
  | error t =>
    rw [h1] at h
    dsimp only at h
    injection h with hm _
    unfold ambigEventMsg at hm
    exact absurd hm (ambig_ne_success _ t)
  | ok scan =>
  rw [h1] at h
  dsimp only at h
  cases h2 : worldDupScan src.characters scan.linkedC with
  | some t =>
    rw [h2] at h
    dsimp only at h
    injection h with hm _
    unfold ambigYwCharMsg at hm
    exact absurd hm (ambig_ne_success _ t)
  | none =>
  rw [h2] at h
  dsimp only at h
  cases h3 : worldDupScan src.locations scan.linkedL with
  | some t =>
    rw [h3] at h
    dsimp only at h
    injection h with hm _
    unfold ambigYwLocMsg at hm
    exact absurd hm (ambig_ne_success _ t)
  | none =>
  rw [h3] at h
  dsimp only at h
  cases h4 : worldDupScan src.items scan.linkedI with
  | some t =>
    rw [h4] at h
    dsimp only at h
    injection h with hm _
    unfold ambigYwItemMsg at hm
    exact absurd hm (ambig_ne_success _ t)
  | none =>
  rw [h4] at h
  dsimp only at h
  cases h5 : markUnusedScan scan.titles tgt.scenes 0 with
  | error e => rw [h5] at h; exact absurd h (by simp)
  | ok p =>
  obtain ⟨scIdMax, marked⟩ := p
  rw [h5] at h
  dsimp only at h
  cases h6 : maxIdScan tgt.chapters 0 with
  | error e => rw [h6] at h; exact absurd h (by simp)
  | ok chIdMax =>
  rw [h6] at h
  dsimp only at h
  cases h7 : buildScIdsByTitle marked tgt.chapters [] with
  | error e =>
    rw [h7] at h
    cases e with
    | inl s => exact absurd h (by simp)
    | inr t =>
      dsimp only at h
      injection h with hm _
      unfold ambigYwSceneMsg at hm
      exact absurd hm (ambig_ne_success _ t)
  | ok scT =>
  rw [h7] at h
  dsimp only at h
  cases h8 : worldTargetScan tgt.characters [] 0 with
  | error e =>
    rw [h8] at h
    cases e with
    | inl s => exact absurd h (by simp)
    | inr t =>
      dsimp only at h
      injection h with hm _
      unfold ambigYwCharMsg at hm
      exact absurd hm (ambig_ne_success _ t)
  | ok p =>
  obtain ⟨crByName, crIdMax⟩ := p
  rw [h8] at h
  dsimp only at h
  cases h9 : worldTargetScan tgt.locations [] 0 with
  | error e =>
    rw [h9] at h
    cases e with
    | inl s => exact absurd h (by simp)
    | inr t =>
      dsimp only at h
      injection h with hm _
      unfold ambigYwLocMsg at hm
      exact absurd hm (ambig_ne_success _ t)
  | ok p =>
  obtain ⟨lcByTitle, lcIdMax⟩ := p
  rw [h9] at h
  dsimp only at h
  cases h10 : worldTargetScan tgt.items [] 0 with
  | error e =>
    rw [h10] at h
    cases e with
    | inl s => exact absurd h (by simp)
    | inr t =>
      dsimp only at h
      injection h with hm _
      unfold ambigYwItemMsg at hm
      exact absurd hm (ambig_ne_success _ t)
  | ok p =>
  obtain ⟨itByTitle, itIdMax⟩ := p
  rw [h10] at h
  dsimp only at h
  cases h11 : updateChapters so scT
      (bindWorld crByName scan.linkedC src.characters ⟨[], tgt.characters, tgt.srtCharacters, crIdMax⟩).m
      (bindWorld lcByTitle scan.linkedL src.locations ⟨[], tgt.locations, tgt.srtLocations, lcIdMax⟩).m
      (bindWorld itByTitle scan.linkedI src.items ⟨[], tgt.items, tgt.srtItems, itIdMax⟩).m
      src.scenes (pyIntStr (chIdMax + 1)) src.chapters
      ⟨marked, tgt.chapters, tgt.srtChapters, scIdMax, false⟩ with
  | error e => rw [h11] at h; exact absurd h (by simp)
  | ok ust =>
  rw [h11] at h
  dsimp only at h
  injection h with _ hst
  exact ⟨scan, scIdMax, marked, chIdMax, scT, crByName, crIdMax, lcByTitle, lcIdMax,
    itByTitle, itIdMax, ust, rfl, h5, rfl, h7, rfl, rfl, rfl, h11,
    by rw [← hst], by rw [← hst]⟩

/-- C2: on a successful `Yw7Target.merge` run, every target scene that is
not a notes scene and whose title does not occur among the source scene
titles ends up with `isUnused = True` and every other field unchanged. -/
theorem spec_c2_unmatched_target_scene_soft_deleted (so : Bool) (tgt src t' : YwNovel)
    (scId : String) (sc : PyScene)
    (hrun : Yw7Target.merge so tgt src = .ret "Novel updated from timeline data." t')
    (hsc : alGet tgt.scenes scId = some sc)
    (hnotes : ¬ truthyB sc.isNotesScene)
    (htitle : ¬ sc.title ∈ src.scenes.map (fun p => p.2.title)) :
    alGet t'.scenes scId = some { sc with isUnused := some true } := by
  obtain ⟨scan, scIdMax, marked, chIdMax, scT, crByName, crIdMax, lcByTitle, lcIdMax,
    itByTitle, itIdMax, ust, h1, h5, h6, h7, h8, h9, h10, h11, hts, hch⟩ :=
    yw7_merge_ok_inv so tgt src t' hrun
  have htl := srcScan_ok_titles _ _ _ h1
  have htitles : ¬ sc.title ∈ scan.titles := by
    rw [htl]
    simpa using htitle
  obtain ⟨hmk, hbounds, hm0⟩ := markUnusedScan_spec _ _ _ _ h5
  dsimp only at hmk hbounds hm0
  have hmg : alGet marked scId = some { sc with isUnused := some true } := by
    rw [hmk, alGet_map_val, hsc]
    show some (markFn scan.titles sc) = _
    unfold markFn
    rw [if_pos ⟨htitles, hnotes⟩]
  obtain ⟨n, hn, hle⟩ := hbounds (scId, sc) (alGet_mem _ _ _ hsc)
  have hact2 : activeTitled marked scId = none := by
    unfold activeTitled
    rw [hmg]
    show (if truthyB (some true) = true ∧ ¬ truthyB sc.isNotesScene = true
      then none else some sc.title) = none
    rw [if_pos ⟨rfl, hnotes⟩]
  have hnot : ∀ srcId ∈ processedIds src.chapters, ∀ ssc,
      alGet src.scenes srcId = some ssc → ¬ alGet scT ssc.title = some scId := by
    intro srcId _ ssc _ heq
    have hv := (buildScIdsByTitle_valid marked tgt.chapters scT h7 ssc.title scId heq).2
    rw [hact2] at hv
    exact absurd hv (by simp)
  rw [updateChapters_eq_processed] at h11
  obtain ⟨hfin, _⟩ := syncScenes_untouched so scT _ _ _ src.scenes (pyIntStr (chIdMax + 1))
    (processedIds src.chapters) ⟨marked, tgt.chapters, tgt.srtChapters, scIdMax, false⟩ ust
    scId n h11 hn hle hm0 hnot
  rw [hts, hfin]
  exact hmg

/-- Witness for C2 at the concrete narrative scene `"Storm"` dropped from
the source. -/
theorem spec_c2_witness :
    alGet c2Result.scenes "1" = some { c2Scene with isUnused := some true } :=
  spec_c2_unmatched_target_scene_soft_deleted false c2Tgt c2Src c2Result "1" c2Scene
    (by rfl) (by rfl) (by decide) (by decide)

theorem alGet_title_inj (l : List (String × PyScene))
    (hnd : (l.map (fun p => p.2.title)).Nodup) (a b : String) (s1 s2 : PyScene)
    (h1 : alGet l a = some s1) (h2 : alGet l b = some s2) (ht : s1.title = s2.title) :
    a = b := by
  have hm1 := alGet_mem _ _ _ h1
  have hm2 := alGet_mem _ _ _ h2
  have heq := List.inj_on_of_nodup_map hnd hm1 hm2 ht
  exact congrArg Prod.fst heq

/-- At most one title is bound to a given target scene id. -/
theorem buildScIdsByTitle_val_inj (scenes : List (String × PyScene))
    (chs : List (String × PyChapter)) (m : List (Option String × String))
    (h : buildScIdsByTitle scenes chs [] = .ok m) (τ₁ τ₂ : Option String) (k : String)
    (h1 : alGet m τ₁ = some k) (h2 : alGet m τ₂ = some k) : τ₁ = τ₂ := by
  have v1 := (buildScIdsByTitle_valid scenes chs m h τ₁ k h1).2
  have v2 := (buildScIdsByTitle_valid scenes chs m h τ₂ k h2).2
  rw [v1] at v2
  exact Option.some.inj v2

/-- A matched source scene updates exactly the bound target scene, via
`updSceneFields`, leaving the id counter alone. -/
theorem syncScene_touched (so : Bool) (scT : List (Option String × String))
    (crM lcM itM : List (String × String)) (srcScenes : List (String × PyScene))
    (nci : String) (srcId : String) (st st1 : UpdState) (ssc : PyScene)
    (scId : String) (tsc : PyScene)
    (h : syncScene so scT crM lcM itM srcScenes nci srcId st = .ok st1)
    (hssc : alGet srcScenes srcId = some ssc)
    (hskip : ¬ (truthyB ssc.isNotesScene ∧ so))
    (hmatch : alGet scT ssc.title = some scId)
    (htsc : alGet st.scenes scId = some tsc) :
    ∃ tsc', updSceneFields crM lcM itM ssc tsc = .ok tsc' ∧
      st1.scenes = alSet st.scenes scId tsc' ∧ st1.scIdMax = st.scIdMax := by
  unfold syncScene at h
  rw [hssc] at h
  dsimp only at h
  rw [if_neg hskip, hmatch] at h
  dsimp only at h
  rw [htsc] at h
  dsimp only at h
  cases hu : updSceneFields crM lcM itM ssc tsc with
  | error e => rw [hu] at h; exact absurd h (by simp)
  | ok tsc' =>
    rw [hu] at h
    dsimp only at h
    cases h
    exact ⟨tsc', rfl, rfl, rfl⟩

/-- On a successful run, a processed source scene matched by title to an
active listed target scene rewrites exactly that scene's record through
`updSceneFields` with the entity bindings the run computed. -/
theorem merge_matched_scene (so : Bool) (tgt src t' : YwNovel)
    (srcId : String) (ssc : PyScene) (scId : String) (tsc : PyScene)
    (hrun : Yw7Target.merge so tgt src = .ret "Novel updated from timeline data." t')
    (hmem : srcId ∈ processedIds src.chapters)
    (hnodup : (processedIds src.chapters).Nodup)
    (hssc : alGet src.scenes srcId = some ssc)
    (hskip : ¬ (truthyB ssc.isNotesScene ∧ so))
    (hlisted : scId ∈ listedIds tgt.chapters)
    (htsc : alGet tgt.scenes scId = some tsc)
    (halign : tsc.title = ssc.title)
    (hactive : ¬ (truthyB tsc.isUnused ∧ ¬ truthyB tsc.isNotesScene)) :
    ∃ scan crByName crIdMax lcByTitle lcIdMax itByTitle itIdMax tsc',
      srcScan src.scenes ⟨[], [], [], []⟩ = .ok scan ∧
      worldTargetScan tgt.characters [] 0 = .ok (crByName, crIdMax) ∧
      worldTargetScan tgt.locations [] 0 = .ok (lcByTitle, lcIdMax) ∧
      worldTargetScan tgt.items [] 0 = .ok (itByTitle, itIdMax) ∧
      updSceneFields
        (bindWorld crByName scan.linkedC src.characters ⟨[], tgt.characters, tgt.srtCharacters, crIdMax⟩).m
        (bindWorld lcByTitle scan.linkedL src.locations ⟨[], tgt.locations, tgt.srtLocations, lcIdMax⟩).m
        (bindWorld itByTitle scan.linkedI src.items ⟨[], tgt.items, tgt.srtItems, itIdMax⟩).m
        ssc tsc = .ok tsc' ∧
      alGet t'.scenes scId = some tsc' := by
  obtain ⟨scan, scIdMax, marked, chIdMax, scT, crByName, crIdMax, lcByTitle, lcIdMax,
    itByTitle, itIdMax, ust, h1, h5, h6, h7, h8, h9, h10, h11, hts, hch⟩ :=
    yw7_merge_ok_inv so tgt src t' hrun
  set crM := (bindWorld crByName scan.linkedC src.characters
    ⟨[], tgt.characters, tgt.srtCharacters, crIdMax⟩).m with hcrM
  set lcM := (bindWorld lcByTitle scan.linkedL src.locations
    ⟨[], tgt.locations, tgt.srtLocations, lcIdMax⟩).m with hlcM
  set itM := (bindWorld itByTitle scan.linkedI src.items
    ⟨[], tgt.items, tgt.srtItems, itIdMax⟩).m with hitM
  have htl := srcScan_ok_titles _ _ _ h1
  have hnd := (srcScan_ok_nodup _ _ _ h1).1
  have hmemtitle : ssc.title ∈ src.scenes.map (fun p => p.2.title) :=
    List.mem_map.mpr ⟨(srcId, ssc), alGet_mem _ _ _ hssc, rfl⟩
  have hmemtitle' : ssc.title ∈ scan.titles := by
    rw [htl]
    exact List.mem_append_right _ hmemtitle
  obtain ⟨hmk, hbounds, hm0⟩ := markUnusedScan_spec _ _ _ _ h5
  dsimp only at hmk hbounds hm0
  have hmg : alGet marked scId = some tsc := by
    rw [hmk, alGet_map_val, htsc]
    show some (markFn scan.titles tsc) = some tsc
    unfold markFn
    rw [if_neg]
    intro hcon
    exact hcon.1 (by rw [halign]; exact hmemtitle')
  have hat : activeTitled marked scId = some tsc.title := by
    unfold activeTitled
    rw [hmg]
    show (if truthyB tsc.isUnused = true ∧ ¬ truthyB tsc.isNotesScene = true
      then none else some tsc.title) = some tsc.title
    rw [if_neg hactive]
  have hmatch : alGet scT ssc.title = some scId := by
    have hc := buildScIdsByTitle_complete marked tgt.chapters scT h7 scId tsc.title hlisted hat
    rw [halign] at hc
    exact hc
  obtain ⟨n, hn, hle⟩ := hbounds (scId, tsc) (alGet_mem _ _ _ htsc)
  obtain ⟨xs, ys, hsplit⟩ := List.append_of_mem hmem
  rw [updateChapters_eq_processed, hsplit, syncScenes_append] at h11
  rw [hsplit, List.nodup_append] at hnodup
  have hsx1 : srcId ∉ xs := fun hc => hnodup.2.2 hc (by simp)
  have hsx2 : srcId ∉ ys := (List.nodup_cons.mp hnodup.2.1).1
  have hother : ∀ id, ¬ id = srcId → ∀ ssc', alGet src.scenes id = some ssc' →
      ¬ alGet scT ssc'.title = some scId := by
    intro id hne ssc' hssc' hcon
    have hinj := buildScIdsByTitle_val_inj marked tgt.chapters scT h7
      ssc'.title ssc.title scId hcon hmatch
    exact hne (alGet_title_inj src.scenes hnd id srcId ssc' ssc hssc' hssc hinj)
  cases hx : syncScenes so scT crM lcM itM src.scenes (pyIntStr (chIdMax + 1)) xs
      ⟨marked, tgt.chapters, tgt.srtChapters, scIdMax, false⟩ with
  | error e => rw [hx] at h11; exact absurd h11 (by simp)
  | ok stm =>
  rw [hx] at h11
  dsimp only at h11
  obtain ⟨hu1, hmax1⟩ := syncScenes_untouched so scT crM lcM itM src.scenes
    (pyIntStr (chIdMax + 1)) xs ⟨marked, tgt.chapters, tgt.srtChapters, scIdMax, false⟩ stm
    scId n hx hn hle hm0
    (fun id hid ssc' hssc' => hother id (fun he => hsx1 (he ▸ hid)) ssc' hssc')
  have hmax1' : scIdMax ≤ stm.scIdMax := hmax1
  rw [syncScenes] at h11
  cases hy : syncScene so scT crM lcM itM src.scenes (pyIntStr (chIdMax + 1)) srcId stm with
  | error e => rw [hy] at h11; exact absurd h11 (by simp)
  | ok stm1 =>
  rw [hy] at h11
  dsimp only at h11
  have htscm : alGet stm.scenes scId = some tsc := by
    rw [hu1]
    exact hmg
  obtain ⟨tsc', hupd, hscn1, hmax2⟩ := syncScene_touched so scT crM lcM itM src.scenes
    (pyIntStr (chIdMax + 1)) srcId stm stm1 ssc scId tsc hy hssc hskip hmatch htscm
  obtain ⟨hu2, _⟩ := syncScenes_untouched so scT crM lcM itM src.scenes
    (pyIntStr (chIdMax + 1)) ys stm1 ust scId n h11 hn (by omega) (by omega)
    (fun id hid ssc' hssc' => hother id (fun he => hsx2 (he ▸ hid)) ssc' hssc')
  have hfin : alGet ust.scenes scId = some tsc' := by
    rw [hu2, hscn1, alGet_alSet, if_pos rfl]
  exact ⟨scan, crByName, crIdMax, lcByTitle, lcIdMax, itByTitle, itIdMax, tsc',
    h1, h8, h9, h10, hupd, by rw [hts]; exact hfin⟩

theorem updSceneFields_decomp (crM lcM itM : List (String × String)) (ssc tsc : PyScene) :
    updSceneFields crM lcM itM ssc tsc =
      match updChars crM ssc.characters (preChars ssc tsc) with
      | .error e => .error e
      | .ok t5 => .ok (postChars lcM itM ssc t5) := rfl

theorem preChars_notes (ssc tsc : PyScene) :
    (preChars ssc tsc).sceneNotes = mergeNotes ssc.sceneNotes tsc.sceneNotes := by
  unfold preChars
  cases ssc.tags <;> cases ssc.desc <;> rfl

theorem preChars_chars (ssc tsc : PyScene) :
    (preChars ssc tsc).characters = tsc.characters := by
  unfold preChars
  cases ssc.tags <;> cases ssc.desc <;> rfl

theorem postChars_notes (lcM itM : List (String × String)) (ssc t5 : PyScene) :
    (postChars lcM itM ssc t5).sceneNotes = t5.sceneNotes := by
  unfold postChars
  cases ssc.locations <;> cases ssc.items <;> cases ssc.kwSceneArcs <;> rfl

theorem postChars_chars (lcM itM : List (String × String)) (ssc t5 : PyScene) :
    (postChars lcM itM ssc t5).characters = t5.characters := by
  unfold postChars
  cases ssc.locations <;> cases ssc.items <;> cases ssc.kwSceneArcs <;> rfl

/-- `updChars` only ever rewrites the `characters` attribute. -/
theorem updChars_shape (crM : List (String × String)) (scs : Option (List String))
    (tsc tsc' : PyScene) (h : updChars crM scs tsc = .ok tsc') :
    ∃ c, tsc' = { tsc with characters := c } := by
  unfold updChars at h
  cases scs with
  | none =>
    cases h
    exact ⟨tsc.characters, rfl⟩
  | some cs =>
    cases hl : tsc.characters with
    | none => rw [hl] at h; exact absurd h (by simp)
    | some l =>
      rw [hl] at h
      dsimp only at h
      cases l with
      | nil =>
        cases hr : rebuildChars crM cs (if "" ∈ alVals crM then [""] else []) with
        | error e => rw [hr] at h; exact absurd h (by simp)
        | ok chars =>
          rw [hr] at h
          dsimp only at h
          cases h
          exact ⟨some chars, rfl⟩
      | cons c rest =>
        cases hr : rebuildChars crM cs (if c ∈ alVals crM then [c] else []) with
        | error e => rw [hr] at h; exact absurd h (by simp)
        | ok chars =>
          rw [hr] at h
          dsimp only at h
          cases h
          exact ⟨some chars, rfl⟩

/-- Characterization of a successful `updChars` on a present character
list: the result is the rebuilt list seeded with the kept viewpoint. -/
theorem updChars_spec (crM : List (String × String)) (cs : List String)
    (tsc tsc' : PyScene) (l : List String)
    (hl : tsc.characters = some l)
    (h : updChars crM (some cs) tsc = .ok tsc') :
    ∃ chars, rebuildChars crM cs
        (if l.headD "" ∈ alVals crM then [l.headD ""] else []) = .ok chars ∧
      tsc' = { tsc with characters := some chars } := by
  unfold updChars at h
  rw [hl] at h
  dsimp only at h
  cases l with
  | nil =>
    dsimp only [List.headD]
    cases hr : rebuildChars crM cs (if "" ∈ alVals crM then [""] else []) with
    | error e => rw [hr] at h; exact absurd h (by simp)
    | ok chars =>
      rw [hr] at h
      dsimp only at h
      cases h
      exact ⟨chars, rfl, rfl⟩
  | cons c rest =>
    dsimp only [List.headD]
    cases hr : rebuildChars crM cs (if c ∈ alVals crM then [c] else []) with
    | error e => rw [hr] at h; exact absurd h (by simp)
    | ok chars =>
      rw [hr] at h
      dsimp only at h
      cases h
      exact ⟨chars, rfl, rfl⟩

theorem updSceneFields_notes (crM lcM itM : List (String × String)) (ssc tsc tsc' : PyScene)
    (h : updSceneFields crM lcM itM ssc tsc = .ok tsc') :
    tsc'.sceneNotes = mergeNotes ssc.sceneNotes tsc.sceneNotes := by
  rw [updSceneFields_decomp] at h
  cases h5 : updChars crM ssc.characters (preChars ssc tsc) with
  | error e => rw [h5] at h; exact absurd h (by simp)
  | ok t5 =>
    rw [h5] at h
    dsimp only at h
    cases h
    obtain ⟨c, hc⟩ := updChars_shape crM ssc.characters (preChars ssc tsc) t5 h5
    rw [postChars_notes, hc]
    show (preChars ssc tsc).sceneNotes = _
    exact preChars_notes ssc tsc

theorem updSceneFields_chars (crM lcM itM : List (String × String)) (ssc tsc tsc' : PyScene)
    (cs l : List String) (hcs : ssc.characters = some cs) (hl : tsc.characters = some l)
    (h : updSceneFields crM lcM itM ssc tsc = .ok tsc') :
    ∃ chars, rebuildChars crM cs
        (if l.headD "" ∈ alVals crM then [l.headD ""] else []) = .ok chars ∧
      tsc'.characters = some chars := by
  rw [updSceneFields_decomp] at h
  cases h5 : updChars crM ssc.characters (preChars ssc tsc) with
  | error e => rw [h5] at h; exact absurd h (by simp)
  | ok t5 =>
    rw [h5] at h
    dsimp only at h
    cases h
    rw [hcs] at h5
    obtain ⟨chars, hr, ht5⟩ := updChars_spec crM cs (preChars ssc tsc) t5 l
      (by rw [preChars_chars]; exact hl) h5
    refine ⟨chars, hr, ?_⟩
    rw [postChars_chars, ht5]

/-- The seed of the character rebuild stays a prefix of the result. -/
theorem rebuildChars_prefix (m : List (String × String)) (cs : List String)
    (base chars : List String) (h : rebuildChars m cs base = .ok chars) :
    base <+: chars := by
  induction cs generalizing base with
  | nil =>
    rw [rebuildChars] at h
    cases h
    exact List.prefix_refl _
  | cons c rest ih =>
    rw [rebuildChars] at h
    cases hm : alGet m c with
    | none => rw [hm] at h; exact absurd h (by simp)
    | some mc =>
      rw [hm] at h
      dsimp only at h
      by_cases hmem : mc ∈ base
      · rw [if_pos hmem] at h
        exact ih _ h
      · rw [if_neg hmem] at h
        exact (List.prefix_append base [mc]).trans (ih _ h)

/-- C4: timeline-to-novel notes policy for a matched scene with present
source notes: absent target notes take the source notes, a target note
text already containing the source text is unchanged, and otherwise the
source notes are appended after a newline - the target's note text is
never overwritten. -/
theorem spec_c4_notes_appended_not_overwritten (so : Bool) (tgt src t' : YwNovel)
    (srcId : String) (ssc : PyScene) (scId : String) (tsc : PyScene) (nsrc : String)
    (hrun : Yw7Target.merge so tgt src = .ret "Novel updated from timeline data." t')
    (hmem : srcId ∈ processedIds src.chapters)
    (hnodup : (processedIds src.chapters).Nodup)
    (hssc : alGet src.scenes srcId = some ssc)
    (hskip : ¬ (truthyB ssc.isNotesScene ∧ so))
    (hlisted : scId ∈ listedIds tgt.chapters)
    (htsc : alGet tgt.scenes scId = some tsc)
    (halign : tsc.title = ssc.title)
    (hactive : ¬ (truthyB tsc.isUnused ∧ ¬ truthyB tsc.isNotesScene))
    (hnotes : ssc.sceneNotes = some nsrc) :
    ∃ tsc', alGet t'.scenes scId = some tsc' ∧
      (tsc.sceneNotes = none → tsc'.sceneNotes = some nsrc) ∧
      (∀ t, tsc.sceneNotes = some t → pyInStr nsrc t = true → tsc'.sceneNotes = some t) ∧
      (∀ t, tsc.sceneNotes = some t → pyInStr nsrc t = false →
        tsc'.sceneNotes = some (t ++ "\n" ++ nsrc)) := by
  obtain ⟨scan, crByName, crIdMax, lcByTitle, lcIdMax, itByTitle, itIdMax, tsc',
    _, _, _, _, hupd, hget⟩ := merge_matched_scene so tgt src t' srcId ssc scId tsc
    hrun hmem hnodup hssc hskip hlisted htsc halign hactive
  have hn := updSceneFields_notes _ _ _ _ _ _ hupd
  rw [hnotes] at hn
  refine ⟨tsc', hget, ?_, ?_, ?_⟩
  · intro h0
    rw [h0] at hn
    exact hn
  · intro t h0 hin
    rw [h0] at hn
    rw [hn]
    show (if pyInStr nsrc t then some t else some (t ++ "\n" ++ nsrc)) = some t
    rw [if_pos hin]
  · intro t h0 hin
    rw [h0] at hn
    rw [hn]
    show (if pyInStr nsrc t then some t else some (t ++ "\n" ++ nsrc)) = some (t ++ "\n" ++ nsrc)
    rw [if_neg (by simp [hin])]

/-- C10: when a matched scene's character list is rebuilt from a source
scene with a present character list, the previous first-listed (viewpoint)
character stays at the head of the rebuilt list whenever it is among the
bound target ids, and otherwise the list is rebuilt from the source
bindings alone. -/
theorem spec_c10_viewpoint_kept_at_head (so : Bool) (tgt src t' : YwNovel)
    (srcId : String) (ssc : PyScene) (scId : String) (tsc : PyScene)
    (cs l : List String) (crM : List (String × String)) (scan : SrcScan)
    (crByName : List (Option String × String)) (crIdMax : Int)
    (hrun : Yw7Target.merge so tgt src = .ret "Novel updated from timeline data." t')
    (hmem : srcId ∈ processedIds src.chapters)
    (hnodup : (processedIds src.chapters).Nodup)
    (hssc : alGet src.scenes srcId = some ssc)
    (hskip : ¬ (truthyB ssc.isNotesScene ∧ so))
    (hlisted : scId ∈ listedIds tgt.chapters)
    (htsc : alGet tgt.scenes scId = some tsc)
    (halign : tsc.title = ssc.title)
    (hactive : ¬ (truthyB tsc.isUnused ∧ ¬ truthyB tsc.isNotesScene))
    (hcs : ssc.characters = some cs)
    (hl : tsc.characters = some l)
    (hscan : srcScan src.scenes ⟨[], [], [], []⟩ = .ok scan)
    (hwts : worldTargetScan tgt.characters [] 0 = .ok (crByName, crIdMax))
    (hcrM : crM = (bindWorld crByName scan.linkedC src.characters
      ⟨[], tgt.characters, tgt.srtCharacters, crIdMax⟩).m) :
    ∃ tsc' chars, alGet t'.scenes scId = some tsc' ∧ tsc'.characters = some chars ∧
      rebuildChars crM cs (if l.headD "" ∈ alVals crM then [l.headD ""] else []) = .ok chars ∧
      (l.headD "" ∈ alVals crM → chars.head? = some (l.headD "")) := by
  obtain ⟨scan', crByName', crIdMax', lcByTitle, lcIdMax, itByTitle, itIdMax, tsc',
    hscan', hwts', _, _, hupd, hget⟩ := merge_matched_scene so tgt src t' srcId ssc scId tsc
    hrun hmem hnodup hssc hskip hlisted htsc halign hactive
  rw [hscan] at hscan'
  have hseq := (Except.ok.inj hscan').symm
  subst hseq
  rw [hwts] at hwts'
  have hpeq := (Except.ok.inj hwts').symm
  have hc1 : crByName' = crByName := congrArg Prod.fst hpeq
  have hc2 : crIdMax' = crIdMax := congrArg Prod.snd hpeq
  rw [hc1, hc2, ← hcrM] at hupd
  obtain ⟨chars, hr, hchars⟩ := updSceneFields_chars _ _ _ _ _ _ cs l hcs hl hupd
  refine ⟨tsc', chars, hget, hchars, hr, ?_⟩
  intro hvp
  rw [if_pos hvp] at hr
  obtain ⟨t, ht⟩ := rebuildChars_prefix crM cs [l.headD ""] chars hr
  rw [← ht]
  rfl

/-- Witness for C4: target notes `"old"` grow to `"old\nnew note"`. -/
theorem spec_c4_witness :
    ∃ tsc', alGet c4Result.scenes "1" = some tsc' ∧
      tsc'.sceneNotes = some ("old" ++ "\n" ++ "new note") := by
  obtain ⟨tsc', hget, _, _, h3⟩ := spec_c4_notes_appended_not_overwritten false c4Tgt c4Src
    c4Result "1" c4SrcScene "1" c4TgtScene "new note"
    (by rfl) (by decide) (by decide) (by rfl) (by decide) (by decide) (by rfl) (by rfl)
    (by decide) (by rfl)
  exact ⟨tsc', hget, h3 "old" rfl (by decide)⟩

/-- Witness for C10: viewpoint character `"1"` stays at the head of the
rebuilt character list. -/
theorem spec_c10_witness :
    ∃ tsc' chars, alGet c10Result.scenes "1" = some tsc' ∧ tsc'.characters = some chars ∧
      chars.head? = some "1" := by
  obtain ⟨tsc', chars, hget, hchars, _, hhead⟩ :=
    spec_c10_viewpoint_kept_at_head false c10Tgt c10Src c10Result "1" c10SrcScene "1"
      c10TgtScene ["c1"] ["1"] [("c1", "1")] ⟨[some "Storm"], ["c1"], [], []⟩
      [(some "Alice", "1")] 1
      (by rfl) (by decide) (by decide) (by rfl) (by decide) (by decide) (by rfl) (by rfl)
      (by decide) (by rfl) (by rfl) (by rfl) (by rfl) (by rfl)
  exact ⟨tsc', chars, hget, hchars, hhead (by decide)⟩

theorem isPrefixOf_self (l : List Char) : l.isPrefixOf l = true := by
  induction l with
  | nil => rfl
  | cons c r ih => simp [List.isPrefixOf, ih]

theorem listSub_self (l : List Char) : listSub l l = true := by
  cases l with
  | nil => rfl
  | cons c r =>
    rw [listSub]
    rw [decide_eq_true (isPrefixOf_self (c :: r))]
    rfl

theorem listSub_append_left (l pre : List Char) : listSub l (pre ++ l) = true := by
  induction pre with
  | nil =>
    rw [List.nil_append]
    exact listSub_self l
  | cons c pre' ih =>
    show listSub l (c :: (pre' ++ l)) = true
    rw [listSub, ih, Bool.or_true]

theorem pyInStr_self (n : String) : pyInStr n n = true := listSub_self _

theorem pyInStr_append (n pre : String) : pyInStr n (pre ++ n) = true := by
  show listSub n.data (pre ++ n).data = true
  rw [String.data_append]
  exact listSub_append_left _ _

/-- Appending the source notes a second time never happens: the merged
text already contains them. -/
theorem mergeNotes_idem (sn t : Option String) :
    mergeNotes sn (mergeNotes sn t) = mergeNotes sn t := by
  cases sn with
  | none => rfl
  | some n =>
    cases t with
    | none =>
      show mergeNotes (some n) (some n) = some n
      unfold mergeNotes
      dsimp only
      rw [if_pos (pyInStr_self n)]
    | some t0 =>
      by_cases h : pyInStr n t0 = true
      · have h1 : mergeNotes (some n) (some t0) = some t0 := by
          unfold mergeNotes
          dsimp only
          rw [if_pos h]
        rw [h1]
        exact h1
      · have h1 : mergeNotes (some n) (some t0) = some (t0 ++ "\n" ++ n) := by
          unfold mergeNotes
          dsimp only
          rw [if_neg h]
        rw [h1]
        unfold mergeNotes
        dsimp only
        rw [if_pos (pyInStr_append n (t0 ++ "\n"))]

/-- Re-marking a scene record is a no-op. -/
theorem markFn_idem (titles : List (Option String)) (sc : PyScene) :
    markFn titles (markFn titles sc) = markFn titles sc := by
  unfold markFn
  by_cases h : ¬ sc.title ∈ titles ∧ ¬ truthyB sc.isNotesScene = true
  · rw [if_pos h]
    rw [if_pos]
    exact h
  · rw [if_neg h, if_neg h]

theorem alGet_eq_none {κ α : Type} [DecidableEq κ] (l : List (κ × α)) (k : κ) :
    alGet l k = none ↔ ¬ k ∈ l.map Prod.fst := by
  induction l with
  | nil => simp
  | cons p rest ih =>
    obtain ⟨k₀, v₀⟩ := p
    by_cases h : k₀ = k
    · subst h
      simp [alGet]
    · rw [List.map_cons]
      constructor
      · intro hn hmem
        rcases List.mem_cons.mp hmem with h1 | h2
        · exact h h1.symm
        · rw [alGet, if_neg h] at hn
          exact (ih.mp hn) h2
      · intro hmem
        rw [alGet, if_neg h]
        exact ih.mpr (fun hc => hmem (List.mem_cons.mpr (Or.inr hc)))

theorem alSet_absent {κ α : Type} [DecidableEq κ] (l : List (κ × α)) (k : κ) (v : α)
    (h : ¬ k ∈ l.map Prod.fst) : alSet l k v = l ++ [(k, v)] := by
  induction l with
  | nil => rfl
  | cons p rest ih =>
    obtain ⟨k₀, v₀⟩ := p
    simp only [List.map_cons, List.mem_cons] at h
    rw [alSet, if_neg (fun hc => h (Or.inl hc.symm)), ih (fun hc => h (Or.inr hc))]
    rfl

theorem alSet_mem {κ α : Type} [DecidableEq κ] (l : List (κ × α)) (k : κ) (v : α)
    (p : κ × α) (h : p ∈ alSet l k v) : p = (k, v) ∨ p ∈ l := by
  induction l with
  | nil =>
    rw [alSet_nil] at h
    simp at h
    exact Or.inl h
  | cons q rest ih =>
    obtain ⟨k₀, v₀⟩ := q
    rw [alSet] at h
    by_cases hk : k₀ = k
    · rw [if_pos hk] at h
      rcases List.mem_cons.mp h with h1 | h2
      · subst hk
        exact Or.inl h1
      · exact Or.inr (List.mem_cons.mpr (Or.inr h2))
    · rw [if_neg hk] at h
      rcases List.mem_cons.mp h with h1 | h2
      · exact Or.inr (List.mem_cons.mpr (Or.inl h1))
      · rcases ih h2 with h3 | h4
        · exact Or.inl h3
        · exact Or.inr (List.mem_cons.mpr (Or.inr h4))

theorem alGet_val_mem {κ α : Type} [DecidableEq κ] (l : List (κ × α)) (k : κ) (v : α)
    (h : alGet l k = some v) : v ∈ alVals l :=
  List.mem_map.mpr ⟨(k, v), alGet_mem _ _ _ h, rfl⟩

theorem rebuildChars_mem (m : List (String × String)) (cs : List String)
    (base r : List String) (h : rebuildChars m cs base = .ok r) :
    ∀ x ∈ r, x ∈ base ∨ x ∈ alVals m := by
  induction cs generalizing base with
  | nil =>
    rw [rebuildChars] at h
    cases h
    exact fun x hx => Or.inl hx
  | cons c rest ih =>
    rw [rebuildChars] at h
    cases hm : alGet m c with
    | none => rw [hm] at h; exact absurd h (by simp)
    | some mc =>
      rw [hm] at h
      dsimp only at h
      by_cases hb : mc ∈ base
      · rw [if_pos hb] at h
        exact ih _ h
      · rw [if_neg hb] at h
        intro x hx
        rcases ih _ h x hx with h1 | h2
        · rcases List.mem_append.mp h1 with h3 | h4
          · exact Or.inl h3
          · simp at h4
            subst h4
            exact Or.inr (alGet_val_mem m c x hm)
        · exact Or.inr h2

theorem rebuildChars_shift (m : List (String × String)) (cs : List String)
    (x : String) (t : List String) (h : rebuildChars m cs [] = .ok (x :: t)) :
    rebuildChars m cs [x] = .ok (x :: t) := by
  cases cs with
  | nil =>
    rw [rebuildChars] at h
    exact absurd h (by simp)
  | cons c rest =>
    rw [rebuildChars] at h
    cases hm : alGet m c with
    | none => rw [hm] at h; exact absurd h (by simp)
    | some mc =>
      rw [hm] at h
      dsimp only at h
      rw [if_neg (List.not_mem_nil mc), List.nil_append] at h
      obtain ⟨tl, htl⟩ := rebuildChars_prefix m rest [mc] (x :: t) h
      have hmx : mc = x := by
        have h2 := htl
        rw [List.singleton_append] at h2
        exact (List.cons.injEq _ _ _ _ ▸ h2).1
      subst hmx
      rw [rebuildChars, hm]
      dsimp only
      rw [if_pos (List.mem_singleton.mpr rfl)]
      exact h

/-- The viewpoint-seeded character rebuild is stable: rebuilding from the
head of its own output reproduces the output. -/
theorem rebuildChars_stable (m : List (String × String)) (cs : List String)
    (l chars : List String)
    (hvals : ¬ "" ∈ alVals m)
    (h : rebuildChars m cs (if l.headD "" ∈ alVals m then [l.headD ""] else []) = .ok chars) :
    rebuildChars m cs (if chars.headD "" ∈ alVals m then [chars.headD ""] else []) = .ok chars := by
  by_cases hb : l.headD "" ∈ alVals m
  · rw [if_pos hb] at h
    obtain ⟨t, ht⟩ := rebuildChars_prefix m cs [l.headD ""] chars h
    have hc : chars = l.headD "" :: t := by
      rw [← ht]
      rfl
    rw [hc]
    rw [show (l.headD "" :: t).headD "" = l.headD "" from rfl]
    rw [if_pos hb, ← hc]
    exact h
  · rw [if_neg hb] at h
    cases chars with
    | nil =>
      rw [show ([] : List String).headD "" = "" from rfl, if_neg hvals]
      exact h
    | cons x t =>
      have hx : x ∈ alVals m := by
        rcases rebuildChars_mem m cs [] (x :: t) h x (by simp) with h1 | h2
        · simp at h1
        · exact h2
      rw [show (x :: t).headD "" = x from rfl, if_pos hx]
      exact rebuildChars_shift m cs x t h

theorem scene_with_chars_self (t : PyScene) (c : Option (List String))
    (h : t.characters = c) : { t with characters := c } = t := by
  rw [← h]

theorem scene_with_flags_self (t : PyScene) (hn : t.isNotesScene = some true)
    (hu : t.isUnused = some true) :
    { t with isNotesScene := some true, isUnused := some true } = t := by
  nth_rewrite 2 [← hn]
  rw [← hu]

theorem preChars_isNotesScene (ssc t : PyScene) :
    (preChars ssc t).isNotesScene = ssc.isNotesScene := by
  unfold preChars
  cases ssc.tags <;> cases ssc.desc <;> rfl

theorem preChars_isUnused (ssc t : PyScene) :
    (preChars ssc t).isUnused = ssc.isUnused := by
  unfold preChars
  cases ssc.tags <;> cases ssc.desc <;> rfl

theorem preChars_date (ssc t : PyScene) : (preChars ssc t).date = ssc.date := by
  unfold preChars
  cases ssc.tags <;> cases ssc.desc <;> rfl

theorem preChars_time (ssc t : PyScene) : (preChars ssc t).time = ssc.time := by
  unfold preChars
  cases ssc.tags <;> cases ssc.desc <;> rfl

theorem preChars_lastsMinutes (ssc t : PyScene) :
    (preChars ssc t).lastsMinutes = ssc.lastsMinutes := by
  unfold preChars
  cases ssc.tags <;> cases ssc.desc <;> rfl

theorem preChars_lastsHours (ssc t : PyScene) :
    (preChars ssc t).lastsHours = ssc.lastsHours := by
  unfold preChars
  cases ssc.tags <;> cases ssc.desc <;> rfl

theorem preChars_lastsDays (ssc t : PyScene) :
    (preChars ssc t).lastsDays = ssc.lastsDays := by
  unfold preChars
  cases ssc.tags <;> cases ssc.desc <;> rfl

theorem preChars_title (ssc t : PyScene) : (preChars ssc t).title = t.title := by
  unfold preChars
  cases ssc.tags <;> cases ssc.desc <;> rfl

theorem preChars_tags (ssc t : PyScene) (tg : List String) (h : ssc.tags = some tg) :
    (preChars ssc t).tags = some tg := by
  unfold preChars
  rw [h]
  cases ssc.desc <;> rfl

theorem preChars_desc (ssc t : PyScene) (d : String) (h : ssc.desc = some d) :
    (preChars ssc t).desc = some d := by
  unfold preChars
  cases ssc.tags <;> dsimp only <;> rw [h]

theorem postChars_preserves (lcM itM : List (String × String)) (ssc t : PyScene) :
    (postChars lcM itM ssc t).isNotesScene = t.isNotesScene ∧
    (postChars lcM itM ssc t).isUnused = t.isUnused ∧
    (postChars lcM itM ssc t).date = t.date ∧
    (postChars lcM itM ssc t).time = t.time ∧
    (postChars lcM itM ssc t).lastsMinutes = t.lastsMinutes ∧
    (postChars lcM itM ssc t).lastsHours = t.lastsHours ∧
    (postChars lcM itM ssc t).lastsDays = t.lastsDays ∧
    (postChars lcM itM ssc t).tags = t.tags ∧
    (postChars lcM itM ssc t).desc = t.desc ∧
    (postChars lcM itM ssc t).title = t.title := by
  unfold postChars
  cases ssc.locations <;> cases ssc.items <;> cases ssc.kwSceneArcs <;>
    exact ⟨rfl, rfl, rfl, rfl, rfl, rfl, rfl, rfl, rfl, rfl⟩

theorem postChars_locations (lcM itM : List (String × String)) (ssc t : PyScene)
    (ls : List String) (h : ssc.locations = some ls) :
    (postChars lcM itM ssc t).locations = some (rebuildRefs lcM ls) := by
  unfold postChars
  rw [h]
  cases ssc.items <;> cases ssc.kwSceneArcs <;> rfl

theorem postChars_items (lcM itM : List (String × String)) (ssc t : PyScene)
    (its : List String) (h : ssc.items = some its) :
    (postChars lcM itM ssc t).items = some (rebuildRefs itM its) := by
  unfold postChars
  cases ssc.locations <;> dsimp only <;> rw [h] <;> cases ssc.kwSceneArcs <;> rfl

theorem postChars_kw (lcM itM : List (String × String)) (ssc t : PyScene)
    (v : Option String) (h : ssc.kwSceneArcs = some v) :
    (postChars lcM itM ssc t).kwSceneArcs = some v := by
  unfold postChars
  cases ssc.locations <;> cases ssc.items <;> dsimp only <;> rw [h]

theorem preChars_eq_self (ssc t : PyScene)
    (h1 : t.isNotesScene = ssc.isNotesScene) (h2 : t.isUnused = ssc.isUnused)
    (h3 : t.date = ssc.date) (h4 : t.time = ssc.time)
    (h5 : t.lastsMinutes = ssc.lastsMinutes) (h6 : t.lastsHours = ssc.lastsHours)
    (h7 : t.lastsDays = ssc.lastsDays)
    (h8 : ∀ tg, ssc.tags = some tg → t.tags = some tg)
    (h9 : ∀ d, ssc.desc = some d → t.desc = some d)
    (h10 : mergeNotes ssc.sceneNotes t.sceneNotes = t.sceneNotes) :
    preChars ssc t = t := by
  unfold preChars
  cases htg : ssc.tags with
  | none =>
    cases hd : ssc.desc with
    | none =>
      dsimp only
      rw [← h1, ← h2, ← h3, ← h4, ← h5, ← h6, ← h7, h10]
    | some d =>
      dsimp only
      rw [← h9 d hd, ← h1, ← h2, ← h3, ← h4, ← h5, ← h6, ← h7, h10]
  | some tg =>
    cases hd : ssc.desc with
    | none =>
      dsimp only
      rw [← h8 tg htg, ← h1, ← h2, ← h3, ← h4, ← h5, ← h6, ← h7, h10]
    | some d =>
      dsimp only
      rw [← h8 tg htg, ← h9 d hd, ← h1, ← h2, ← h3, ← h4, ← h5, ← h6, ← h7, h10]

theorem postChars_eq_self (lcM itM : List (String × String)) (ssc t : PyScene)
    (h1 : ∀ ls, ssc.locations = some ls → t.locations = some (rebuildRefs lcM ls))
    (h2 : ∀ its, ssc.items = some its → t.items = some (rebuildRefs itM its))
    (h3 : ∀ v, ssc.kwSceneArcs = some v → t.kwSceneArcs = some v) :
    postChars lcM itM ssc t = t := by
  unfold postChars
  cases hl : ssc.locations with
  | none =>
    cases hi : ssc.items with
    | none =>
      cases hk : ssc.kwSceneArcs with
      | none => rfl
      | some v =>
        dsimp only
        rw [← h3 v hk]
    | some its =>
      cases hk : ssc.kwSceneArcs with
      | none =>
        dsimp only
        rw [← h2 its hi]
      | some v =>
        dsimp only
        rw [← h2 its hi, ← h3 v hk]
  | some ls =>
    cases hi : ssc.items with
    | none =>
      cases hk : ssc.kwSceneArcs with
      | none =>
        dsimp only
        rw [← h1 ls hl]
      | some v =>
        dsimp only
        rw [← h1 ls hl, ← h3 v hk]
    | some its =>
      cases hk : ssc.kwSceneArcs with
      | none =>
        dsimp only
        rw [← h1 ls hl, ← h2 its hi]
      | some v =>
        dsimp only
        rw [← h1 ls hl, ← h2 its hi, ← h3 v hk]

theorem updChars_idem (crM : List (String × String)) (cs : List String)
    (T : PyScene) (chars₁ l : List String)
    (hvals : ¬ "" ∈ alVals crM)
    (hrun1 : rebuildChars crM cs
      (if l.headD "" ∈ alVals crM then [l.headD ""] else []) = .ok chars₁)
    (hT : T.characters = some chars₁) :
    updChars crM (some cs) T = .ok T := by
  have hs := rebuildChars_stable crM cs l chars₁ hvals hrun1
  unfold updChars
  rw [hT]
  dsimp only
  cases chars₁ with
  | nil =>
    rw [show ([] : List String).headD "" = "" from rfl] at hs
    rw [hs]
    dsimp only
    rw [scene_with_chars_self T (some []) hT]
  | cons x tl =>
    rw [show ((x :: tl).headD "") = x from rfl] at hs
    rw [hs]
    dsimp only
    rw [scene_with_chars_self T (some (x :: tl)) hT]

/-- Re-applying the same per-scene field update to its own output is a
no-op. -/
theorem updSceneFields_idem (crM lcM itM : List (String × String)) (ssc tsc tsc₁ : PyScene)
    (hvals : ¬ "" ∈ alVals crM)
    (h : updSceneFields crM lcM itM ssc tsc = .ok tsc₁) :
    updSceneFields crM lcM itM ssc tsc₁ = .ok tsc₁ := by
  rw [updSceneFields_decomp] at h
  cases h5 : updChars crM ssc.characters (preChars ssc tsc) with
  | error e => rw [h5] at h; exact absurd h (by simp)
  | ok t5 =>
  rw [h5] at h
  dsimp only at h
  have ht1 : tsc₁ = postChars lcM itM ssc t5 := (Except.ok.inj h).symm
  obtain ⟨c5, hc5⟩ := updChars_shape crM ssc.characters (preChars ssc tsc) t5 h5
  obtain ⟨pp1, pp2, pp3, pp4, pp5, pp6, pp7, pp8, pp9, pp10⟩ :=
    postChars_preserves lcM itM ssc t5
  have e1 : tsc₁.isNotesScene = ssc.isNotesScene := by
    rw [ht1, pp1, hc5]
    exact preChars_isNotesScene ssc tsc
  have e2 : tsc₁.isUnused = ssc.isUnused := by
    rw [ht1, pp2, hc5]
    exact preChars_isUnused ssc tsc
  have e3 : tsc₁.date = ssc.date := by
    rw [ht1, pp3, hc5]
    exact preChars_date ssc tsc
  have e4 : tsc₁.time = ssc.time := by
    rw [ht1, pp4, hc5]
    exact preChars_time ssc tsc
  have e5 : tsc₁.lastsMinutes = ssc.lastsMinutes := by
    rw [ht1, pp5, hc5]
    exact preChars_lastsMinutes ssc tsc
  have e6 : tsc₁.lastsHours = ssc.lastsHours := by
    rw [ht1, pp6, hc5]
    exact preChars_lastsHours ssc tsc
  have e7 : tsc₁.lastsDays = ssc.lastsDays := by
    rw [ht1, pp7, hc5]
    exact preChars_lastsDays ssc tsc
  have etags : ∀ tg, ssc.tags = some tg → tsc₁.tags = some tg := by
    intro tg htg
    rw [ht1, pp8, hc5]
    exact preChars_tags ssc tsc tg htg
  have edesc : ∀ d, ssc.desc = some d → tsc₁.desc = some d := by
    intro d hd
    rw [ht1, pp9, hc5]
    exact preChars_desc ssc tsc d hd
  have enotes : tsc₁.sceneNotes = mergeNotes ssc.sceneNotes tsc.sceneNotes := by
    rw [ht1, postChars_notes, hc5]
    exact preChars_notes ssc tsc
  have h10 : mergeNotes ssc.sceneNotes tsc₁.sceneNotes = tsc₁.sceneNotes := by
    rw [enotes]
    exact mergeNotes_idem _ _
  have elocs : ∀ ls, ssc.locations = some ls →
      tsc₁.locations = some (rebuildRefs lcM ls) := by
    intro ls hl
    rw [ht1]
    exact postChars_locations lcM itM ssc t5 ls hl
  have eitems : ∀ its, ssc.items = some its →
      tsc₁.items = some (rebuildRefs itM its) := by
    intro its hi
    rw [ht1]
    exact postChars_items lcM itM ssc t5 its hi
  have ekw : ∀ v, ssc.kwSceneArcs = some v → tsc₁.kwSceneArcs = some v := by
    intro v hk
    rw [ht1]
    exact postChars_kw lcM itM ssc t5 v hk
  have hpre : preChars ssc tsc₁ = tsc₁ :=
    preChars_eq_self ssc tsc₁ e1 e2 e3 e4 e5 e6 e7 etags edesc h10
  rw [updSceneFields_decomp, hpre]
  cases hsc : ssc.characters with
  | none =>
    rw [show updChars crM none tsc₁ = .ok tsc₁ from rfl]
    dsimp only
    rw [postChars_eq_self lcM itM ssc tsc₁ elocs eitems ekw]
  | some cs =>
    rw [hsc] at h5
    cases hl : (preChars ssc tsc).characters with
    | none =>
      unfold updChars at h5
      rw [hl] at h5
      exact absurd h5 (by simp)
    | some l =>
      obtain ⟨chars₁, hr, ht5c⟩ := updChars_spec crM cs (preChars ssc tsc) t5 l hl h5
      have hTc : tsc₁.characters = some chars₁ := by
        rw [ht1, postChars_chars, ht5c]
      rw [updChars_idem crM cs tsc₁ chars₁ l hvals hr hTc]
      dsimp only
      rw [postChars_eq_self lcM itM ssc tsc₁ elocs eitems ekw]

theorem activeTitled_elim (scenes : List (String × PyScene)) (k : String) (τ : Option String)
    (h : activeTitled scenes k = some τ) :
    ∃ sc, alGet scenes k = some sc ∧ sc.title = τ ∧
      ¬ (truthyB sc.isUnused ∧ ¬ truthyB sc.isNotesScene) := by
  unfold activeTitled at h
  cases hg : alGet scenes k with
  | none => rw [hg] at h; exact absurd h (by simp)
  | some sc =>
    rw [hg] at h
    dsimp only [Option.bind] at h
    by_cases hc : truthyB sc.isUnused = true ∧ ¬ truthyB sc.isNotesScene = true
    · rw [if_pos hc] at h
      exact absurd h (by simp)
    · rw [if_neg hc] at h
      exact ⟨sc, rfl, Option.some.inj h, hc⟩

theorem activeTitled_intro (scenes : List (String × PyScene)) (k : String) (sc : PyScene)
    (hg : alGet scenes k = some sc)
    (hc : ¬ (truthyB sc.isUnused ∧ ¬ truthyB sc.isNotesScene)) :
    activeTitled scenes k = some sc.title := by
  unfold activeTitled
  rw [hg]
  dsimp only [Option.bind]
  rw [if_neg hc]

theorem alGet_append_of_isSome {κ α : Type} [DecidableEq κ] (l₁ l₂ : List (κ × α)) (k : κ)
    (h : (alGet l₁ k).isSome = true) : alGet (l₁ ++ l₂) k = alGet l₁ k := by
  rw [alGet_append]
  cases hg : alGet l₁ k with
  | none => rw [hg] at h; simp at h
  | some v => rfl

theorem alGet_append_fresh {κ α : Type} [DecidableEq κ] (l : List (κ × α)) (k : κ) (v : α)
    (h : ¬ k ∈ l.map Prod.fst) : alGet (l ++ [(k, v)]) k = some v := by
  rw [alGet_append, (alGet_eq_none l k).mpr h]
  show alGet [(k, v)] k = some v
  rw [alGet_cons, if_pos rfl]

theorem alSet_last {κ α : Type} [DecidableEq κ] (l : List (κ × α)) (k : κ) (v v' : α)
    (h : ¬ k ∈ l.map Prod.fst) : alSet (l ++ [(k, v)]) k v' = l ++ [(k, v')] := by
  induction l with
  | nil => simp [alSet]
  | cons p rest ih =>
    obtain ⟨k₀, v₀⟩ := p
    simp only [List.map_cons, List.mem_cons] at h
    rw [List.cons_append, alSet, if_neg (fun hc => h (Or.inl hc.symm)),
      ih (fun hc => h (Or.inr hc))]
    rfl

theorem listedIds_append (l₁ l₂ : List (String × PyChapter)) :
    listedIds (l₁ ++ l₂) = listedIds l₁ ++ listedIds l₂ := by
  induction l₁ with
  | nil => rfl
  | cons p rest ih =>
    obtain ⟨k, ch⟩ := p
    rw [List.cons_append, listedIds, listedIds, ih, List.append_assoc]

theorem filterMap_congr_fn {α β : Type} (l : List α) (f g : α → Option β)
    (h : ∀ a ∈ l, f a = g a) : l.filterMap f = l.filterMap g := by
  induction l with
  | nil => rfl
  | cons a rest ih =>
    rw [List.filterMap_cons, List.filterMap_cons, h a (by simp),
      ih (fun a ha => h a (by simp [ha]))]

theorem updSceneFields_title (crM lcM itM : List (String × String)) (ssc tsc tsc' : PyScene)
    (h : updSceneFields crM lcM itM ssc tsc = .ok tsc') : tsc'.title = tsc.title := by
  rw [updSceneFields_decomp] at h
  cases h5 : updChars crM ssc.characters (preChars ssc tsc) with
  | error e => rw [h5] at h; exact absurd h (by simp)
  | ok t5 =>
    rw [h5] at h
    dsimp only at h
    obtain ⟨c5, hc5⟩ := updChars_shape crM ssc.characters (preChars ssc tsc) t5 h5
    have ht1 : tsc' = postChars lcM itM ssc t5 := (Except.ok.inj h).symm
    rw [ht1, (postChars_preserves lcM itM ssc t5).2.2.2.2.2.2.2.2.2, hc5]
    exact preChars_title ssc tsc

theorem updSceneFields_isNotesScene (crM lcM itM : List (String × String))
    (ssc tsc tsc' : PyScene)
    (h : updSceneFields crM lcM itM ssc tsc = .ok tsc') :
    tsc'.isNotesScene = ssc.isNotesScene := by
  rw [updSceneFields_decomp] at h
  cases h5 : updChars crM ssc.characters (preChars ssc tsc) with
  | error e => rw [h5] at h; exact absurd h (by simp)
  | ok t5 =>
    rw [h5] at h
    dsimp only at h
    obtain ⟨c5, hc5⟩ := updChars_shape crM ssc.characters (preChars ssc tsc) t5 h5
    have ht1 : tsc' = postChars lcM itM ssc t5 := (Except.ok.inj h).symm
    rw [ht1, (postChars_preserves lcM itM ssc t5).1, hc5]
    exact preChars_isNotesScene ssc tsc

theorem updSceneFields_isUnused (crM lcM itM : List (String × String))
    (ssc tsc tsc' : PyScene)
    (h : updSceneFields crM lcM itM ssc tsc = .ok tsc') :
    tsc'.isUnused = ssc.isUnused := by
  rw [updSceneFields_decomp] at h
  cases h5 : updChars crM ssc.characters (preChars ssc tsc) with
  | error e => rw [h5] at h; exact absurd h (by simp)
  | ok t5 =>
    rw [h5] at h
    dsimp only at h
    obtain ⟨c5, hc5⟩ := updChars_shape crM ssc.characters (preChars ssc tsc) t5 h5
    have ht1 : tsc' = postChars lcM itM ssc t5 := (Except.ok.inj h).symm
    rw [ht1, (postChars_preserves lcM itM ssc t5).2.1, hc5]
    exact preChars_isUnused ssc tsc

theorem markFn_stable_of_mem (titles : List (Option String)) (sc : PyScene)
    (h : sc.title ∈ titles) : markFn titles sc = sc := by
  unfold markFn
  rw [if_neg (fun hc => hc.1 h)]

theorem markFn_stable_of_notes (titles : List (Option String)) (sc : PyScene)
    (h : truthyB sc.isNotesScene = true) : markFn titles sc = sc := by
  unfold markFn
  rw [if_neg (fun hc => hc.2 h)]

/-- Exhaustive description of a successful `syncScene` step. -/
theorem syncScene_cases (so : Bool) (scT : List (Option String × String))
    (crM lcM itM : List (String × String)) (srcScenes : List (String × PyScene))
    (nci : String) (id : String) (st st' : UpdState)
    (h : syncScene so scT crM lcM itM srcScenes nci id st = .ok st') :
    ∃ ssc, alGet srcScenes id = some ssc ∧
      (((truthyB ssc.isNotesScene ∧ so) ∧ alGet scT ssc.title = none ∧ st' = st) ∨
       (∃ scId tsc, (truthyB ssc.isNotesScene ∧ so) ∧ alGet scT ssc.title = some scId ∧
         alGet st.scenes scId = some tsc ∧
         st' = { st with scenes := alSet st.scenes scId (notesFlagged tsc) }) ∨
       (∃ scId tsc tsc', ¬ (truthyB ssc.isNotesScene ∧ so) ∧
         alGet scT ssc.title = some scId ∧
         alGet st.scenes scId = some tsc ∧ updSceneFields crM lcM itM ssc tsc = .ok tsc' ∧
         st' = { st with scenes := alSet st.scenes scId tsc' }) ∨
       (∃ tsc' nc p1 p2, ¬ (truthyB ssc.isNotesScene ∧ so) ∧
         alGet scT ssc.title = none ∧
         updSceneFields crM lcM itM ssc (newSceneRec ssc.title) = .ok tsc' ∧
         ((st.newChapterExists = true ∧ p1 = st.chapters ∧ p2 = st.srtChapters) ∨
          (st.newChapterExists = false ∧ p1 = alSet st.chapters nci newChapterRec ∧
            p2 = st.srtChapters ++ [nci])) ∧
         alGet p1 nci = some nc ∧
         st' = ⟨alSet (alSet st.scenes (pyIntStr (st.scIdMax + 1)) (newSceneRec ssc.title))
             (pyIntStr (st.scIdMax + 1)) tsc',
           alSet p1 nci { nc with srtScenes := nc.srtScenes ++ [pyIntStr (st.scIdMax + 1)] },
           p2, st.scIdMax + 1, true⟩)) := by
  unfold syncScene at h
  cases hg : alGet srcScenes id with
  | none => rw [hg] at h; exact absurd h (by simp)
  | some ssc =>
  rw [hg] at h
  dsimp only at h
  refine ⟨ssc, rfl, ?_⟩
  by_cases hskip : truthyB ssc.isNotesScene = true ∧ so = true
  · rw [if_pos hskip] at h
    cases hm : alGet scT ssc.title with
    | none =>
      rw [hm] at h
      cases h
      exact Or.inl ⟨hskip, rfl, rfl⟩
    | some scId =>
      rw [hm] at h
      dsimp only at h
      cases hts : alGet st.scenes scId with
      | none => rw [hts] at h; exact absurd h (by simp)
      | some tsc =>
        rw [hts] at h
        dsimp only at h
        cases h
        exact Or.inr (Or.inl ⟨scId, tsc, hskip, rfl, hts, rfl⟩)
  · rw [if_neg hskip] at h
    cases hm : alGet scT ssc.title with
    | some scId =>
      rw [hm] at h
      dsimp only at h
      cases hts : alGet st.scenes scId with
      | none => rw [hts] at h; exact absurd h (by simp)
      | some tsc =>
        rw [hts] at h
        dsimp only at h
        cases hu : updSceneFields crM lcM itM ssc tsc with
        | error e => rw [hu] at h; exact absurd h (by simp)
        | ok tsc' =>
          rw [hu] at h
          dsimp only at h
          cases h
          exact Or.inr (Or.inr (Or.inl ⟨scId, tsc, tsc', hskip, rfl, hts, hu, rfl⟩))
    | none =>
      rw [hm] at h
      dsimp only at h
      unfold createScene at h
      dsimp only at h
      cases hnc : alGet (if st.newChapterExists then (st.chapters, st.srtChapters)
          else (alSet st.chapters nci newChapterRec, st.srtChapters ++ [nci])).1 nci with
      | none => rw [hnc] at h; exact absurd h (by simp)
      | some nc =>
        rw [hnc] at h
        dsimp only at h
        rw [show alGet (alSet st.scenes (pyIntStr (st.scIdMax + 1))
            { emptyScene with title := ssc.title, status := some 1 })
            (pyIntStr (st.scIdMax + 1)) =
            some { emptyScene with title := ssc.title, status := some 1 } by
          rw [alGet_alSet, if_pos rfl]] at h
        dsimp only at h
        cases hu : updSceneFields crM lcM itM ssc
            { emptyScene with title := ssc.title, status := some 1 } with
        | error e => rw [hu] at h; exact absurd h (by simp)
        | ok tsc' =>
          rw [hu] at h
          dsimp only at h
          cases h
          by_cases hne : st.newChapterExists = true
          · rw [if_pos hne] at hnc
            refine Or.inr (Or.inr (Or.inr ⟨tsc', nc, st.chapters, st.srtChapters,
              hskip, rfl, hu, Or.inl ⟨hne, rfl, rfl⟩, hnc, ?_⟩))
            rw [if_pos hne]
            rfl
          · rw [if_neg hne] at hnc
            refine Or.inr (Or.inr (Or.inr ⟨tsc', nc, alSet st.chapters nci newChapterRec,
              st.srtChapters ++ [nci], hskip, rfl, hu,
              Or.inr ⟨Bool.eq_false_iff.mpr hne, rfl, rfl⟩, hnc, ?_⟩))
            rw [if_neg hne]
            rfl

/-- Updating a matched scene with a record that keeps its title,
activity, and mark-stability preserves the loop invariant. -/
theorem loopInv_touch (titles : List (Option String)) (scT : List (Option String × String))
    (srcScenes : List (String × PyScene)) (nci : String)
    (tgtChs : List (String × PyChapter)) (tgtSrt : List String)
    (done : List String) (st : UpdState)
    (hinv : LoopInv so titles scT srcScenes nci tgtChs tgtSrt done st)
    (id scId : String) (ssc tsc r : PyScene)
    (hssc : alGet srcScenes id = some ssc)
    (hm : alGet scT ssc.title = some scId)
    (hts : alGet st.scenes scId = some tsc)
    (hrt : r.title = tsc.title)
    (hract : ¬ (truthyB r.isUnused = true ∧ ¬ truthyB r.isNotesScene = true))
    (hrstable : markFn titles r = r) :
    LoopInv so titles scT srcScenes nci tgtChs tgtSrt (done ++ [id])
      { st with scenes := alSet st.scenes scId r } := by
  have htact : activeTitled st.scenes scId = some ssc.title := (hinv.scTrack ssc.title scId hm).2
  have htitle : tsc.title = ssc.title := by
    obtain ⟨sc, hg, ht, _⟩ := activeTitled_elim st.scenes scId ssc.title htact
    rw [hts] at hg
    rw [Option.some.inj hg]
    exact ht
  have hpoint : ∀ id', activeTitled (alSet st.scenes scId r) id' = activeTitled st.scenes id' := by
    intro id'
    by_cases hid : scId = id'
    · subst hid
      rw [htact]
      have hget : alGet (alSet st.scenes scId r) scId = some r := by
        rw [alGet_alSet, if_pos rfl]
      rw [activeTitled_intro _ _ _ hget hract, hrt, htitle]
    · unfold activeTitled
      rw [alGet_alSet, if_neg hid]
  have hactives : activesOf (alSet st.scenes scId r) st.chapters =
      activesOf st.scenes st.chapters :=
    filterMap_congr_fn _ _ _ (fun a _ => hpoint a)
  refine ⟨?_, hinv.maxNonneg, ?_, ?_, ?_, ?_, ?_, ?_⟩
  · intro p hp
    rcases alSet_mem _ _ _ _ hp with h1 | h2
    · subst h1
      obtain ⟨n, hn, hle⟩ := hinv.keys (scId, tsc) (alGet_mem _ _ _ hts)
      exact ⟨n, hn, hle⟩
    · exact hinv.keys p h2
  · intro p hp
    rcases alSet_mem _ _ _ _ hp with h1 | h2
    · subst h1
      exact hrstable
    · exact hinv.stable p h2
  · intro id' hid'
    show (alGet (alSet st.scenes scId r) id').isSome = true
    rw [alGet_alSet]
    by_cases hid : scId = id'
    · rw [if_pos hid]
      rfl
    · rw [if_neg hid]
      exact hinv.listedSome id' hid'
  · show (activesOf (alSet st.scenes scId r) st.chapters).Nodup
    rw [hactives]
    exact hinv.activesNodup
  · intro τ k hk
    obtain ⟨h1, h2⟩ := hinv.scTrack τ k hk
    exact ⟨h1, by rw [hpoint k]; exact h2⟩
  · intro τ hτ
    rw [hactives] at hτ
    rcases hinv.activesSrc τ hτ with h1 | ⟨id', hid', s, hs, ht⟩
    · exact Or.inl h1
    · exact Or.inr ⟨id', List.mem_append_left _ hid', s, hs, ht⟩
  · exact hinv.chShape

/-- Creating a fresh scene for an unmatched source scene preserves the
loop invariant. -/
theorem loopInv_created (so : Bool) (titles : List (Option String))
    (scT : List (Option String × String))
    (srcScenes : List (String × PyScene)) (nci : String)
    (tgtChs : List (String × PyChapter)) (tgtSrt : List String)
    (ctx : C9Ctx titles scT srcScenes nci tgtChs)
    (done : List String) (st st' : UpdState) (id : String) (ssc tsc' : PyScene)
    (hinv : LoopInv so titles scT srcScenes nci tgtChs tgtSrt done st)
    (hdone : ¬ id ∈ done)
    (hssc : alGet srcScenes id = some ssc)
    (hm : alGet scT ssc.title = none)
    (hns : ¬ (truthyB ssc.isNotesScene = true ∧ so = true))
    (htitle : tsc'.title = ssc.title)
    (hflags : ¬ (truthyB tsc'.isUnused = true ∧ ¬ truthyB tsc'.isNotesScene = true))
    (hscenes : st'.scenes = st.scenes ++ [(pyIntStr (st.scIdMax + 1), tsc')])
    (hmax : st'.scIdMax = st.scIdMax + 1)
    (hncE : st'.newChapterExists = true)
    (hshape : ∃ cr, st'.chapters = tgtChs ++ [(nci, ⟨some "New scenes", none, none, none, cr⟩)] ∧
      st'.srtChapters = tgtSrt ++ [nci])
    (hlisted : listedIds st'.chapters = listedIds st.chapters ++ [pyIntStr (st.scIdMax + 1)]) :
    LoopInv so titles scT srcScenes nci tgtChs tgtSrt (done ++ [id]) st' ∧
      st.scIdMax ≤ st'.scIdMax ∧
      (∀ k, (alGet st.scenes k).isSome = true → (alGet st'.scenes k).isSome = true) ∧
      (∀ k, k ∈ listedIds st.chapters → k ∈ listedIds st'.chapters) := by
  have hkc : pyInt? (pyIntStr (st.scIdMax + 1)) = some (st.scIdMax + 1) :=
    pyInt?_pyIntStr _ (by have := hinv.maxNonneg; omega)
  have hkfresh : ¬ pyIntStr (st.scIdMax + 1) ∈ st.scenes.map Prod.fst := by
    intro hc
    obtain ⟨p, hp, hpk⟩ := List.mem_map.mp hc
    obtain ⟨n, hn, hle⟩ := hinv.keys p hp
    rw [hpk, hkc] at hn
    have hne : st.scIdMax + 1 = n := Option.some.inj hn
    omega
  have hpres : ∀ k, (alGet st.scenes k).isSome = true →
      alGet st'.scenes k = alGet st.scenes k := by
    intro k hk
    rw [hscenes]
    exact alGet_append_of_isSome _ _ _ hk
  have hgetn : alGet st'.scenes (pyIntStr (st.scIdMax + 1)) = some tsc' := by
    rw [hscenes]
    exact alGet_append_fresh _ _ _ hkfresh
  have hpoint : ∀ id' ∈ listedIds st.chapters,
      activeTitled st'.scenes id' = activeTitled st.scenes id' := by
    intro id' hid'
    unfold activeTitled
    rw [hpres id' (hinv.listedSome id' hid')]
  have hactnew : activeTitled st'.scenes (pyIntStr (st.scIdMax + 1)) = some ssc.title := by
    rw [activeTitled_intro _ _ _ hgetn hflags, htitle]
  have hactives : activesOf st'.scenes st'.chapters =
      activesOf st.scenes st.chapters ++ [ssc.title] := by
    unfold activesOf
    rw [hlisted, List.filterMap_append]
    congr 1
    · exact filterMap_congr_fn _ _ _ hpoint
    · simp [List.filterMap_cons, hactnew]
  have hfreshTitle : ¬ ssc.title ∈ activesOf st.scenes st.chapters := by
    intro hc
    rcases hinv.activesSrc _ hc with h1 | ⟨id', hid', s, hs, ht⟩
    · exact (alGet_eq_none scT ssc.title).mp hm h1
    · refine hdone ?_
      have heq : id' = id := alGet_title_inj srcScenes ctx.titlesNodup id' id s ssc hs hssc ht.1
      rw [← heq]
      exact hid'
  refine ⟨⟨?_, ?_, ?_, ?_, ?_, ?_, ?_, ?_⟩, by omega, ?_, ?_⟩
  · intro p hp
    rw [hscenes] at hp
    rcases List.mem_append.mp hp with h1 | h2
    · obtain ⟨n, hn, hle⟩ := hinv.keys p h1
      exact ⟨n, hn, by omega⟩
    · simp at h2
      subst h2
      exact ⟨st.scIdMax + 1, hkc, by omega⟩
  · have := hinv.maxNonneg
    omega
  · intro p hp
    rw [hscenes] at hp
    rcases List.mem_append.mp hp with h1 | h2
    · exact hinv.stable p h1
    · simp at h2
      subst h2
      apply markFn_stable_of_mem
      show tsc'.title ∈ titles
      rw [htitle]
      exact ctx.titleMem id ssc hssc
  · intro id' hid'
    rw [hlisted] at hid'
    rcases List.mem_append.mp hid' with h1 | h2
    · rw [hpres id' (hinv.listedSome id' h1)]
      exact hinv.listedSome id' h1
    · simp at h2
      subst h2
      rw [hgetn]
      rfl
  · rw [hactives, List.nodup_append]
    refine ⟨hinv.activesNodup, List.nodup_singleton _, ?_⟩
    intro a ha hb
    rw [List.mem_singleton.mp hb] at ha
    exact hfreshTitle ha
  · intro τ k hk
    obtain ⟨hl, ha⟩ := hinv.scTrack τ k hk
    refine ⟨by rw [hlisted]; exact List.mem_append_left _ hl, ?_⟩
    rw [hpoint k hl]
    exact ha
  · intro τ hτ
    rw [hactives] at hτ
    rcases List.mem_append.mp hτ with h1 | h2
    · rcases hinv.activesSrc τ h1 with h3 | ⟨id', hid', s, hs, ht⟩
      · exact Or.inl h3
      · exact Or.inr ⟨id', List.mem_append_left _ hid', s, hs, ht⟩
    · rw [List.mem_singleton.mp h2]
      exact Or.inr ⟨id, List.mem_append_right _ (by simp), ssc, hssc, rfl, hns⟩
  · exact Or.inr ⟨hncE, hshape⟩
  · intro k hk
    rw [hpres k hk]
    exact hk
  · intro k hk
    rw [hlisted]
    exact List.mem_append_left _ hk

/-- One successful `syncScene` step preserves the loop invariant and
grows the state monotonically. -/
theorem loopInv_step (titles : List (Option String)) (scT : List (Option String × String))
    (srcScenes : List (String × PyScene)) (nci : String)
    (tgtChs : List (String × PyChapter)) (tgtSrt : List String)
    (ctx : C9Ctx titles scT srcScenes nci tgtChs)
    (so : Bool) (crM lcM itM : List (String × String)) (id : String)
    (done : List String) (st st' : UpdState)
    (hinv : LoopInv so titles scT srcScenes nci tgtChs tgtSrt done st)
    (hdone : ¬ id ∈ done)
    (h : syncScene so scT crM lcM itM srcScenes nci id st = .ok st') :
    LoopInv so titles scT srcScenes nci tgtChs tgtSrt (done ++ [id]) st' ∧
      st.scIdMax ≤ st'.scIdMax ∧
      (∀ k, (alGet st.scenes k).isSome = true → (alGet st'.scenes k).isSome = true) ∧
      (∀ k, k ∈ listedIds st.chapters → k ∈ listedIds st'.chapters) := by
  obtain ⟨ssc, hssc, hcases⟩ := syncScene_cases so scT crM lcM itM srcScenes nci id st st' h
  rcases hcases with ⟨hskip, hm, hst⟩ | ⟨scId, tsc, hskip, hm, hts, hst⟩ |
    ⟨scId, tsc, tsc', hskip, hm, hts, hu, hst⟩ | ⟨tsc', nc, p1, p2, hskip, hm, hu, hp, hnc, hst⟩
  · subst hst
    refine ⟨⟨hinv.keys, hinv.maxNonneg, hinv.stable, hinv.listedSome, hinv.activesNodup,
      hinv.scTrack, ?_, hinv.chShape⟩, le_refl _, fun k hk => hk, fun k hk => hk⟩
    intro τ hτ
    rcases hinv.activesSrc τ hτ with h1 | ⟨id', hid', s, hs, ht⟩
    · exact Or.inl h1
    · exact Or.inr ⟨id', List.mem_append_left _ hid', s, hs, ht⟩
  · subst hst
    refine ⟨loopInv_touch titles scT srcScenes nci tgtChs tgtSrt done st hinv id scId ssc tsc
      (notesFlagged tsc) hssc hm hts rfl (fun hc => hc.2 rfl)
      (markFn_stable_of_notes titles (notesFlagged tsc) rfl), le_refl _, ?_, fun k hk => hk⟩
    intro k hk
    show (alGet (alSet st.scenes scId (notesFlagged tsc)) k).isSome = true
    rw [alGet_alSet]
    by_cases hid : scId = k
    · rw [if_pos hid]
      rfl
    · rw [if_neg hid]
      exact hk
  · subst hst
    have hmem := alGet_mem _ _ _ hssc
    have hract : ¬ (truthyB tsc'.isUnused = true ∧ ¬ truthyB tsc'.isNotesScene = true) := by
      intro hc
      rw [updSceneFields_isUnused _ _ _ _ _ _ hu, updSceneFields_isNotesScene _ _ _ _ _ _ hu] at hc
      exact hc.2 (ctx.srcFlag (id, ssc) hmem hc.1)
    have htact : activeTitled st.scenes scId = some ssc.title := (hinv.scTrack ssc.title scId hm).2
    have htitle : tsc.title = ssc.title := by
      obtain ⟨sc, hg, ht, _⟩ := activeTitled_elim st.scenes scId ssc.title htact
      rw [hts] at hg
      rw [Option.some.inj hg]
      exact ht
    have hstab : markFn titles tsc' = tsc' := by
      apply markFn_stable_of_mem
      rw [updSceneFields_title _ _ _ _ _ _ hu, htitle]
      exact ctx.titleMem id ssc hssc
    refine ⟨loopInv_touch titles scT srcScenes nci tgtChs tgtSrt done st hinv id scId ssc tsc
      tsc' hssc hm hts (updSceneFields_title _ _ _ _ _ _ hu) hract hstab,
      le_refl _, ?_, fun k hk => hk⟩
    intro k hk
    show (alGet (alSet st.scenes scId tsc') k).isSome = true
    rw [alGet_alSet]
    by_cases hid : scId = k
    · rw [if_pos hid]
      rfl
    · rw [if_neg hid]
      exact hk
  · have hmem := alGet_mem _ _ _ hssc
    have hkc : pyInt? (pyIntStr (st.scIdMax + 1)) = some (st.scIdMax + 1) :=
      pyInt?_pyIntStr _ (by have := hinv.maxNonneg; omega)
    have hkfresh : ¬ pyIntStr (st.scIdMax + 1) ∈ st.scenes.map Prod.fst := by
      intro hc
      obtain ⟨p, hp, hpk⟩ := List.mem_map.mp hc
      obtain ⟨n, hn, hle⟩ := hinv.keys p hp
      rw [hpk, hkc] at hn
      have hne : st.scIdMax + 1 = n := Option.some.inj hn
      omega
    have htitle : tsc'.title = ssc.title := by
      rw [updSceneFields_title _ _ _ _ _ _ hu]
      rfl
    have hflags : ¬ (truthyB tsc'.isUnused = true ∧ ¬ truthyB tsc'.isNotesScene = true) := by
      intro hc
      rw [updSceneFields_isUnused _ _ _ _ _ _ hu, updSceneFields_isNotesScene _ _ _ _ _ _ hu] at hc
      exact hc.2 (ctx.srcFlag (id, ssc) hmem hc.1)
    have hscenes : st'.scenes = st.scenes ++ [(pyIntStr (st.scIdMax + 1), tsc')] := by
      rw [hst]
      show alSet (alSet st.scenes (pyIntStr (st.scIdMax + 1)) (newSceneRec ssc.title))
        (pyIntStr (st.scIdMax + 1)) tsc' = _
      rw [alSet_absent _ _ _ hkfresh, alSet_last _ _ _ _ hkfresh]
    have hmax : st'.scIdMax = st.scIdMax + 1 := by rw [hst]
    have hncE : st'.newChapterExists = true := by rw [hst]
    rcases hp with ⟨hne, hp1, hp2⟩ | ⟨hne, hp1, hp2⟩
    · rcases hinv.chShape with ⟨hne', _, _⟩ | ⟨_, cr, hch, hsrt⟩
      · rw [hne] at hne'
        exact absurd hne' (by decide)
      · have hgetnc : alGet p1 nci =
            some (⟨some "New scenes", none, none, none, cr⟩ : PyChapter) := by
          rw [hp1, hch]
          exact alGet_append_fresh _ _ _ ctx.nciFresh
        rw [hgetnc] at hnc
        have hnceq : nc = ⟨some "New scenes", none, none, none, cr⟩ := (Option.some.inj hnc).symm
        have hchap : st'.chapters = tgtChs ++ [(nci, ⟨some "New scenes", none, none, none,
            cr ++ [pyIntStr (st.scIdMax + 1)]⟩)] := by
          rw [hst]
          show alSet p1 nci { nc with srtScenes := nc.srtScenes ++ [pyIntStr (st.scIdMax + 1)] } = _
          rw [hp1, hch, hnceq]
          exact alSet_last _ _ _ _ ctx.nciFresh
        have hsrtC : st'.srtChapters = tgtSrt ++ [nci] := by
          rw [hst]
          show p2 = _
          rw [hp2, hsrt]
        have hlistedOld : listedIds st.chapters = listedIds tgtChs ++ (cr ++ []) := by
          rw [hch, listedIds_append]
          rfl
        have hlisted : listedIds st'.chapters =
            listedIds st.chapters ++ [pyIntStr (st.scIdMax + 1)] := by
          rw [hchap, listedIds_append, hlistedOld]
          show listedIds tgtChs ++ ((cr ++ [pyIntStr (st.scIdMax + 1)]) ++ listedIds []) = _
          simp [show listedIds ([] : List (String × PyChapter)) = [] from rfl]
        exact loopInv_created so titles scT srcScenes nci tgtChs tgtSrt ctx done st st' id ssc tsc'
          hinv hdone hssc hm hskip htitle hflags hscenes hmax hncE ⟨_, hchap, hsrtC⟩ hlisted
    · rcases hinv.chShape with ⟨_, hch, hsrt⟩ | ⟨hne', _⟩
      · have hp1e : p1 = tgtChs ++ [(nci, newChapterRec)] := by
          rw [hp1, hch]
          exact alSet_absent _ _ _ ctx.nciFresh
        have hgetnc : alGet p1 nci = some newChapterRec := by
          rw [hp1e]
          exact alGet_append_fresh _ _ _ ctx.nciFresh
        rw [hgetnc] at hnc
        have hnceq : nc = newChapterRec := (Option.some.inj hnc).symm
        have hchap : st'.chapters = tgtChs ++ [(nci, ⟨some "New scenes", none, none, none,
            [pyIntStr (st.scIdMax + 1)]⟩)] := by
          rw [hst]
          show alSet p1 nci { nc with srtScenes := nc.srtScenes ++ [pyIntStr (st.scIdMax + 1)] } = _
          rw [hp1e, hnceq]
          exact alSet_last _ _ _ _ ctx.nciFresh
        have hsrtC : st'.srtChapters = tgtSrt ++ [nci] := by
          rw [hst]
          show p2 = _
          rw [hp2, hsrt]
        have hlistedOld : listedIds st.chapters = listedIds tgtChs := by rw [hch]
        have hlisted : listedIds st'.chapters =
            listedIds st.chapters ++ [pyIntStr (st.scIdMax + 1)] := by
          rw [hchap, listedIds_append, hlistedOld]
          show listedIds tgtChs ++ ([pyIntStr (st.scIdMax + 1)] ++ listedIds []) = _
          simp [show listedIds ([] : List (String × PyChapter)) = [] from rfl]
        exact loopInv_created so titles scT srcScenes nci tgtChs tgtSrt ctx done st st' id ssc tsc'
          hinv hdone hssc hm hskip htitle hflags hscenes hmax hncE ⟨_, hchap, hsrtC⟩ hlisted
      · rw [hne] at hne'
        exact absurd hne' (by decide)

theorem loopInv_run (titles : List (Option String)) (scT : List (Option String × String))
    (srcScenes : List (String × PyScene)) (nci : String)
    (tgtChs : List (String × PyChapter)) (tgtSrt : List String)
    (ctx : C9Ctx titles scT srcScenes nci tgtChs)
    (so : Bool) (crM lcM itM : List (String × String))
    (ids done : List String) (st st' : UpdState)
    (hinv : LoopInv so titles scT srcScenes nci tgtChs tgtSrt done st)
    (hnd : (done ++ ids).Nodup)
    (h : syncScenes so scT crM lcM itM srcScenes nci ids st = .ok st') :
    LoopInv so titles scT srcScenes nci tgtChs tgtSrt (done ++ ids) st' ∧
      st.scIdMax ≤ st'.scIdMax ∧
      (∀ k, (alGet st.scenes k).isSome = true → (alGet st'.scenes k).isSome = true) ∧
      (∀ k, k ∈ listedIds st.chapters → k ∈ listedIds st'.chapters) := by
  induction ids generalizing done st with
  | nil =>
    rw [syncScenes] at h
    cases h
    rw [List.append_nil]
    exact ⟨hinv, le_refl _, fun k hk => hk, fun k hk => hk⟩
  | cons id rest ih =>
    rw [syncScenes] at h
    cases hs : syncScene so scT crM lcM itM srcScenes nci id st with
    | error e => rw [hs] at h; exact absurd h (by simp)
    | ok st1 =>
      rw [hs] at h
      dsimp only at h
      have hdone : ¬ id ∈ done := by
        rw [List.nodup_append] at hnd
        exact fun hc => hnd.2.2 hc (by simp)
      obtain ⟨hinv1, hm1, hp1, hl1⟩ := loopInv_step titles scT srcScenes nci tgtChs tgtSrt
        ctx so crM lcM itM id done st st1 hinv hdone hs
      have hnd' : ((done ++ [id]) ++ rest).Nodup := by
        rw [List.append_assoc]
        exact hnd
      obtain ⟨hinv2, hm2, hp2, hl2⟩ := ih (done ++ [id]) st1 hinv1 hnd' h
      rw [List.append_assoc] at hinv2
      exact ⟨hinv2, le_trans hm1 hm2, fun k hk => hp2 k (hp1 k hk),
        fun k hk => hl2 k (hl1 k hk)⟩

theorem filterMap_pairs_fst {α β : Type} (l : List α) (f : α → Option β) :
    (l.filterMap (fun id => (f id).map (fun τ => (τ, id)))).map Prod.fst = l.filterMap f := by
  induction l with
  | nil => rfl
  | cons a rest ih =>
    rw [List.filterMap_cons, List.filterMap_cons]
    cases hf : f a with
    | none =>
      show List.map Prod.fst
        (List.filterMap (fun id => (f id).map (fun τ => (τ, id))) rest) = List.filterMap f rest
      exact ih
    | some b =>
      show b :: List.map Prod.fst
        (List.filterMap (fun id => (f id).map (fun τ => (τ, id))) rest) =
        b :: List.filterMap f rest
      rw [ih]

theorem scIdsByTitleCh_listedSome (scenes : List (String × PyScene)) (ids : List String)
    (m0 m1 : List (Option String × String)) (h : scIdsByTitleCh scenes ids m0 = .ok m1) :
    ∀ id ∈ ids, (alGet scenes id).isSome = true := by
  induction ids generalizing m0 with
  | nil => intro id hid; simp at hid
  | cons i rest ih =>
    rw [scIdsByTitleCh] at h
    cases hg : alGet scenes i with
    | none => rw [hg] at h; exact absurd h (by simp)
    | some sc =>
      rw [hg] at h
      dsimp only at h
      intro id hid
      rcases List.mem_cons.mp hid with h3 | h4
      · subst h3
        rw [hg]
        rfl
      · by_cases hex : truthyB sc.isUnused = true ∧ ¬ truthyB sc.isNotesScene = true
        · rw [if_pos hex] at h
          exact ih _ h id h4
        · rw [if_neg hex] at h
          by_cases hhas : alHas m0 sc.title = true
          · rw [if_pos hhas] at h
            exact absurd h (by simp)
          · rw [if_neg hhas] at h
            exact ih _ h id h4

theorem buildScIdsByTitle_listedSome (scenes : List (String × PyScene))
    (chs : List (String × PyChapter)) (m0 m : List (Option String × String))
    (h : buildScIdsByTitle scenes chs m0 = .ok m) :
    ∀ id ∈ listedIds chs, (alGet scenes id).isSome = true := by
  induction chs generalizing m0 with
  | nil =>
    intro id hid
    rw [show listedIds ([] : List (String × PyChapter)) = [] from rfl] at hid
    simp at hid
  | cons p rest ih =>
    obtain ⟨k, ch⟩ := p
    rw [buildScIdsByTitle] at h
    cases hch : scIdsByTitleCh scenes ch.srtScenes m0 with
    | error e => rw [hch] at h; exact absurd h (by simp)
    | ok m1 =>
      rw [hch] at h
      dsimp only at h
      intro id hid
      rw [listedIds] at hid
      rcases List.mem_append.mp hid with h1 | h2
      · exact scIdsByTitleCh_listedSome scenes ch.srtScenes m0 m1 hch id h1
      · exact ih _ h id h2

/-- The initial state of the run-1 loop satisfies the invariant. -/
theorem loopInv_init (titles : List (Option String)) (scT : List (Option String × String))
    (srcScenes : List (String × PyScene)) (nci : String)
    (tgt : YwNovel) (scIdMax : Int) (marked : List (String × PyScene))
    (hmk : markUnusedScan titles tgt.scenes 0 = .ok (scIdMax, marked))
    (hbuild : buildScIdsByTitle marked tgt.chapters [] = .ok scT) :
    LoopInv so titles scT srcScenes nci tgt.chapters tgt.srtChapters []
      ⟨marked, tgt.chapters, tgt.srtChapters, scIdMax, false⟩ := by
  obtain ⟨hme, hbounds, hm0⟩ := markUnusedScan_spec titles tgt.scenes 0 (scIdMax, marked) hmk
  dsimp only at hme hbounds hm0
  have hactives : activesOf marked tgt.chapters = scT.map Prod.fst := by
    have he := buildScIdsByTitle_entries marked tgt.chapters [] scT hbuild
    rw [List.nil_append] at he
    rw [he, filterMap_pairs_fst]
    rfl
  refine ⟨?_, hm0, ?_, ?_, ?_, ?_, ?_, Or.inl ⟨rfl, rfl, rfl⟩⟩
  · intro p hp
    rw [hme] at hp
    obtain ⟨q, hq, hpq⟩ := List.mem_map.mp hp
    obtain ⟨n, hn, hle⟩ := hbounds q hq
    subst hpq
    exact ⟨n, hn, hle⟩
  · intro p hp
    rw [hme] at hp
    obtain ⟨q, hq, hpq⟩ := List.mem_map.mp hp
    subst hpq
    exact markFn_idem titles q.2
  · exact buildScIdsByTitle_listedSome marked tgt.chapters [] scT hbuild
  · show (activesOf marked tgt.chapters).Nodup
    rw [hactives]
    exact buildScIdsByTitle_keys_nodup marked tgt.chapters [] scT (by simp) hbuild
  · intro τ k hk
    exact buildScIdsByTitle_valid marked tgt.chapters scT hbuild τ k hk
  · intro τ hτ
    rw [hactives] at hτ
    exact Or.inl hτ

theorem bindWorld_spec (byTitle : List (Option String × String)) (linked : List String)
    (ents : List (String × PyWorld)) (m : List (String × String))
    (E : List (String × PyWorld)) (S : List String) (i : Int)
    (hE : ∀ p ∈ E, ∃ n, pyInt? p.1 = some n ∧ n ≤ i) (hi : 0 ≤ i) :
    bindWorld byTitle linked ents ⟨m, E, S, i⟩ =
      ⟨m ++ bwM byTitle linked ents i, E ++ bwCreated byTitle linked ents i,
       S ++ (bwCreated byTitle linked ents i).map Prod.fst,
       bwIdMax byTitle linked ents i⟩ := by
  induction ents generalizing m E S i with
  | nil =>
    rw [bindWorld, bwM, bwCreated, bwIdMax]
    simp
  | cons p rest ih =>
    obtain ⟨s, e⟩ := p
    rw [bindWorld, bwM, bwCreated, bwIdMax]
    cases hg : alGet byTitle e.title with
    | some v =>
      dsimp only
      rw [ih _ _ _ _ hE hi]
      rw [List.append_cons m (s, v) (bwM byTitle linked rest i)]
    | none =>
      dsimp only
      by_cases hl : s ∈ linked
      · simp only [eq_true hl, if_true]
        have hfresh : ¬ pyIntStr (i + 1) ∈ E.map Prod.fst := by
          intro hc
          obtain ⟨q, hq, hqk⟩ := List.mem_map.mp hc
          obtain ⟨n, hn, hle⟩ := hE q hq
          rw [hqk, pyInt?_pyIntStr _ (by omega)] at hn
          have he2 : i + 1 = n := Option.some.inj hn
          omega
        have hset : alSet E (pyIntStr (i + 1)) e = E ++ [(pyIntStr (i + 1), e)] :=
          alSet_absent _ _ _ hfresh
        rw [hset]
        have hE' : ∀ p ∈ E ++ [(pyIntStr (i + 1), e)], ∃ n, pyInt? p.1 = some n ∧ n ≤ i + 1 := by
          intro q hq
          rcases List.mem_append.mp hq with h1 | h2
          · obtain ⟨n, hn, hle⟩ := hE q h1
            exact ⟨n, hn, by omega⟩
          · simp at h2
            subst h2
            exact ⟨i + 1, pyInt?_pyIntStr _ (by omega), le_refl _⟩
        rw [ih _ _ _ _ hE' (by omega)]
        rw [List.append_cons m (s, pyIntStr (i + 1)) (bwM byTitle linked rest (i + 1)),
          List.append_cons E (pyIntStr (i + 1), e) (bwCreated byTitle linked rest (i + 1)),
          List.map_cons,
          List.append_cons S (pyIntStr (i + 1)) ((bwCreated byTitle linked rest (i + 1)).map Prod.fst)]
      · simp only [eq_false hl, if_false]
        exact ih _ _ _ _ hE hi

theorem worldTargetScan_spec (ents : List (String × PyWorld))
    (m0 : List (Option String × String)) (i0 : Int)
    (m : List (Option String × String)) (iMax : Int)
    (h : worldTargetScan ents m0 i0 = .ok (m, iMax)) :
    m = m0 ++ ents.map (fun p => (p.2.title, p.1)) ∧
      (∀ p ∈ ents, ∃ n, pyInt? p.1 = some n ∧ n ≤ iMax) ∧ i0 ≤ iMax := by
  induction ents generalizing m0 i0 with
  | nil =>
    rw [worldTargetScan] at h
    have he := Prod.mk.injEq _ _ _ _ ▸ Except.ok.inj h
    refine ⟨?_, by simp, ?_⟩
    · rw [← he.1]
      simp
    · rw [he.2]
  | cons p rest ih =>
    obtain ⟨k, e⟩ := p
    rw [worldTargetScan] at h
    cases hp : pyInt? k with
    | none => rw [hp] at h; exact absurd h (by simp)
    | some n =>
      rw [hp] at h
      dsimp only at h
      by_cases hhas : alHas m0 e.title = true
      · rw [if_pos hhas] at h
        exact absurd h (by simp)
      · rw [if_neg hhas] at h
        obtain ⟨he, hb, hle⟩ := ih _ _ h
        refine ⟨?_, ?_, ?_⟩
        · rw [he]
          simp
        · intro q hq
          rcases List.mem_cons.mp hq with h1 | h2
          · subst h1
            refine ⟨n, hp, ?_⟩
            by_cases hgt : n > i0
            · rw [if_pos hgt] at hle
              omega
            · rw [if_neg hgt] at hle
              omega
          · exact hb q h2
        · by_cases hgt : n > i0
          · rw [if_pos hgt] at hle
            omega
          · rw [if_neg hgt] at hle
            omega

theorem worldTargetScan_ok (ents : List (String × PyWorld))
    (m0 : List (Option String × String)) (i0 : Int)
    (hk : ∀ p ∈ ents, ∃ n, pyInt? p.1 = some n)
    (hnd : (m0.map Prod.fst ++ ents.map (fun p => p.2.title)).Nodup) :
    ∃ iMax, worldTargetScan ents m0 i0 =
      .ok (m0 ++ ents.map (fun p => (p.2.title, p.1)), iMax) := by
  induction ents generalizing m0 i0 with
  | nil =>
    refine ⟨i0, ?_⟩
    rw [worldTargetScan]
    simp
  | cons p rest ih =>
    obtain ⟨k, e⟩ := p
    obtain ⟨n, hn⟩ := hk (k, e) (by simp)
    rw [List.map_cons, List.append_cons] at hnd
    have hhas : ¬ alHas m0 e.title = true := by
      intro hc
      unfold alHas at hc
      cases hg : alGet m0 e.title with
      | none => rw [hg] at hc; simp at hc
      | some v =>
        have hmem : e.title ∈ m0.map Prod.fst :=
          List.mem_map.mpr ⟨(e.title, v), alGet_mem _ _ _ hg, rfl⟩
        rw [List.nodup_append] at hnd
        have h1 := hnd.1
        rw [List.nodup_append] at h1
        exact h1.2.2 hmem (by simp)
    have hnd' : ((m0 ++ [(e.title, k)]).map Prod.fst ++
        rest.map (fun p => p.2.title)).Nodup := by
      rw [List.map_append]
      exact hnd
    obtain ⟨iMax, hrec⟩ := ih _ _ (fun q hq => hk q (by simp [hq])) hnd'
    refine ⟨iMax, ?_⟩
    rw [worldTargetScan, hn]
    dsimp only
    rw [if_neg hhas, hrec]
    congr 1
    simp

theorem bwCreated_keys (byTitle : List (Option String × String)) (linked : List String)
    (ents : List (String × PyWorld)) (i : Int) (hi : 0 ≤ i) :
    ∀ p ∈ bwCreated byTitle linked ents i, ∃ n, pyInt? p.1 = some n := by
  induction ents generalizing i with
  | nil => intro p hp; rw [bwCreated] at hp; simp at hp
  | cons q rest ih =>
    obtain ⟨s, e⟩ := q
    intro p hp
    rw [bwCreated] at hp
    cases hg : alGet byTitle e.title with
    | some v =>
      rw [hg] at hp
      exact ih i hi p hp
    | none =>
      rw [hg] at hp
      dsimp only at hp
      by_cases hl : s ∈ linked
      · rw [if_pos hl] at hp
        rcases List.mem_cons.mp hp with h1 | h2
        · subst h1
          exact ⟨i + 1, pyInt?_pyIntStr _ (by omega)⟩
        · exact ih (i + 1) (by omega) p h2
      · rw [if_neg hl] at hp
        exact ih i hi p hp

theorem bwCreated_fresh (byTitle : List (Option String × String)) (linked : List String)
    (ents : List (String × PyWorld)) (i : Int) :
    ∀ p ∈ bwCreated byTitle linked ents i, alGet byTitle p.2.title = none := by
  induction ents generalizing i with
  | nil => intro p hp; rw [bwCreated] at hp; simp at hp
  | cons q rest ih =>
    obtain ⟨s, e⟩ := q
    intro p hp
    rw [bwCreated] at hp
    cases hg : alGet byTitle e.title with
    | some v =>
      rw [hg] at hp
      exact ih i p hp
    | none =>
      rw [hg] at hp
      dsimp only at hp
      by_cases hl : s ∈ linked
      · rw [if_pos hl] at hp
        rcases List.mem_cons.mp hp with h1 | h2
        · subst h1
          exact hg
        · exact ih (i + 1) p h2
      · rw [if_neg hl] at hp
        exact ih i p hp

theorem bwCreated_src (byTitle : List (Option String × String)) (linked : List String)
    (ents : List (String × PyWorld)) (i : Int) :
    ∀ p ∈ bwCreated byTitle linked ents i, ∃ s, (s, p.2) ∈ ents ∧ s ∈ linked := by
  induction ents generalizing i with
  | nil => intro p hp; rw [bwCreated] at hp; simp at hp
  | cons q rest ih =>
    obtain ⟨s, e⟩ := q
    intro p hp
    rw [bwCreated] at hp
    cases hg : alGet byTitle e.title with
    | some v =>
      rw [hg] at hp
      obtain ⟨s', hm, hl⟩ := ih i p hp
      exact ⟨s', List.mem_cons.mpr (Or.inr hm), hl⟩
    | none =>
      rw [hg] at hp
      dsimp only at hp
      by_cases hl : s ∈ linked
      · rw [if_pos hl] at hp
        rcases List.mem_cons.mp hp with h1 | h2
        · subst h1
          exact ⟨s, List.mem_cons.mpr (Or.inl rfl), hl⟩
        · obtain ⟨s', hm, hl'⟩ := ih (i + 1) p h2
          exact ⟨s', List.mem_cons.mpr (Or.inr hm), hl'⟩
      · rw [if_neg hl] at hp
        obtain ⟨s', hm, hl'⟩ := ih i p hp
        exact ⟨s', List.mem_cons.mpr (Or.inr hm), hl'⟩

theorem worldDupScan_go_nodup (linked : List String) (ents : List (String × PyWorld))
    (names : List (Option String)) (hnd : names.Nodup)
    (h : worldDupScan.go linked ents names = none) :
    (names ++ (ents.filter (fun p => decide (p.1 ∈ linked))).map
      (fun p => p.2.title)).Nodup := by
  induction ents generalizing names with
  | nil => simpa using hnd
  | cons q rest ih =>
    obtain ⟨k, e⟩ := q
    rw [worldDupScan.go] at h
    by_cases hl : ¬ k ∈ linked
    · rw [if_pos hl] at h
      rw [List.filter_cons_of_neg (by simpa using hl)]
      exact ih names hnd h
    · rw [if_neg hl] at h
      by_cases hmem : e.title ∈ names
      · rw [if_pos hmem] at h
        simp at h
      · rw [if_neg hmem] at h
        have hnd' : (names ++ [e.title]).Nodup := by
          rw [List.nodup_append]
          refine ⟨hnd, List.nodup_singleton _, ?_⟩
          intro a ha hb
          rw [List.mem_singleton.mp hb] at ha
          exact hmem ha
        have hres := ih (names ++ [e.title]) hnd' h
        rw [List.filter_cons_of_pos (by simpa using not_not.mp hl), List.map_cons,
          List.append_cons]
        exact hres

theorem bwCreated_titles_sublist (byTitle : List (Option String × String))
    (linked : List String) (ents : List (String × PyWorld)) (i : Int) :
    ((bwCreated byTitle linked ents i).map (fun p => p.2.title)).Sublist
      ((ents.filter (fun p => decide (p.1 ∈ linked))).map (fun p => p.2.title)) := by
  induction ents generalizing i with
  | nil =>
    rw [bwCreated]
    simp
  | cons q rest ih =>
    obtain ⟨s, e⟩ := q
    rw [bwCreated]
    cases hg : alGet byTitle e.title with
    | some v =>
      by_cases hl : s ∈ linked
      · rw [List.filter_cons_of_pos (by simpa using hl), List.map_cons]
        exact (ih i).cons _
      · rw [List.filter_cons_of_neg (by simpa using hl)]
        exact ih i
    | none =>
      dsimp only
      by_cases hl : s ∈ linked
      · rw [if_pos hl, List.filter_cons_of_pos (by simpa using hl), List.map_cons,
          List.map_cons]
        exact (ih (i + 1)).cons₂ _
      · rw [if_neg hl, List.filter_cons_of_neg (by simpa using hl)]
        exact ih i

/-- Replaying `bindWorld` against the post-run title map binds every
source entity to the same id and creates nothing. -/
theorem bwM_run2 (byTitle byTitle₂ : List (Option String × String)) (linked : List String)
    (ents : List (String × PyWorld)) (i i₂ : Int)
    (hsome : ∀ s e, (s, e) ∈ ents → ∀ v, alGet byTitle e.title = some v →
      alGet byTitle₂ e.title = some v)
    (hcre : ∀ p ∈ bwCreated byTitle linked ents i, alGet byTitle₂ p.2.title = some p.1)
    (hnone : ∀ s e, (s, e) ∈ ents → alGet byTitle e.title = none → ¬ s ∈ linked →
      alGet byTitle₂ e.title = none) :
    bwM byTitle₂ linked ents i₂ = bwM byTitle linked ents i ∧
      bwCreated byTitle₂ linked ents i₂ = [] := by
  induction ents generalizing i i₂ with
  | nil => exact ⟨rfl, rfl⟩
  | cons q rest ih =>
    obtain ⟨s, e⟩ := q
    rw [bwM, bwM, bwCreated]
    cases hg : alGet byTitle e.title with
    | some v =>
      rw [hsome s e (by simp) v hg]
      dsimp only
      have hcre' : ∀ p ∈ bwCreated byTitle linked rest i, alGet byTitle₂ p.2.title = some p.1 := by
        intro p hp
        refine hcre p ?_
        rw [bwCreated, hg]
        exact hp
      obtain ⟨h1, h2⟩ := ih i i₂ (fun s' e' hm v' hv => hsome s' e' (by simp [hm]) v' hv) hcre'
        (fun s' e' hm hv hl => hnone s' e' (by simp [hm]) hv hl)
      exact ⟨by rw [h1], h2⟩
    | none =>
      dsimp only
      by_cases hl : s ∈ linked
      · have hhead : alGet byTitle₂ e.title = some (pyIntStr (i + 1)) := by
          refine hcre (pyIntStr (i + 1), e) ?_
          rw [bwCreated, hg]
          dsimp only
          rw [if_pos hl]
          exact List.mem_cons.mpr (Or.inl rfl)
        rw [hhead]
        dsimp only
        have hcre' : ∀ p ∈ bwCreated byTitle linked rest (i + 1),
            alGet byTitle₂ p.2.title = some p.1 := by
          intro p hp
          refine hcre p ?_
          rw [bwCreated, hg]
          dsimp only
          rw [if_pos hl]
          exact List.mem_cons.mpr (Or.inr hp)
        obtain ⟨h1, h2⟩ := ih (i + 1) i₂ (fun s' e' hm v' hv => hsome s' e' (by simp [hm]) v' hv)
          hcre' (fun s' e' hm hv hl' => hnone s' e' (by simp [hm]) hv hl')
        rw [if_pos hl]
        exact ⟨by rw [h1], h2⟩
      · rw [hnone s e (by simp) hg hl]
        dsimp only
        simp only [eq_false hl, if_false]
        have hcre' : ∀ p ∈ bwCreated byTitle linked rest i, alGet byTitle₂ p.2.title = some p.1 := by
          intro p hp
          refine hcre p ?_
          rw [bwCreated, hg]
          dsimp only
          rw [if_neg hl]
          exact hp
        exact ih i i₂ (fun s' e' hm v' hv => hsome s' e' (by simp [hm]) v' hv) hcre'
          (fun s' e' hm hv hl' => hnone s' e' (by simp [hm]) hv hl')

/-- On a state with numeric keys and mark-stable scenes, the
mark-unused pass succeeds and rewrites nothing. -/
theorem markUnusedScan_noop (titles : List (Option String)) (l : List (String × PyScene))
    (m0 : Int) (hk : ∀ p ∈ l, ∃ n, pyInt? p.1 = some n)
    (hs : ∀ p ∈ l, markFn titles p.2 = p.2) :
    ∃ m, markUnusedScan titles l m0 = .ok (m, l) ∧ m0 ≤ m ∧
      ∀ p ∈ l, ∃ n, pyInt? p.1 = some n ∧ n ≤ m := by
  induction l generalizing m0 with
  | nil => exact ⟨m0, rfl, le_refl _, by simp⟩
  | cons q rest ih =>
    obtain ⟨k, sc⟩ := q
    obtain ⟨n, hn⟩ := hk (k, sc) (by simp)
    obtain ⟨m, hrec, hle, hb⟩ := ih (if n > m0 then n else m0)
      (fun p hp => hk p (by simp [hp])) (fun p hp => hs p (by simp [hp]))
    refine ⟨m, ?_, ?_, ?_⟩
    · rw [markUnusedScan, hn]
      dsimp only
      rw [hrec]
      dsimp only
      have hmk : (if ¬ sc.title ∈ titles ∧ ¬ truthyB sc.isNotesScene = true
          then { sc with isUnused := some true } else sc) = sc := hs (k, sc) (by simp)
      rw [hmk]
    · by_cases hgt : n > m0
      · rw [if_pos hgt] at hle
        omega
      · rw [if_neg hgt] at hle
        omega
    · intro p hp
      rcases List.mem_cons.mp hp with h1 | h2
      · subst h1
        refine ⟨n, hn, ?_⟩
        by_cases hgt : n > m0
        · rw [if_pos hgt] at hle
          omega
        · rw [if_neg hgt] at hle
          omega
      · exact hb p h2

theorem maxIdScan_ok {α : Type} (l : List (String × α)) (m0 : Int)
    (hk : ∀ p ∈ l, ∃ n, pyInt? p.1 = some n) :
    ∃ m, maxIdScan l m0 = .ok m := by
  induction l generalizing m0 with
  | nil => exact ⟨m0, rfl⟩
  | cons q rest ih =>
    obtain ⟨k, v⟩ := q
    obtain ⟨n, hn⟩ := hk (k, v) (by simp)
    obtain ⟨m, hrec⟩ := ih (if n > m0 then n else m0) (fun p hp => hk p (by simp [hp]))
    refine ⟨m, ?_⟩
    rw [maxIdScan, hn]
    exact hrec

theorem scIdsByTitleCh_ok (scenes : List (String × PyScene)) (ids : List String)
    (m0 : List (Option String × String))
    (hsome : ∀ id ∈ ids, (alGet scenes id).isSome = true)
    (hnd : (m0.map Prod.fst ++ ids.filterMap (fun id => activeTitled scenes id)).Nodup) :
    ∃ m1, scIdsByTitleCh scenes ids m0 = .ok m1 ∧
      m1.map Prod.fst = m0.map Prod.fst ++ ids.filterMap (fun id => activeTitled scenes id) := by
  induction ids generalizing m0 with
  | nil => exact ⟨m0, rfl, by simp⟩
  | cons i rest ih =>
    have hsi := hsome i (by simp)
    cases hg : alGet scenes i with
    | none => rw [hg] at hsi; simp at hsi
    | some sc =>
      rw [List.filterMap_cons] at hnd
      by_cases hex : truthyB sc.isUnused = true ∧ ¬ truthyB sc.isNotesScene = true
      · have hact : activeTitled scenes i = none := by
          unfold activeTitled
          rw [hg]
          dsimp only [Option.bind]
          rw [if_pos hex]
        rw [hact] at hnd
        obtain ⟨m1, hrec, hkeys⟩ := ih m0 (fun id hid => hsome id (by simp [hid])) hnd
        refine ⟨m1, ?_, ?_⟩
        · rw [scIdsByTitleCh, hg]
          dsimp only
          rw [if_pos hex]
          exact hrec
        · rw [hkeys, List.filterMap_cons, hact]
      · have hact : activeTitled scenes i = some sc.title := activeTitled_intro _ _ _ hg hex
        rw [hact] at hnd
        dsimp only at hnd
        have hhas : ¬ alHas m0 sc.title = true := by
          intro hc
          unfold alHas at hc
          cases hg2 : alGet m0 sc.title with
          | none => rw [hg2] at hc; simp at hc
          | some v =>
            have hmem : sc.title ∈ m0.map Prod.fst :=
              List.mem_map.mpr ⟨(sc.title, v), alGet_mem _ _ _ hg2, rfl⟩
            rw [List.nodup_append] at hnd
            exact hnd.2.2 hmem (by simp)
        have hnd' : ((m0 ++ [(sc.title, i)]).map Prod.fst ++
            rest.filterMap (fun id => activeTitled scenes id)).Nodup := by
          rw [List.map_append]
          show ((m0.map Prod.fst ++ [sc.title]) ++
            rest.filterMap (fun id => activeTitled scenes id)).Nodup
          rw [List.append_assoc]
          exact hnd
        obtain ⟨m1, hrec, hkeys⟩ := ih _ (fun id hid => hsome id (by simp [hid])) hnd'
        refine ⟨m1, ?_, ?_⟩
        · rw [scIdsByTitleCh, hg]
          dsimp only
          rw [if_neg hex, if_neg hhas]
          exact hrec
        · rw [hkeys, List.map_append]
          show (m0.map Prod.fst ++ [sc.title]) ++
              rest.filterMap (fun id => activeTitled scenes id) = _
          rw [List.append_assoc, List.filterMap_cons, hact]
          rfl

theorem buildScIdsByTitle_ok (scenes : List (String × PyScene))
    (chs : List (String × PyChapter)) (m0 : List (Option String × String))
    (hsome : ∀ id ∈ listedIds chs, (alGet scenes id).isSome = true)
    (hnd : (m0.map Prod.fst ++ activesOf scenes chs).Nodup) :
    ∃ m, buildScIdsByTitle scenes chs m0 = .ok m := by
  induction chs generalizing m0 with
  | nil => exact ⟨m0, rfl⟩
  | cons q rest ih =>
    obtain ⟨k, ch⟩ := q
    have hsplit : activesOf scenes ((k, ch) :: rest) =
        ch.srtScenes.filterMap (fun id => activeTitled scenes id) ++ activesOf scenes rest := by
      unfold activesOf
      rw [show listedIds ((k, ch) :: rest) = ch.srtScenes ++ listedIds rest from rfl,
        List.filterMap_append]
    rw [hsplit] at hnd
    have hnd1 : (m0.map Prod.fst ++
        ch.srtScenes.filterMap (fun id => activeTitled scenes id)).Nodup := by
      have hpre : (m0.map Prod.fst ++
          ch.srtScenes.filterMap (fun id => activeTitled scenes id)).Sublist
          (m0.map Prod.fst ++ (ch.srtScenes.filterMap (fun id => activeTitled scenes id) ++
            activesOf scenes rest)) := by
        rw [← List.append_assoc]
        exact List.sublist_append_left _ _
      exact hnd.sublist hpre
    obtain ⟨m1, hrec, hkeys⟩ := scIdsByTitleCh_ok scenes ch.srtScenes m0
      (fun id hid => hsome id (by
        rw [show listedIds ((k, ch) :: rest) = ch.srtScenes ++ listedIds rest from rfl]
        exact List.mem_append_left _ hid)) hnd1
    have hnd2 : (m1.map Prod.fst ++ activesOf scenes rest).Nodup := by
      rw [hkeys, List.append_assoc]
      exact hnd
    obtain ⟨m, hrec2⟩ := ih m1 (fun id hid => hsome id (by
      rw [show listedIds ((k, ch) :: rest) = ch.srtScenes ++ listedIds rest from rfl]
      exact List.mem_append_right _ hid)) hnd2
    refine ⟨m, ?_⟩
    rw [buildScIdsByTitle, hrec]
    exact hrec2

/-! ## Second-run replay: helper lemmas -/

theorem filterMap_nodup_inj {α β : Type} [DecidableEq β] (l : List α) (f : α → Option β)
    (hnd : (l.filterMap f).Nodup) (a b : α) (ha : a ∈ l) (hb : b ∈ l) (τ : β)
    (hfa : f a = some τ) (hfb : f b = some τ) : a = b := by
  induction l with
  | nil => simp at ha
  | cons x rest ih =>
    rw [List.filterMap_cons] at hnd
    rcases List.mem_cons.mp ha with h1 | h2
    · rcases List.mem_cons.mp hb with h3 | h4
      · rw [h1, h3]
      · subst h1
        rw [hfa] at hnd
        rw [List.nodup_cons] at hnd
        exact absurd (List.mem_filterMap.mpr ⟨b, h4, hfb⟩) hnd.1
    · rcases List.mem_cons.mp hb with h3 | h4
      · subst h3
        rw [hfb] at hnd
        rw [List.nodup_cons] at hnd
        exact absurd (List.mem_filterMap.mpr ⟨a, h2, hfa⟩) hnd.1
      · cases hx : f x with
        | none =>
          rw [hx] at hnd
          exact ih hnd h2 h4
        | some v =>
          rw [hx, List.nodup_cons] at hnd
          exact ih hnd.2 h2 h4

theorem alGet_append_none {κ α : Type} [DecidableEq κ] (l₁ l₂ : List (κ × α)) (k : κ)
    (h : alGet l₁ k = none) : alGet (l₁ ++ l₂) k = alGet l₂ k := by
  rw [alGet_append, h]
  rfl

theorem titlePairs_keys (l : List (String × PyWorld)) :
    (l.map (fun q => (q.2.title, q.1))).map Prod.fst = l.map (fun q => q.2.title) := by
  induction l with
  | nil => rfl
  | cons p rest ih =>
    rw [List.map_cons, List.map_cons, List.map_cons, ih]

theorem alGet_titlePairs (l : List (String × PyWorld))
    (hnd : (l.map (fun q => q.2.title)).Nodup) (p : String × PyWorld) (hp : p ∈ l) :
    alGet (l.map (fun q => (q.2.title, q.1))) p.2.title = some p.1 := by
  induction l with
  | nil => simp at hp
  | cons q rest ih =>
    rw [List.map_cons, List.nodup_cons] at hnd
    rcases List.mem_cons.mp hp with h1 | h2
    · subst h1
      rw [List.map_cons, alGet_cons, if_pos rfl]
    · have hne : ¬ q.2.title = p.2.title := by
        intro he
        exact hnd.1 (by rw [he]; exact List.mem_map.mpr ⟨p, h2, rfl⟩)
      rw [List.map_cons, alGet_cons, if_neg hne]
      exact ih hnd.2 h2

theorem worldTargetScan_nodup (ents : List (String × PyWorld))
    (m0 : List (Option String × String)) (i0 : Int)
    (m : List (Option String × String)) (iMax : Int)
    (hnd0 : (m0.map Prod.fst).Nodup)
    (h : worldTargetScan ents m0 i0 = .ok (m, iMax)) :
    (m0.map Prod.fst ++ ents.map (fun p => p.2.title)).Nodup := by
  induction ents generalizing m0 i0 with
  | nil => simpa using hnd0
  | cons p rest ih =>
    obtain ⟨k, e⟩ := p
    rw [worldTargetScan] at h
    cases hp : pyInt? k with
    | none => rw [hp] at h; exact absurd h (by simp)
    | some n =>
      rw [hp] at h
      dsimp only at h
      by_cases hhas : alHas m0 e.title = true
      · rw [if_pos hhas] at h
        exact absurd h (by simp)
      · rw [if_neg hhas] at h
        have hnotin : ¬ e.title ∈ m0.map Prod.fst := by
          intro hc
          exact hhas (alGet_isSome_of_key_mem m0 _ hc)
        have hnd1 : ((m0 ++ [(e.title, k)]).map Prod.fst).Nodup := by
          rw [List.map_append, List.map_singleton, List.nodup_append]
          refine ⟨hnd0, List.nodup_singleton _, ?_⟩
          intro a ha hb
          rw [List.mem_singleton.mp hb] at ha
          exact hnotin ha
        have hres := ih _ _ hnd1 h
        rw [List.map_append, List.map_singleton, List.append_assoc] at hres
        rw [List.map_cons]
        exact hres

theorem bwM_vals (byTitle : List (Option String × String)) (linked : List String)
    (ents : List (String × PyWorld)) (i : Int) (hi : 0 ≤ i)
    (hby : ∀ τ v, alGet byTitle τ = some v → ¬ v = "") :
    ¬ "" ∈ alVals (bwM byTitle linked ents i) := by
  induction ents generalizing i with
  | nil =>
    rw [bwM]
    simp [alVals]
  | cons q rest ih =>
    obtain ⟨s, e⟩ := q
    rw [bwM]
    cases hg : alGet byTitle e.title with
    | some v =>
      intro hc
      rcases List.mem_cons.mp hc with h1 | h2
      · exact hby e.title v hg h1.symm
      · exact ih i hi h2
    | none =>
      dsimp only
      by_cases hl : s ∈ linked
      · rw [if_pos hl]
        intro hc
        rcases List.mem_cons.mp hc with h1 | h2
        · have h2 : pyIntStr (i + 1) = "" := h1.symm
          have h3 := pyInt?_pyIntStr (i + 1) (by omega)
          rw [h2, show pyInt? "" = none from rfl] at h3
          exact absurd h3 (by simp)
        · exact ih (i + 1) (by omega) h2
      · rw [if_neg hl]
        exact ih i hi

theorem notesFlagged_idem (t : PyScene) : notesFlagged (notesFlagged t) = notesFlagged t := rfl

theorem alSet_mem_self {κ α : Type} [DecidableEq κ] (l : List (κ × α)) (k : κ) (v : α) :
    (k, v) ∈ alSet l k v := by
  induction l with
  | nil => simp
  | cons p rest ih =>
    obtain ⟨k₀, v₀⟩ := p
    rw [alSet]
    by_cases hk : k₀ = k
    · rw [if_pos hk]
      subst hk
      simp
    · rw [if_neg hk]
      exact List.mem_cons.mpr (Or.inr ih)

theorem listedIds_mem_of (chs : List (String × PyChapter)) (k : String) (ch : PyChapter)
    (hmem : (k, ch) ∈ chs) (x : String) (hx : x ∈ ch.srtScenes) : x ∈ listedIds chs := by
  induction chs with
  | nil => simp at hmem
  | cons p rest ih =>
    obtain ⟨k₀, ch₀⟩ := p
    rw [listedIds]
    rcases List.mem_cons.mp hmem with h1 | h2
    · cases h1
      exact List.mem_append_left _ hx
    · exact List.mem_append_right _ (ih h2)

/-- Full inversion of a successful `Yw7Target.merge` run: every phase
equation, the three duplicate-scan results, and the complete result
record. -/
theorem yw7_merge_ok_full (so : Bool) (tgt src : YwNovel) (t' : YwNovel)
    (h : Yw7Target.merge so tgt src = .ret "Novel updated from timeline data." t') :
    ∃ scan scIdMax marked chIdMax scT crByName crIdMax lcByTitle lcIdMax itByTitle itIdMax ust,
      srcScan src.scenes ⟨[], [], [], []⟩ = .ok scan ∧
      worldDupScan src.characters scan.linkedC = none ∧
      worldDupScan src.locations scan.linkedL = none ∧
      worldDupScan src.items scan.linkedI = none ∧
      markUnusedScan scan.titles tgt.scenes 0 = .ok (scIdMax, marked) ∧
      maxIdScan tgt.chapters 0 = .ok chIdMax ∧
      buildScIdsByTitle marked tgt.chapters [] = .ok scT ∧
      worldTargetScan tgt.characters [] 0 = .ok (crByName, crIdMax) ∧
      worldTargetScan tgt.locations [] 0 = .ok (lcByTitle, lcIdMax) ∧
      worldTargetScan tgt.items [] 0 = .ok (itByTitle, itIdMax) ∧
      updateChapters so scT
        (bindWorld crByName scan.linkedC src.characters ⟨[], tgt.characters, tgt.srtCharacters, crIdMax⟩).m
        (bindWorld lcByTitle scan.linkedL src.locations ⟨[], tgt.locations, tgt.srtLocations, lcIdMax⟩).m
        (bindWorld itByTitle scan.linkedI src.items ⟨[], tgt.items, tgt.srtItems, itIdMax⟩).m
        src.scenes (pyIntStr (chIdMax + 1)) src.chapters
        ⟨marked, tgt.chapters, tgt.srtChapters, scIdMax, false⟩ = .ok ust ∧
      t' = ⟨ust.scenes, ust.chapters, ust.srtChapters,
        (bindWorld crByName scan.linkedC src.characters ⟨[], tgt.characters, tgt.srtCharacters, crIdMax⟩).ents,
        (bindWorld crByName scan.linkedC src.characters ⟨[], tgt.characters, tgt.srtCharacters, crIdMax⟩).srt,
        (bindWorld lcByTitle scan.linkedL src.locations ⟨[], tgt.locations, tgt.srtLocations, lcIdMax⟩).ents,
        (bindWorld lcByTitle scan.linkedL src.locations ⟨[], tgt.locations, tgt.srtLocations, lcIdMax⟩).srt,
        (bindWorld itByTitle scan.linkedI src.items ⟨[], tgt.items, tgt.srtItems, itIdMax⟩).ents,
        (bindWorld itByTitle scan.linkedI src.items ⟨[], tgt.items, tgt.srtItems, itIdMax⟩).srt⟩ := by
  unfold Yw7Target.merge at h
  cases h1 : srcScan src.scenes ⟨[], [], [], []⟩ with
  | error t =>
    rw [h1] at h
    dsimp only at h
    injection h with hm _
    unfold ambigEventMsg at hm
    exact absurd hm (ambig_ne_success _ t)
  | ok scan =>
  rw [h1] at h
  dsimp only at h
  cases h2 : worldDupScan src.characters scan.linkedC with
  | some t =>
    rw [h2] at h
    dsimp only at h
    injection h with hm _
    unfold ambigYwCharMsg at hm
    exact absurd hm (ambig_ne_success _ t)
  | none =>
  rw [h2] at h
  dsimp only at h
  cases h3 : worldDupScan src.locations scan.linkedL with
  | some t =>
    rw [h3] at h
    dsimp only at h
    injection h with hm _
    unfold ambigYwLocMsg at hm
    exact absurd hm (ambig_ne_success _ t)
  | none =>
  rw [h3] at h
  dsimp only at h
  cases h4 : worldDupScan src.items scan.linkedI with
  | some t =>
    rw [h4] at h
    dsimp only at h
    injection h with hm _
    unfold ambigYwItemMsg at hm
    exact absurd hm (ambig_ne_success _ t)
  | none =>
  rw [h4] at h
  dsimp only at h
  cases h5 : markUnusedScan scan.titles tgt.scenes 0 with
  | error e => rw [h5] at h; exact absurd h (by simp)
  | ok p =>
  obtain ⟨scIdMax, marked⟩ := p
  rw [h5] at h
  dsimp only at h
  cases h6 : maxIdScan tgt.chapters 0 with
  | error e => rw [h6] at h; exact absurd h (by simp)
  | ok chIdMax =>
  rw [h6] at h
  dsimp only at h
  cases h7 : buildScIdsByTitle marked tgt.chapters [] with
  | error e =>
    rw [h7] at h
    cases e with
    | inl s => exact absurd h (by simp)
    | inr t =>
      dsimp only at h
      injection h with hm _
      unfold ambigYwSceneMsg at hm
      exact absurd hm (ambig_ne_success _ t)
  | ok scT =>
  rw [h7] at h
  dsimp only at h
  cases h8 : worldTargetScan tgt.characters [] 0 with
  | error e =>
    rw [h8] at h
    cases e with
    | inl s => exact absurd h (by simp)
    | inr t =>
      dsimp only at h
      injection h with hm _
      unfold ambigYwCharMsg at hm
      exact absurd hm (ambig_ne_success _ t)
  | ok p =>
  obtain ⟨crByName, crIdMax⟩ := p
  rw [h8] at h
  dsimp only at h
  cases h9 : worldTargetScan tgt.locations [] 0 with
  | error e =>
    rw [h9] at h
    cases e with
    | inl s => exact absurd h (by simp)
    | inr t =>
      dsimp only at h
      injection h with hm _
      unfold ambigYwLocMsg at hm
      exact absurd hm (ambig_ne_success _ t)
  | ok p =>
  obtain ⟨lcByTitle, lcIdMax⟩ := p
  rw [h9] at h
  dsimp only at h
  cases h10 : worldTargetScan tgt.items [] 0 with
  | error e =>
    rw [h10] at h
    cases e with
    | inl s => exact absurd h (by simp)
    | inr t =>
      dsimp only at h
      injection h with hm _
      unfold ambigYwItemMsg at hm
      exact absurd hm (ambig_ne_success _ t)
  | ok p =>
  obtain ⟨itByTitle, itIdMax⟩ := p
  rw [h10] at h
  dsimp only at h
  cases h11 : updateChapters so scT
      (bindWorld crByName scan.linkedC src.characters ⟨[], tgt.characters, tgt.srtCharacters, crIdMax⟩).m
      (bindWorld lcByTitle scan.linkedL src.locations ⟨[], tgt.locations, tgt.srtLocations, lcIdMax⟩).m
      (bindWorld itByTitle scan.linkedI src.items ⟨[], tgt.items, tgt.srtItems, itIdMax⟩).m
      src.scenes (pyIntStr (chIdMax + 1)) src.chapters
      ⟨marked, tgt.chapters, tgt.srtChapters, scIdMax, false⟩ with
  | error e => rw [h11] at h; exact absurd h (by simp)
  | ok ust =>
  rw [h11] at h
  dsimp only at h
  injection h with _ hst
  exact ⟨scan, scIdMax, marked, chIdMax, scT, crByName, crIdMax, lcByTitle, lcIdMax,
    itByTitle, itIdMax, ust, rfl, h2, h3, h4, h5, rfl, h7, rfl, rfl, rfl, h11, hst.symm⟩

/-- Replaying one world-entity kind on the post-run state: the target
scan succeeds on the grown dict, and a second `bindWorld` against the
grown title map reproduces the first run's bindings and creates
nothing. -/
theorem world_phase_run2 (tgtEnts srcEnts : List (String × PyWorld)) (linked : List String)
    (srt : List String) (byName : List (Option String × String)) (idMax : Int)
    (M : List (String × String)) (E : List (String × PyWorld)) (S : List String) (I : Int)
    (h1 : worldTargetScan tgtEnts [] 0 = .ok (byName, idMax))
    (hdup : worldDupScan srcEnts linked = none)
    (hsrcT : (srcEnts.map (fun p => p.2.title)).Nodup)
    (hB : bindWorld byName linked srcEnts ⟨[], tgtEnts, srt, idMax⟩ = ⟨M, E, S, I⟩) :
    ∃ byName₂ idMax₂,
      worldTargetScan E [] 0 = .ok (byName₂, idMax₂) ∧
      ∀ srt₂ : List String, ∃ I₂,
        bindWorld byName₂ linked srcEnts ⟨[], E, srt₂, idMax₂⟩ = ⟨M, E, srt₂, I₂⟩ := by
  obtain ⟨hm, hbounds, hle0⟩ := worldTargetScan_spec tgtEnts [] 0 byName idMax h1
  rw [List.nil_append] at hm
  have hspec := bindWorld_spec byName linked srcEnts [] tgtEnts srt idMax hbounds hle0
  rw [hB] at hspec
  have hM : M = bwM byName linked srcEnts idMax := by
    have hh := congrArg BindSt.m hspec
    simpa using hh
  have hEe : E = tgtEnts ++ bwCreated byName linked srcEnts idMax := by
    have hh := congrArg BindSt.ents hspec
    simpa using hh
  have hkeys : ∀ p ∈ E, ∃ n, pyInt? p.1 = some n := by
    rw [hEe]
    intro p hp
    rcases List.mem_append.mp hp with hp1 | hp2
    · obtain ⟨n, hn, _⟩ := hbounds p hp1
      exact ⟨n, hn⟩
    · exact bwCreated_keys byName linked srcEnts idMax hle0 p hp2
  have hbyKeys : byName.map Prod.fst = tgtEnts.map (fun p => p.2.title) := by
    rw [hm, titlePairs_keys]
  have htgtT : (tgtEnts.map (fun p => p.2.title)).Nodup := by
    have hh := worldTargetScan_nodup tgtEnts [] 0 byName idMax (by simp) h1
    simpa using hh
  have hgo : worldDupScan.go linked srcEnts [] = none := hdup
  have hlinkT : ((srcEnts.filter (fun p => decide (p.1 ∈ linked))).map
      (fun p => p.2.title)).Nodup := by
    have hh := worldDupScan_go_nodup linked srcEnts [] (by simp) hgo
    simpa using hh
  have hCT : ((bwCreated byName linked srcEnts idMax).map (fun p => p.2.title)).Nodup :=
    hlinkT.sublist (bwCreated_titles_sublist byName linked srcEnts idMax)
  have hndE : (E.map (fun p => p.2.title)).Nodup := by
    rw [hEe, List.map_append, List.nodup_append]
    refine ⟨htgtT, hCT, ?_⟩
    intro a ha hb
    obtain ⟨p, hp, hpa⟩ := List.mem_map.mp hb
    have hfresh := bwCreated_fresh byName linked srcEnts idMax p hp
    rw [alGet_eq_none, hbyKeys] at hfresh
    rw [← hpa] at ha
    exact hfresh ha
  obtain ⟨idMax₂, hscan₂⟩ := worldTargetScan_ok E [] 0 hkeys (by simpa using hndE)
  refine ⟨[] ++ E.map (fun p => (p.2.title, p.1)), idMax₂, hscan₂, ?_⟩
  have hbyName₂ : ([] : List (Option String × String)) ++ E.map (fun p => (p.2.title, p.1)) =
      byName ++ (bwCreated byName linked srcEnts idMax).map (fun p => (p.2.title, p.1)) := by
    rw [List.nil_append, hEe, List.map_append, ← hm]
  obtain ⟨hbw1, hbw2⟩ := bwM_run2 byName ([] ++ E.map (fun p => (p.2.title, p.1)))
    linked srcEnts idMax idMax₂
    (by
      intro s e hmem v hv
      rw [hbyName₂]
      rw [alGet_append_of_isSome _ _ _ (by rw [hv]; rfl)]
      exact hv)
    (by
      intro p hp
      rw [hbyName₂, alGet_append_none _ _ _ (bwCreated_fresh byName linked srcEnts idMax p hp)]
      exact alGet_titlePairs _ hCT p hp)
    (by
      intro s e hmem hv hl
      rw [hbyName₂, alGet_append_none _ _ _ hv]
      rw [alGet_eq_none, titlePairs_keys]
      intro hc
      obtain ⟨q, hq, hqt⟩ := List.mem_map.mp hc
      obtain ⟨s₂, hms₂, hl₂⟩ := bwCreated_src byName linked srcEnts idMax q hq
      have hpe : (s₂, q.2) = (s, e) :=
        List.inj_on_of_nodup_map hsrcT hms₂ hmem (by rw [hqt])
      rw [Prod.mk.injEq] at hpe
      rw [← hpe.1] at hl
      exact hl hl₂)
  obtain ⟨hsb, hbb, hsc₂⟩ := worldTargetScan_spec E [] 0
    ([] ++ E.map (fun p => (p.2.title, p.1))) idMax₂ hscan₂
  intro srt₂
  have hspec₂ := bindWorld_spec ([] ++ E.map (fun p => (p.2.title, p.1))) linked srcEnts
    [] E srt₂ idMax₂ hbb hsc₂
  rw [hspec₂, hbw1, hbw2, hM]
  refine ⟨bwIdMax ([] ++ E.map (fun p => (p.2.title, p.1))) linked srcEnts idMax₂, ?_⟩
  simp

/-- Per-id outcome of the run-1 update loop, phrased on the final loop
state: a skipped notes scene leaves its title inactive or bound to an
already-flagged scene, and every other processed scene ends bound to a
listed active scene on which `updSceneFields` is a fixpoint. -/
theorem run1_per_id (so : Bool) (tgt src : YwNovel)
    (scan : SrcScan) (scIdMax : Int) (marked : List (String × PyScene))
    (scT : List (Option String × String)) (crM lcM itM : List (String × String))
    (nci : String) (ust : UpdState)
    (h1 : srcScan src.scenes ⟨[], [], [], []⟩ = .ok scan)
    (h5 : markUnusedScan scan.titles tgt.scenes 0 = .ok (scIdMax, marked))
    (h7 : buildScIdsByTitle marked tgt.chapters [] = .ok scT)
    (hnciF : ¬ nci ∈ tgt.chapters.map Prod.fst)
    (h11 : syncScenes so scT crM lcM itM src.scenes nci
      (processedIds src.chapters) ⟨marked, tgt.chapters, tgt.srtChapters, scIdMax, false⟩ =
        .ok ust)
    (hnodup : (processedIds src.chapters).Nodup)
    (hflag : ∀ p ∈ src.scenes, truthyB p.2.isUnused = true → truthyB p.2.isNotesScene = true)
    (hvals : ¬ "" ∈ alVals crM)
    (id : String) (hid : id ∈ processedIds src.chapters) :
    ∃ ssc, alGet src.scenes id = some ssc ∧
      (((truthyB ssc.isNotesScene ∧ so) ∧
          ¬ ssc.title ∈ activesOf ust.scenes ust.chapters) ∨
       (∃ scId tsc₁, scId ∈ listedIds ust.chapters ∧
           alGet ust.scenes scId = some tsc₁ ∧
           activeTitled ust.scenes scId = some ssc.title ∧
           (((truthyB ssc.isNotesScene ∧ so) ∧ notesFlagged tsc₁ = tsc₁) ∨
            (¬ (truthyB ssc.isNotesScene ∧ so) ∧
              updSceneFields crM lcM itM ssc tsc₁ = .ok tsc₁)))) := by
  have hndsrc := (srcScan_ok_nodup _ _ _ h1).1
  have htl := srcScan_ok_titles _ _ _ h1
  have ctx : C9Ctx scan.titles scT src.scenes nci tgt.chapters :=
    ⟨hndsrc, fun p hp => hflag p hp,
     fun id' s hs => by
       rw [htl]
       exact List.mem_append_right _ (List.mem_map.mpr ⟨(id', s), alGet_mem _ _ _ hs, rfl⟩),
     hnciF⟩
  have hinv0 : LoopInv so scan.titles scT src.scenes nci tgt.chapters tgt.srtChapters []
      ⟨marked, tgt.chapters, tgt.srtChapters, scIdMax, false⟩ :=
    loopInv_init scan.titles scT src.scenes nci tgt scIdMax marked h5 h7
  obtain ⟨hinvF, _, _, _⟩ := loopInv_run scan.titles scT src.scenes nci tgt.chapters
    tgt.srtChapters ctx so crM lcM itM (processedIds src.chapters) [] _ ust hinv0
    (by rw [List.nil_append]; exact hnodup) h11
  rw [List.nil_append] at hinvF
  obtain ⟨xs, ys, hsplit⟩ := List.append_of_mem hid
  have hnd2 := hnodup
  rw [hsplit, List.nodup_append] at hnd2
  have hidxs : ¬ id ∈ xs := fun hc => hnd2.2.2 hc (by simp)
  have hidys : ¬ id ∈ ys := (List.nodup_cons.mp hnd2.2.1).1
  have h11' := h11
  rw [hsplit, syncScenes_append] at h11'
  cases hx : syncScenes so scT crM lcM itM src.scenes nci xs
      ⟨marked, tgt.chapters, tgt.srtChapters, scIdMax, false⟩ with
  | error e => rw [hx] at h11'; exact absurd h11' (by simp)
  | ok stm =>
  rw [hx] at h11'
  dsimp only at h11'
  rw [syncScenes] at h11'
  cases hy : syncScene so scT crM lcM itM src.scenes nci id stm with
  | error e => rw [hy] at h11'; exact absurd h11' (by simp)
  | ok stm1 =>
  rw [hy] at h11'
  dsimp only at h11'
  obtain ⟨hinvX, hmaxX, hpresX, hlX⟩ := loopInv_run scan.titles scT src.scenes nci tgt.chapters
    tgt.srtChapters ctx so crM lcM itM xs [] _ stm hinv0
    (by rw [List.nil_append]; exact hnd2.1) hx
  rw [List.nil_append] at hinvX
  obtain ⟨hinvY, hmaxY, hpresY, hlY⟩ := loopInv_step scan.titles scT src.scenes nci tgt.chapters
    tgt.srtChapters ctx so crM lcM itM id xs stm stm1 hinvX hidxs hy
  obtain ⟨hinvZ, hmaxZ, hpresZ, hlZ⟩ := loopInv_run scan.titles scT src.scenes nci tgt.chapters
    tgt.srtChapters ctx so crM lcM itM ys (xs ++ [id]) stm1 ust hinvY
    (by
      rw [List.append_assoc]
      show (xs ++ (id :: ys)).Nodup
      rw [← hsplit]
      exact hnodup) h11'
  obtain ⟨ssc, hssc, hcases⟩ := syncScene_cases so scT crM lcM itM src.scenes nci id stm stm1 hy
  refine ⟨ssc, hssc, ?_⟩
  have hother : ∀ scId, alGet scT ssc.title = some scId →
      ∀ id' ∈ ys, ∀ ssc', alGet src.scenes id' = some ssc' →
      ¬ alGet scT ssc'.title = some scId := by
    intro scId hm id' hid' ssc' hssc' hcon
    have hinj := buildScIdsByTitle_val_inj marked tgt.chapters scT h7
      ssc'.title ssc.title scId hcon hm
    have heq := alGet_title_inj src.scenes hndsrc id' id ssc' ssc hssc' hssc hinj
    exact hidys (heq ▸ hid')
  rcases hcases with ⟨hskip, hm, hst⟩ | ⟨scId, tsc, hskip, hm, hts, hst⟩ |
    ⟨scId, tsc, tsc', hskip, hm, hts, hu, hst⟩ | ⟨tsc', nc, p1, p2, hskip, hm, hu, hp, hnc, hst⟩
  · refine Or.inl ⟨hskip, ?_⟩
    intro hact
    rcases hinvF.activesSrc ssc.title hact with hk | ⟨id', hid', s, hs, ht, hns⟩
    · rw [alGet_eq_none] at hm
      exact hm hk
    · have heq : id' = id := alGet_title_inj src.scenes hndsrc id' id s ssc hs hssc ht
      subst heq
      rw [hssc] at hs
      have hse : ssc = s := Option.some.inj hs
      subst hse
      exact hns hskip
  · subst hst
    obtain ⟨hlst, hat⟩ := hinvX.scTrack ssc.title scId hm
    obtain ⟨tsc₀, hg0, ht0, hact0⟩ := activeTitled_elim stm.scenes scId ssc.title hat
    rw [hts] at hg0
    have hte : tsc = tsc₀ := Option.some.inj hg0
    subst hte
    obtain ⟨n, hn, hnle⟩ := hinvX.keys (scId, tsc) (alGet_mem _ _ _ hts)
    obtain ⟨hu2, _⟩ := syncScenes_untouched so scT crM lcM itM src.scenes nci ys
      { stm with scenes := alSet stm.scenes scId (notesFlagged tsc) } ust scId n h11'
      hn hnle hinvX.maxNonneg
      (fun id' hid' ssc' hssc' => hother scId hm id' hid' ssc' hssc')
    have hfin : alGet ust.scenes scId = some (notesFlagged tsc) := by
      rw [hu2]
      show alGet (alSet stm.scenes scId (notesFlagged tsc)) scId = _
      rw [alGet_alSet, if_pos rfl]
    have hX : ¬ (truthyB (notesFlagged tsc).isUnused ∧
        ¬ truthyB (notesFlagged tsc).isNotesScene) := fun hc => hc.2 rfl
    have hactF := activeTitled_intro ust.scenes scId (notesFlagged tsc) hfin hX
    rw [show (notesFlagged tsc).title = tsc.title from rfl, ht0] at hactF
    exact Or.inr ⟨scId, notesFlagged tsc, hlZ scId (hlY scId hlst), hfin, hactF,
      Or.inl ⟨hskip, notesFlagged_idem tsc⟩⟩
  · subst hst
    obtain ⟨hlst, hat⟩ := hinvX.scTrack ssc.title scId hm
    obtain ⟨tsc₀, hg0, ht0, hact0⟩ := activeTitled_elim stm.scenes scId ssc.title hat
    rw [hts] at hg0
    have hte : tsc = tsc₀ := Option.some.inj hg0
    subst hte
    obtain ⟨n, hn, hnle⟩ := hinvX.keys (scId, tsc) (alGet_mem _ _ _ hts)
    obtain ⟨hu2, _⟩ := syncScenes_untouched so scT crM lcM itM src.scenes nci ys
      { stm with scenes := alSet stm.scenes scId tsc' } ust scId n h11'
      hn hnle hinvX.maxNonneg
      (fun id' hid' ssc' hssc' => hother scId hm id' hid' ssc' hssc')
    have hfin : alGet ust.scenes scId = some tsc' := by
      rw [hu2]
      show alGet (alSet stm.scenes scId tsc') scId = _
      rw [alGet_alSet, if_pos rfl]
    have hmem := alGet_mem _ _ _ hssc
    have hX : ¬ (truthyB tsc'.isUnused ∧ ¬ truthyB tsc'.isNotesScene) := by
      intro hc
      rw [updSceneFields_isUnused _ _ _ _ _ _ hu,
        updSceneFields_isNotesScene _ _ _ _ _ _ hu] at hc
      exact hc.2 (hflag (id, ssc) hmem hc.1)
    have hactF := activeTitled_intro ust.scenes scId tsc' hfin hX
    rw [updSceneFields_title _ _ _ _ _ _ hu, ht0] at hactF
    exact Or.inr ⟨scId, tsc', hlZ scId (hlY scId hlst), hfin, hactF,
      Or.inr ⟨hskip, updSceneFields_idem crM lcM itM ssc tsc tsc' hvals hu⟩⟩
  · have hkc : pyInt? (pyIntStr (stm.scIdMax + 1)) = some (stm.scIdMax + 1) :=
      pyInt?_pyIntStr _ (by have hz := hinvX.maxNonneg; omega)
    have hgets : alGet stm1.scenes (pyIntStr (stm.scIdMax + 1)) = some tsc' := by
      rw [hst]
      show alGet (alSet (alSet stm.scenes (pyIntStr (stm.scIdMax + 1)) (newSceneRec ssc.title))
        (pyIntStr (stm.scIdMax + 1)) tsc') (pyIntStr (stm.scIdMax + 1)) = _
      rw [alGet_alSet, if_pos rfl]
    have hmax1 : stm1.scIdMax = stm.scIdMax + 1 := by rw [hst]
    have hnotval : ∀ id' ∈ ys, ∀ ssc', alGet src.scenes id' = some ssc' →
        ¬ alGet scT ssc'.title = some (pyIntStr (stm.scIdMax + 1)) := by
      intro id' hid' ssc' hssc' hcon
      obtain ⟨hl', ha'⟩ := hinvX.scTrack ssc'.title _ hcon
      obtain ⟨sc₂, hg₂, ht₂, hx₂⟩ := activeTitled_elim stm.scenes _ _ ha'
      obtain ⟨n₂, hn₂, hle₂⟩ := hinvX.keys (pyIntStr (stm.scIdMax + 1), sc₂)
        (alGet_mem _ _ _ hg₂)
      rw [hkc] at hn₂
      have hne : stm.scIdMax + 1 = n₂ := Option.some.inj hn₂
      omega
    have hz := hinvX.maxNonneg
    obtain ⟨hu2, _⟩ := syncScenes_untouched so scT crM lcM itM src.scenes nci ys stm1 ust
      (pyIntStr (stm.scIdMax + 1)) (stm.scIdMax + 1) h11' hkc (by omega) (by omega) hnotval
    have hfin : alGet ust.scenes (pyIntStr (stm.scIdMax + 1)) = some tsc' := by
      rw [hu2]
      exact hgets
    have hlst1 : (pyIntStr (stm.scIdMax + 1)) ∈ listedIds stm1.chapters := by
      rw [hst]
      show _ ∈ listedIds (alSet p1 nci
        { nc with srtScenes := nc.srtScenes ++ [pyIntStr (stm.scIdMax + 1)] })
      exact listedIds_mem_of _ nci _ (alSet_mem_self p1 nci _) _
        (List.mem_append_right _ (by simp))
    have hmem := alGet_mem _ _ _ hssc
    have hX : ¬ (truthyB tsc'.isUnused ∧ ¬ truthyB tsc'.isNotesScene) := by
      intro hc
      rw [updSceneFields_isUnused _ _ _ _ _ _ hu,
        updSceneFields_isNotesScene _ _ _ _ _ _ hu] at hc
      exact hc.2 (hflag (id, ssc) hmem hc.1)
    have hactF := activeTitled_intro ust.scenes (pyIntStr (stm.scIdMax + 1)) tsc' hfin hX
    rw [updSceneFields_title _ _ _ _ _ _ hu,
      show (newSceneRec ssc.title).title = ssc.title from rfl] at hactF
    exact Or.inr ⟨pyIntStr (stm.scIdMax + 1), tsc', hlZ _ hlst1, hfin, hactF,
      Or.inr ⟨hskip, updSceneFields_idem crM lcM itM ssc (newSceneRec ssc.title) tsc' hvals hu⟩⟩

/-- A single source scene whose run-1 outcome is already reflected in
the state is a no-op for `syncScene`. -/
theorem syncScene_noop_of (so : Bool) (scT₂ : List (Option String × String))
    (crM lcM itM : List (String × String)) (srcScenes : List (String × PyScene))
    (nci : String) (id : String) (ssc : PyScene) (S : List (String × PyScene))
    (chs : List (String × PyChapter))
    (hssc : alGet srcScenes id = some ssc)
    (hscT : buildScIdsByTitle S chs [] = .ok scT₂)
    (hfact : (((truthyB ssc.isNotesScene ∧ so) ∧ ¬ ssc.title ∈ activesOf S chs) ∨
      (∃ scId tsc₁, scId ∈ listedIds chs ∧ alGet S scId = some tsc₁ ∧
        activeTitled S scId = some ssc.title ∧
        (((truthyB ssc.isNotesScene ∧ so) ∧ notesFlagged tsc₁ = tsc₁) ∨
         (¬ (truthyB ssc.isNotesScene ∧ so) ∧
           updSceneFields crM lcM itM ssc tsc₁ = .ok tsc₁)))))
    (st : UpdState) (hS : st.scenes = S) :
    syncScene so scT₂ crM lcM itM srcScenes nci id st = .ok st := by
  unfold syncScene
  rw [hssc]
  dsimp only
  rcases hfact with ⟨hskip, hnact⟩ | ⟨scId, tsc₁, hlst, hget, hact, hcase⟩
  · rw [if_pos hskip]
    have hkeys : scT₂.map Prod.fst = activesOf S chs := by
      have he := buildScIdsByTitle_entries S chs [] scT₂ hscT
      rw [List.nil_append] at he
      rw [he, filterMap_pairs_fst]
      rfl
    have hnone : alGet scT₂ ssc.title = none := by
      rw [alGet_eq_none, hkeys]
      exact hnact
    rw [hnone]
  · have hsome : alGet scT₂ ssc.title = some scId :=
      buildScIdsByTitle_complete S chs scT₂ hscT scId ssc.title hlst hact
    rcases hcase with ⟨hskip, hflg⟩ | ⟨hskip, hupd⟩
    · rw [if_pos hskip, hsome]
      dsimp only
      rw [hS, hget]
      dsimp only
      rw [show ({ tsc₁ with isNotesScene := some true, isUnused := some true } : PyScene) =
        notesFlagged tsc₁ from rfl, hflg, alSet_self S scId tsc₁ hget, ← hS]
    · rw [if_neg hskip, hsome]
      dsimp only
      rw [hS, hget]
      dsimp only
      rw [hupd]
      dsimp only
      rw [alSet_self S scId tsc₁ hget, ← hS]

/-- A loop of per-scene no-ops is a no-op. -/
theorem syncScenes_noop (so : Bool) (scT₂ : List (Option String × String))
    (crM lcM itM : List (String × String)) (srcScenes : List (String × PyScene))
    (nci : String) (ids : List String) (S : List (String × PyScene))
    (h : ∀ id ∈ ids, ∀ st : UpdState, st.scenes = S →
      syncScene so scT₂ crM lcM itM srcScenes nci id st = .ok st)
    (st : UpdState) (hS : st.scenes = S) :
    syncScenes so scT₂ crM lcM itM srcScenes nci ids st = .ok st := by
  induction ids with
  | nil => rfl
  | cons id rest ih =>
    rw [syncScenes, h id (by simp) st hS]
    exact ih (fun id' hid' st' hst' => h id' (by simp [hid']) st' hst')

/-- C9 (amended): a successful `Yw7Target.merge` run is idempotent when
the source flags every unused scene as a notes scene, lists no scene id
twice across its chapters, and keeps world-entity titles unique per
kind: merging the same source into the first run's result returns the
same success message and leaves the novel unchanged. -/
theorem spec_c9_amended (so : Bool) (tgt src t₁ : YwNovel)
    (hrun : Yw7Target.merge so tgt src = .ret "Novel updated from timeline data." t₁)
    (hflag : ∀ p ∈ src.scenes, truthyB p.2.isUnused = true → truthyB p.2.isNotesScene = true)
    (hnodup : (processedIds src.chapters).Nodup)
    (hcrT : (src.characters.map (fun p => p.2.title)).Nodup)
    (hlcT : (src.locations.map (fun p => p.2.title)).Nodup)
    (hitT : (src.items.map (fun p => p.2.title)).Nodup) :
    Yw7Target.merge so t₁ src = .ret "Novel updated from timeline data." t₁ := by
  obtain ⟨scan, scIdMax, marked, chIdMax, scT, crByName, crIdMax, lcByTitle, lcIdMax,
    itByTitle, itIdMax, ust, h1, h2, h3, h4, h5, h6, h7, h8, h9, h10, h11, ht⟩ :=
    yw7_merge_ok_full so tgt src t₁ hrun
  rcases hcrB : bindWorld crByName scan.linkedC src.characters
      ⟨[], tgt.characters, tgt.srtCharacters, crIdMax⟩ with ⟨crM, crE, crS, crI⟩
  rcases hlcB : bindWorld lcByTitle scan.linkedL src.locations
      ⟨[], tgt.locations, tgt.srtLocations, lcIdMax⟩ with ⟨lcM, lcE, lcS, lcI⟩
  rcases hitB : bindWorld itByTitle scan.linkedI src.items
      ⟨[], tgt.items, tgt.srtItems, itIdMax⟩ with ⟨itM, itE, itS, itI⟩
  rw [hcrB, hlcB, hitB] at h11 ht
  dsimp only at h11 ht
  subst ht
  rw [updateChapters_eq_processed] at h11
  have hndsrc := (srcScan_ok_nodup _ _ _ h1).1
  have htl := srcScan_ok_titles _ _ _ h1
  have hchb := maxIdScan_spec tgt.chapters 0 chIdMax h6
  have hnciF : ¬ pyIntStr (chIdMax + 1) ∈ tgt.chapters.map Prod.fst := by
    intro hc
    obtain ⟨p, hp, hpk⟩ := List.mem_map.mp hc
    obtain ⟨n, hn, hle⟩ := hchb.1 p hp
    rw [hpk, pyInt?_pyIntStr _ (by have hz := hchb.2; omega)] at hn
    have he : chIdMax + 1 = n := Option.some.inj hn
    omega
  have ctx : C9Ctx scan.titles scT src.scenes (pyIntStr (chIdMax + 1)) tgt.chapters :=
    ⟨hndsrc, fun p hp => hflag p hp,
     fun id' sv hs => by
       rw [htl]
       exact List.mem_append_right _ (List.mem_map.mpr ⟨(id', sv), alGet_mem _ _ _ hs, rfl⟩),
     hnciF⟩
  have hinv0 : LoopInv so scan.titles scT src.scenes (pyIntStr (chIdMax + 1)) tgt.chapters
      tgt.srtChapters [] ⟨marked, tgt.chapters, tgt.srtChapters, scIdMax, false⟩ :=
    loopInv_init scan.titles scT src.scenes (pyIntStr (chIdMax + 1)) tgt scIdMax marked h5 h7
  obtain ⟨hinvF, hmF, hpF, hlF⟩ := loopInv_run scan.titles scT src.scenes
    (pyIntStr (chIdMax + 1)) tgt.chapters tgt.srtChapters ctx so crM lcM itM
    (processedIds src.chapters) [] _ ust hinv0 (by rw [List.nil_append]; exact hnodup) h11
  rw [List.nil_append] at hinvF
  obtain ⟨hmC, hbC, hleC⟩ := worldTargetScan_spec tgt.characters [] 0 crByName crIdMax h8
  rw [List.nil_append] at hmC
  have hvals : ¬ "" ∈ alVals crM := by
    have hspecC := bindWorld_spec crByName scan.linkedC src.characters [] tgt.characters
      tgt.srtCharacters crIdMax hbC hleC
    rw [hcrB] at hspecC
    have hcrM : crM = bwM crByName scan.linkedC src.characters crIdMax := by
      have hh := congrArg BindSt.m hspecC
      simpa using hh
    rw [hcrM]
    refine bwM_vals crByName scan.linkedC src.characters crIdMax hleC ?_
    intro τ v hv hve
    have hmem := alGet_mem _ _ _ hv
    rw [hmC] at hmem
    obtain ⟨p, hp, hpe⟩ := List.mem_map.mp hmem
    obtain ⟨n, hn, _⟩ := hbC p hp
    rw [Prod.mk.injEq] at hpe
    rw [hpe.2, hve, show pyInt? "" = none from rfl] at hn
    exact absurd hn (by simp)
  have hmk₂ := markUnusedScan_noop scan.titles ust.scenes 0
    (fun p hp => (hinvF.keys p hp).imp (fun n hn => hn.1))
    (fun p hp => hinvF.stable p hp)
  obtain ⟨scIdMax₂, hmk₂, hle₂, hb₂⟩ := hmk₂
  have hchk : ∀ p ∈ ust.chapters, ∃ n, pyInt? p.1 = some n := by
    rcases hinvF.chShape with ⟨_, hch, _⟩ | ⟨_, cr, hch, _⟩
    · rw [hch]
      intro p hp
      exact (hchb.1 p hp).imp (fun n hn => hn.1)
    · rw [hch]
      intro p hp
      rcases List.mem_append.mp hp with hp1 | hp2
      · exact (hchb.1 p hp1).imp (fun n hn => hn.1)
      · rw [List.mem_singleton] at hp2
        subst hp2
        exact ⟨chIdMax + 1, pyInt?_pyIntStr _ (by have hz := hchb.2; omega)⟩
  obtain ⟨chIdMax₂, hmx₂⟩ := maxIdScan_ok ust.chapters 0 hchk
  obtain ⟨scT₂, hscT₂⟩ := buildScIdsByTitle_ok ust.scenes ust.chapters []
    hinvF.listedSome (by simpa using hinvF.activesNodup)
  obtain ⟨byC₂, iC₂, hscanC₂, hbindC₂⟩ := world_phase_run2 tgt.characters src.characters
    scan.linkedC tgt.srtCharacters crByName crIdMax crM crE crS crI h8 h2 hcrT hcrB
  obtain ⟨byL₂, iL₂, hscanL₂, hbindL₂⟩ := world_phase_run2 tgt.locations src.locations
    scan.linkedL tgt.srtLocations lcByTitle lcIdMax lcM lcE lcS lcI h9 h3 hlcT hlcB
  obtain ⟨byI₂, iI₂, hscanI₂, hbindI₂⟩ := world_phase_run2 tgt.items src.items
    scan.linkedI tgt.srtItems itByTitle itIdMax itM itE itS itI h10 h4 hitT hitB
  obtain ⟨IC₂, hbc⟩ := hbindC₂ crS
  obtain ⟨IL₂, hbl⟩ := hbindL₂ lcS
  obtain ⟨II₂, hbi⟩ := hbindI₂ itS
  have hnoop : syncScenes so scT₂ crM lcM itM src.scenes (pyIntStr (chIdMax₂ + 1))
      (processedIds src.chapters)
      ⟨ust.scenes, ust.chapters, ust.srtChapters, scIdMax₂, false⟩ =
      .ok ⟨ust.scenes, ust.chapters, ust.srtChapters, scIdMax₂, false⟩ := by
    refine syncScenes_noop so scT₂ crM lcM itM src.scenes (pyIntStr (chIdMax₂ + 1))
      (processedIds src.chapters) ust.scenes ?_ _ rfl
    intro id hid st hS
    obtain ⟨ssc, hssc, hfact⟩ := run1_per_id so tgt src scan scIdMax marked scT crM lcM itM
      (pyIntStr (chIdMax + 1)) ust h1 h5 h7 hnciF h11 hnodup hflag hvals id hid
    exact syncScene_noop_of so scT₂ crM lcM itM src.scenes (pyIntStr (chIdMax₂ + 1)) id ssc
      ust.scenes ust.chapters hssc hscT₂ hfact st hS
  unfold Yw7Target.merge
  dsimp only
  rw [h1]
  dsimp only
  rw [h2]
  dsimp only
  rw [h3]
  dsimp only
  rw [h4]
  dsimp only
  rw [hmk₂]
  dsimp only
  rw [hmx₂]
  dsimp only
  rw [hscT₂]
  dsimp only
  rw [hscanC₂]
  dsimp only
  rw [hscanL₂]
  dsimp only
  rw [hscanI₂]
  dsimp only
  rw [hbc, hbl, hbi]
  dsimp only
  rw [updateChapters_eq_processed, hnoop]

/-- C9 witness: on a concrete update-and-create scenario satisfying the
amended hypotheses, the second run reproduces the first run's result
exactly. -/
theorem spec_c9_witness :
    Yw7Target.merge true c9aTgt c9aSrc = .ret "Novel updated from timeline data." c9aRes ∧
    Yw7Target.merge true c9aRes c9aSrc = .ret "Novel updated from timeline data." c9aRes :=
  ⟨by rfl,
   spec_c9_amended true c9aTgt c9aSrc c9aRes (by rfl) (by decide) (by decide) (by decide)
     (by decide) (by decide)⟩

end Aeon2yw
